import Mathlib

/-!
# 3D maze demo (`BSIT1CPROECT1STSEM.C`): shallow embedding and verified properties

The C program keeps its state in file-level variables.  Here the state is an explicit
record `Game` that every operation receives and returns.

* `int` variables are `Int` (all values that occur are tiny compared with the 32-bit range);
* `float` / `double` variables are exact rationals `ℚ`;
* `maze[y][x]` and `seen[y][x]` are functions of the two indices, row first;
* `rand()` reads the head of a stream of natural numbers kept in the state;
* `GenerateMazeRecursive` carries a recursion-depth budget and returns `none` when it is
  exhausted; the theorems show that a budget above `mazeW * mazeH` is always enough.
-/

namespace Maze

/-! ## Constants and data model -/

/-- `#define MAX_SIZE 41`. -/
def MAX_SIZE : Int := 41

/-- `#define CELL_SIZE 2.0f`. -/
def CELL_SIZE : ℚ := 2

/-- `enum { CELL_WALL = 1, CELL_EMPTY = 0 }`. -/
def CELL_WALL : Int := 1

/-- The value of an open cell. -/
def CELL_EMPTY : Int := 0

/-- `typedef enum { LEVEL_EASY = 0, LEVEL_MEDIUM = 1, LEVEL_HARD = 2 } Level`. -/
inductive Level where
  | LEVEL_EASY
  | LEVEL_MEDIUM
  | LEVEL_HARD
deriving DecidableEq, Repr

/-- The integer value of a `Level` enumerator. -/
def Level.toInt : Level → Int
  | .LEVEL_EASY => 0
  | .LEVEL_MEDIUM => 1
  | .LEVEL_HARD => 2

/-- The cast `(Level) n` for the values `0`, `1`, `2` that `(currentLevel+1)%3` produces. -/
def Level.ofInt (n : Int) : Level :=
  if n = 0 then .LEVEL_EASY else if n = 1 then .LEVEL_MEDIUM else .LEVEL_HARD

/-- `static const int levelSizes[3] = { 21, 31, 41 }`, indexed by the level. -/
def levelSizes (L : Level) : Int :=
  [21, 31, 41].getD L.toInt.toNat 0

/-- `static const double levelTimes[3] = { 300.0, 180.0, 90.0 }`, indexed by the level. -/
def levelTimes (L : Level) : ℚ :=
  [300, 180, 90].getD L.toInt.toNat 0

/-- The raylib `Vector3`, with exact rational coordinates. -/
structure Vector3 where
  x : ℚ
  y : ℚ
  z : ℚ

/-- The file-level variables of the program, and the stream of values `rand()` will return. -/
structure Game where
  maze : Int → Int → Int
  seen : Int → Int → Int
  mazeW : Int
  mazeH : Int
  revealRadius : Int
  playerPos : Vector3
  playerYaw : ℚ
  currentLevel : Level
  levelTimeRemaining : ℚ
  showMap : Bool
  mouseLook : Bool
  rng : Nat → Nat

/-! ## Grid access -/

/-- `IsInside(x, y)`. -/
def IsInside (s : Game) (x y : Int) : Bool :=
  decide (x ≥ 0) && decide (x < s.mazeW) && decide (y ≥ 0) && decide (y < s.mazeH)

/-- `CellAt(x, y)`. -/
def CellAt (s : Game) (x y : Int) : Int :=
  if !IsInside s x y then CELL_WALL else s.maze y x

/-- `SetCell(x, y, v)`. -/
def SetCell (s : Game) (x y v : Int) : Game :=
  if !IsInside s x y then s
  else { s with maze := fun y' x' => if y' = y ∧ x' = x then v else s.maze y' x' }

/-! ## Random numbers and the shuffle -/

/-- One call of `rand()`: the value returned and the state afterwards. -/
def rand (s : Game) : Nat × Game :=
  (s.rng 0, { s with rng := fun n => s.rng (n + 1) })

/-- The three statements `t = arr[i]; arr[i] = arr[j]; arr[j] = t`. -/
def swapAt (arr : List Int) (i j : Nat) : List Int :=
  let t := arr.getD i 0
  let arr1 := arr.set i (arr.getD j 0)
  arr1.set j t

/-- The loop of `Shuffle`, entered with loop variable `i`: it runs while `i > 0`. -/
def ShuffleLoop : Nat → List Int → Game → List Int × Game
  | 0, arr, s => (arr, s)
  | i + 1, arr, s =>
    let r := rand s
    let j := r.1 % (i + 1 + 1)
    ShuffleLoop i (swapAt arr (i + 1) j) r.2

/-- `Shuffle(arr, n)`. -/
def Shuffle (arr : List Int) (n : Nat) (s : Game) : List Int × Game :=
  ShuffleLoop (n - 1) arr s

/-! ## Maze generation -/

/-- The C value of a comparison `d == k`: `1` when it holds and `0` otherwise. -/
def eqInt (d k : Int) : Int := if d = k then 1 else 0

/-- The `for (i...) { int d = dirs[i]; ... }` loop of `GenerateMazeRecursive`, over the
directions still to be tried; `recur` is the recursive call. -/
def carveDirs (recur : Game → Int → Int → Option Game) (sx sy : Int) :
    List Int → Game → Option Game
  | [], s => some s
  | d :: ds, s =>
    let nx := sx + (eqInt d 1 - eqInt d 3) * 2
    let ny := sy + (eqInt d 2 - eqInt d 0) * 2
    if !IsInside s nx ny then carveDirs recur sx sy ds s
    else if CellAt s nx ny = CELL_WALL then
      let wx := sx + (eqInt d 1 - eqInt d 3)
      let wy := sy + (eqInt d 2 - eqInt d 0)
      match recur (SetCell s wx wy CELL_EMPTY) nx ny with
      | none => none
      | some s1 => carveDirs recur sx sy ds s1
    else carveDirs recur sx sy ds s

/-- `GenerateMazeRecursive(sx, sy)`, with a budget for the depth of the recursion. -/
def GenerateMazeRecursive : Nat → Game → Int → Int → Option Game
  | 0, _, _, _ => none
  | fuel + 1, s, sx, sy =>
    let s1 := SetCell s sx sy CELL_EMPTY
    let sh := Shuffle [0, 1, 2, 3] 4 s1
    carveDirs (GenerateMazeRecursive fuel) sx sy sh.1 sh.2

/-- `ResetPlayerToStart()`. -/
def ResetPlayerToStart (s : Game) : Game :=
  { s with playerPos := ⟨1 * CELL_SIZE, 0, 1 * CELL_SIZE⟩, playerYaw := 0 }

/-- The first loop of `InitGame`: every entry of both `MAX_SIZE × MAX_SIZE` arrays is
written, `maze[y][x] = CELL_WALL; seen[y][x] = 0`. -/
def clearArrays (s : Game) : Game :=
  { s with
    maze := fun y x =>
      if 0 ≤ y ∧ y < MAX_SIZE ∧ 0 ≤ x ∧ x < MAX_SIZE then CELL_WALL else s.maze y x
    seen := fun y x =>
      if 0 ≤ y ∧ y < MAX_SIZE ∧ 0 ≤ x ∧ x < MAX_SIZE then 0 else s.seen y x }

/-- The two statements `if (mazeW % 2 == 0) mazeW--; if (mazeH % 2 == 0) mazeH--;`
(`%` in C truncates towards zero, which is `Int.tmod`). -/
def makeOdd (s : Game) : Game :=
  let s1 := if Int.tmod s.mazeW 2 = 0 then { s with mazeW := s.mazeW - 1 } else s
  if Int.tmod s1.mazeH 2 = 0 then { s1 with mazeH := s1.mazeH - 1 } else s1

/-- `InitGame()`. -/
def InitGame (fuel : Nat) (s : Game) : Option Game :=
  let s1 := makeOdd (clearArrays s)
  match GenerateMazeRecursive fuel s1 1 1 with
  | none => none
  | some s2 =>
    let s3 := SetCell s2 1 1 CELL_EMPTY
    let s4 := SetCell s3 (s3.mazeW - 2) (s3.mazeH - 2) CELL_EMPTY
    some (ResetPlayerToStart s4)

/-- `SetLevel(L)`. -/
def SetLevel (fuel : Nat) (L : Level) (s : Game) : Option Game :=
  let s1 := { s with currentLevel := L }
  let s2 := { s1 with mazeH := levelSizes L, mazeW := levelSizes L }
  let s3 := { s2 with levelTimeRemaining := levelTimes L }
  let s4 :=
    if s3.currentLevel = .LEVEL_EASY then { s3 with revealRadius := 5 }
    else if s3.currentLevel = .LEVEL_MEDIUM then { s3 with revealRadius := 4 }
    else { s3 with revealRadius := 3 }
  InitGame fuel s4

/-! ## Collision test and movement -/

/-- `roundf`: the nearest integer, halfway cases away from zero. -/
def roundf (q : ℚ) : Int :=
  if 0 ≤ q then ⌊q + 1 / 2⌋ else ⌈q - 1 / 2⌉

/-- The body of the two nested loops of `CheckCollisionWithWalls` for the offsets `ox`, `oy`:
`true` when this iteration executes `return 1`. -/
def wallHit (s : Game) (newPos : Vector3) (cx cy ox oy : Int) : Bool :=
  let tx := cx + ox
  let ty := cy + oy
  if !IsInside s tx ty then false
  else if CellAt s tx ty = CELL_WALL then
    let minX := (tx : ℚ) * CELL_SIZE - CELL_SIZE * (1 / 2)
    let maxX := (tx : ℚ) * CELL_SIZE + CELL_SIZE * (1 / 2)
    let minZ := (ty : ℚ) * CELL_SIZE - CELL_SIZE * (1 / 2)
    let maxZ := (ty : ℚ) * CELL_SIZE + CELL_SIZE * (1 / 2)
    let r : ℚ := 1 / 4
    let px := newPos.x
    let pz := newPos.z
    let closestX := if px < minX then minX else if px > maxX then maxX else px
    let closestZ := if pz < minZ then minZ else if pz > maxZ then maxZ else pz
    let dx := px - closestX
    let dz := pz - closestZ
    decide (dx * dx + dz * dz < r * r)
  else false

/-- `CheckCollisionWithWalls(newPos)`: `true` stands for the return value `1` (blocked). -/
def CheckCollisionWithWalls (s : Game) (newPos : Vector3) : Bool :=
  let cx := roundf (newPos.x / CELL_SIZE)
  let cy := roundf (newPos.z / CELL_SIZE)
  if cx < 0 ∨ cx ≥ s.mazeW ∨ cy < 0 ∨ cy ≥ s.mazeH then true
  else
    [-1, 0, 1].any fun oy => [-1, 0, 1].any fun ox => wallHit s newPos cx cy ox oy

/-- The movement resolution of the frame loop (`if (!CheckCollisionWithWalls(proposed)) ...`),
for a given proposed position. -/
def ResolveMove (s : Game) (proposed : Vector3) : Game :=
  if !CheckCollisionWithWalls s proposed then { s with playerPos := proposed }
  else
    let testX : Vector3 := { s.playerPos with x := proposed.x }
    let testZ : Vector3 := { s.playerPos with z := proposed.z }
    if !CheckCollisionWithWalls s testX then
      { s with playerPos := { s.playerPos with x := testX.x } }
    else if !CheckCollisionWithWalls s testZ then
      { s with playerPos := { s.playerPos with z := testZ.z } }
    else s

/-- What the presentation layer reports during one frame: the keys pressed and held, the frame
time, the mouse movement, and the values `sinf(playerYaw)` and `cosf(playerYaw)` computed by the
C library. -/
structure Input where
  keyOne : Bool
  keyTwo : Bool
  keyThree : Bool
  keyTab : Bool
  keyG : Bool
  keyR : Bool
  keyM : Bool
  keyW : Bool
  keyS : Bool
  keyA : Bool
  keyD : Bool
  keySpace : Bool
  keyLeftShift : Bool
  keyLeft : Bool
  keyRight : Bool
  frameTime : ℚ
  mouseDeltaX : ℚ
  sinYaw : ℚ
  cosYaw : ℚ

/-- The `velocity` vector that the frame loop builds from the held keys. -/
def frameVelocity (inp : Input) : Vector3 :=
  let forward : Vector3 := ⟨inp.sinYaw, 0, inp.cosYaw⟩
  let right : Vector3 := ⟨-inp.cosYaw, 0, -inp.sinYaw⟩
  let speed : ℚ := 6 * inp.frameTime
  let v0 : Vector3 := ⟨0, 0, 0⟩
  let v1 := if inp.keyW then { v0 with x := v0.x + forward.x * speed, z := v0.z + forward.z * speed }
    else v0
  let v2 := if inp.keyS then { v1 with x := v1.x - forward.x * speed, z := v1.z - forward.z * speed }
    else v1
  let v3 := if inp.keyA then { v2 with x := v2.x - right.x * speed, z := v2.z - right.z * speed }
    else v2
  let v4 := if inp.keyD then { v3 with x := v3.x + right.x * speed, z := v3.z + right.z * speed }
    else v3
  let v5 := if inp.keySpace then { v4 with y := v4.y + speed } else v4
  if inp.keyLeftShift then { v5 with y := v5.y - speed } else v5

/-- The update of `playerYaw` by the mouse or by the arrow keys. -/
def turnStep (inp : Input) (s : Game) : Game :=
  if s.mouseLook then { s with playerYaw := s.playerYaw - inp.mouseDeltaX * (25 / 10000) }
  else
    let s1 := if inp.keyLeft then { s with playerYaw := s.playerYaw - (3 / 2) * inp.frameTime }
      else s
    if inp.keyRight then { s1 with playerYaw := s1.playerYaw + (3 / 2) * inp.frameTime } else s1

/-- "Attempt movement with collision": the proposed position is the player position plus the
velocity, and the move is then resolved against the walls. -/
def MoveStep (velocity : Vector3) (s : Game) : Game :=
  let proposed : Vector3 :=
    ⟨s.playerPos.x + velocity.x, s.playerPos.y + velocity.y, s.playerPos.z + velocity.z⟩
  ResolveMove s proposed

/-! ## Reveal -/

/-- The integers `lo, lo+1, ..., hi` visited by `for (v = lo; v <= hi; v++)`. -/
def intRange (lo hi : Int) : List Int :=
  (List.range (hi + 1 - lo).toNat).map fun (k : Nat) => lo + (k : Int)

/-- The body of the inner reveal loop for the cell `(x, y)`. -/
def revealCell (pcx pcy : Int) (s : Game) (x y : Int) : Game :=
  if !IsInside s x y then s
  else
    let dx := x - pcx
    let dy := y - pcy
    if dx * dx + dy * dy ≤ s.revealRadius * s.revealRadius then
      { s with seen := fun y' x' => if y' = y ∧ x' = x then 1 else s.seen y' x' }
    else s

/-- The two nested reveal loops, around the centre cell `(pcx, pcy)`. -/
def Reveal (s : Game) (pcx pcy : Int) : Game :=
  (intRange (pcy - s.revealRadius) (pcy + s.revealRadius)).foldl
    (fun s1 y =>
      (intRange (pcx - s1.revealRadius) (pcx + s1.revealRadius)).foldl
        (fun s2 x => revealCell pcx pcy s2 x y) s1)
    s

/-- "Reveal logic" of the frame loop: the centre is the cell nearest to the player. -/
def RevealStep (s : Game) : Game :=
  let pcx := roundf (s.playerPos.x / CELL_SIZE)
  let pcy := roundf (s.playerPos.z / CELL_SIZE)
  Reveal s pcx pcy

/-! ## The frame loop -/

/-- The key handling at the top of the frame loop. -/
def KeyStep (fuel : Nat) (inp : Input) (s : Game) : Option Game := do
  let s1 ← if inp.keyOne then SetLevel fuel .LEVEL_EASY s else some s
  let s2 ← if inp.keyTwo then SetLevel fuel .LEVEL_MEDIUM s1 else some s1
  let s3 ← if inp.keyThree then SetLevel fuel .LEVEL_HARD s2 else some s2
  let s4 ← if inp.keyTab then SetLevel fuel (Level.ofInt ((s3.currentLevel.toInt + 1) % 3)) s3
    else some s3
  let s5 := if inp.keyG then { s4 with showMap := !s4.showMap } else s4
  let s6 ← if inp.keyR then InitGame fuel s5 else some s5
  some (if inp.keyM then { s6 with mouseLook := !s6.mouseLook } else s6)

/-- "Timer update": the countdown, and the reset to `LEVEL_EASY` when it runs out. -/
def TimerStep (fuel : Nat) (dt : ℚ) (s : Game) : Option Game :=
  let s1 := { s with levelTimeRemaining := s.levelTimeRemaining - dt }
  if s1.levelTimeRemaining ≤ 0 then
    match SetLevel fuel .LEVEL_EASY s1 with
    | none => none
    | some s2 => InitGame fuel s2
  else some s1

/-- The test of the goal check: the player is closer than half a cell to the exit cell. -/
def goalReached (s : Game) : Bool :=
  let gx := s.mazeW - 2
  let gy := s.mazeH - 2
  let goalX := (gx : ℚ) * CELL_SIZE
  let goalZ := (gy : ℚ) * CELL_SIZE
  let dx := s.playerPos.x - goalX
  let dz := s.playerPos.z - goalZ
  decide (dx * dx + dz * dz < (1 / 2 * CELL_SIZE) * (1 / 2 * CELL_SIZE))

/-- "Check goal": advance to the next level when the exit is reached. -/
def GoalStep (fuel : Nat) (s : Game) : Option Game :=
  if goalReached s then
    match SetLevel fuel (Level.ofInt ((s.currentLevel.toInt + 1) % 3)) s with
    | none => none
    | some s1 => InitGame fuel s1
  else some s

/-- One iteration of the `while (!WindowShouldClose())` loop, without the drawing. -/
def Frame (fuel : Nat) (inp : Input) (s : Game) : Option Game := do
  let s1 ← KeyStep fuel inp s
  let velocity := frameVelocity inp
  let s2 := turnStep inp s1
  let s3 := MoveStep velocity s2
  let s4 := RevealStep s3
  let s5 ← TimerStep fuel inp.frameTime s4
  GoalStep fuel s5

/-! ## Vocabulary of the properties -/

/-- The cell `(x, y)` lies inside the active grid and is `CELL_EMPTY`. -/
def Open (s : Game) (c : Int × Int) : Prop :=
  IsInside s c.1 c.2 = true ∧ s.maze c.2 c.1 = CELL_EMPTY

instance (s : Game) (c : Int × Int) : Decidable (Open s c) := by
  unfold Open; exact inferInstance

/-- The cell `(x, y)` lies inside the active grid and is `CELL_WALL`. -/
def Wall (s : Game) (c : Int × Int) : Prop :=
  IsInside s c.1 c.2 = true ∧ s.maze c.2 c.1 = CELL_WALL

instance (s : Game) (c : Int × Int) : Decidable (Wall s c) := by
  unfold Wall; exact inferInstance

/-- Two cells are 4-adjacent: they differ by one in exactly one coordinate. -/
def Adjacent (a b : Int × Int) : Prop :=
  (a.2 = b.2 ∧ (a.1 + 1 = b.1 ∨ b.1 + 1 = a.1)) ∨ (a.1 = b.1 ∧ (a.2 + 1 = b.2 ∨ b.2 + 1 = a.2))

instance (a b : Int × Int) : Decidable (Adjacent a b) := by
  unfold Adjacent; exact inferInstance

/-- One move of a flood fill: from an open cell to a 4-adjacent open cell. -/
def Passage (s : Game) (a b : Int × Int) : Prop :=
  Open s a ∧ Open s b ∧ Adjacent a b

/-- The cell `b` is joined to `a` by a path of 4-adjacent open cells. -/
def Joined (s : Game) (a b : Int × Int) : Prop :=
  Relation.ReflTransGen (Passage s) a b

/-- The cells of the active grid. -/
def gridCells (s : Game) : Finset (Int × Int) :=
  Finset.Ico 0 s.mazeW ×ˢ Finset.Ico 0 s.mazeH

/-- The open cells of the active grid. -/
def emptyCells (s : Game) : Finset (Int × Int) :=
  (gridCells s).filter fun c => s.maze c.2 c.1 = CELL_EMPTY

/-- The wall cells of the active grid. -/
def wallCells (s : Game) : Finset (Int × Int) :=
  (gridCells s).filter fun c => s.maze c.2 c.1 = CELL_WALL

/-- The number of open cells. -/
def countEmpty (s : Game) : Nat := (emptyCells s).card

/-- The number of unordered pairs of 4-adjacent open cells: every such pair is counted at its
left cell (horizontal pairs) or at its upper cell (vertical pairs). -/
def countPassages (s : Game) : Nat :=
  ((emptyCells s).filter fun c => (c.1 + 1, c.2) ∈ emptyCells s).card +
    ((emptyCells s).filter fun c => (c.1, c.2 + 1) ∈ emptyCells s).card

/-- The squared Euclidean distance between two points of the horizontal plane. -/
def distSq (px pz bx bz : ℚ) : ℚ := (px - bx) * (px - bx) + (pz - bz) * (pz - bz)

/-- The point `(bx, bz)` belongs to the square footprint of the cell `(tx, ty)`. -/
def InFootprint (tx ty : Int) (bx bz : ℚ) : Prop :=
  2 * (tx : ℚ) - 1 ≤ bx ∧ bx ≤ 2 * (tx : ℚ) + 1 ∧ 2 * (ty : ℚ) - 1 ≤ bz ∧ bz ≤ 2 * (ty : ℚ) + 1

/-- The point `(px, pz)` keeps the player radius `1/4` from the footprint of every wall cell of
the active grid. -/
def Clear (s : Game) (px pz : ℚ) : Prop :=
  ∀ tx ty : Int, Wall s (tx, ty) → ∀ bx bz : ℚ, InFootprint tx ty bx bz →
    (1 / 4 : ℚ) * (1 / 4) ≤ distSq px pz bx bz

/-- The player position after resolving, one after the other, the given proposed positions. -/
def resolveAll (s : Game) (ps : List Vector3) : Game :=
  ps.foldl ResolveMove s

/-! ## Predicates used by the proofs -/

/-- The state `t` comes from `s` by carving: only `maze` and `rng` may differ, and a
cell of `maze` that differs lies inside the grid and is `CELL_EMPTY` in `t`. -/
structure Grows (s t : Game) : Prop where
  mazeW : t.mazeW = s.mazeW
  mazeH : t.mazeH = s.mazeH
  seen : t.seen = s.seen
  revealRadius : t.revealRadius = s.revealRadius
  playerPos : t.playerPos = s.playerPos
  playerYaw : t.playerYaw = s.playerYaw
  currentLevel : t.currentLevel = s.currentLevel
  levelTimeRemaining : t.levelTimeRemaining = s.levelTimeRemaining
  showMap : t.showMap = s.showMap
  mouseLook : t.mouseLook = s.mouseLook
  cell : ∀ x y : Int, t.maze y x = s.maze y x ∨ (IsInside s x y = true ∧ t.maze y x = CELL_EMPTY)

/-- The horizontal unit step of direction `d`: `(d==1) - (d==3)`. -/
def dirX (d : Int) : Int := eqInt d 1 - eqInt d 3

/-- The vertical unit step of direction `d`: `(d==2) - (d==0)`. -/
def dirY (d : Int) : Int := eqInt d 2 - eqInt d 0

/-- A unit step along one axis. -/
def UnitStep (dx dy : Int) : Prop :=
  (dx = 0 ∧ dy = -1) ∨ (dx = 1 ∧ dy = 0) ∨ (dx = 0 ∧ dy = 1) ∨ (dx = -1 ∧ dy = 0)

/-- The number `1` when the cell is open and `0` otherwise. -/
def openNum (s : Game) (x y : Int) : Nat := if Open s (x, y) then 1 else 0

/-- Every open cell is a room (both coordinates odd) or a passage cell between two open rooms
(one coordinate even, and the two cells next to it along that axis are open). -/
def Lattice (s : Game) : Prop :=
  ∀ x y : Int, Open s (x, y) →
    (x % 2 = 1 ∧ y % 2 = 1) ∨
    (x % 2 = 0 ∧ y % 2 = 1 ∧ Open s (x - 1, y) ∧ Open s (x + 1, y)) ∨
    (x % 2 = 1 ∧ y % 2 = 0 ∧ Open s (x, y - 1) ∧ Open s (x, y + 1))

/-- Every open cell is joined to the start cell `(1, 1)`. -/
def Connected (s : Game) : Prop :=
  ∀ c : Int × Int, Open s c → Joined s (1, 1) c

/-- The number of open cells among the four neighbours of `(x, y)`. -/
def openAround (s : Game) (x y : Int) : Nat :=
  openNum s (x + 1) y + openNum s (x - 1) y + openNum s x (y + 1) + openNum s x (y - 1)

/-- The open cells form a lattice and there is one more of them than open adjacent pairs. -/
def TreeShape (s : Game) : Prop :=
  Lattice s ∧ countEmpty s = countPassages s + 1

/-- Every cell of the active grid holds `CELL_WALL` or `CELL_EMPTY`. -/
def Binary (s : Game) : Prop :=
  ∀ x y : Int, IsInside s x y = true → s.maze y x = CELL_WALL ∨ s.maze y x = CELL_EMPTY

/-- Every room two cells away from the room `c` and inside the grid is open. -/
def ClosedAt (s : Game) (c : Int × Int) : Prop :=
  ∀ dx dy : Int, UnitStep dx dy → IsInside s (c.1 + 2 * dx) (c.2 + 2 * dy) = true →
    Open s (c.1 + 2 * dx, c.2 + 2 * dy)

/-- The dimensions are odd and between 3 and `MAX_SIZE`. -/
def OddDims (s : Game) : Prop :=
  s.mazeW % 2 = 1 ∧ s.mazeH % 2 = 1 ∧ 3 ≤ s.mazeW ∧ s.mazeW ≤ MAX_SIZE ∧ 3 ≤ s.mazeH ∧
    s.mazeH ≤ MAX_SIZE

/-- The values of the file-level variables when the program starts (static storage is
zero-initialised), for a given stream of `rand()` values. -/
def initialGame (rng : Nat → Nat) : Game :=
  { maze := fun _ _ => 0
    seen := fun _ _ => 0
    mazeW := 21
    mazeH := 21
    revealRadius := 4
    playerPos := ⟨0, 0, 0⟩
    playerYaw := 0
    currentLevel := .LEVEL_EASY
    levelTimeRemaining := 300
    showMap := true
    mouseLook := true
    rng := rng }

/-- A 5 × 5 grid in which the rooms `(1,1)`, `(3,1)`, `(3,3)`, `(1,3)` are joined in this
order, with the player in the room `(3,1)` near the corner of the wall cell `(2,2)`. -/
def cornerGame : Game :=
  { initialGame (fun _ => 0) with
    mazeW := 5
    mazeH := 5
    maze := fun y x =>
      if (x, y) ∈ [((1 : Int), (1 : Int)), (2, 1), (3, 1), (3, 2), (3, 3), (2, 3), (1, 3)] then
        CELL_EMPTY
      else CELL_WALL
    playerPos := ⟨53 / 10, 0, 27 / 10⟩ }

/-- A 5 × 5 start state and a stream of `rand()` values. -/
def fiveGame : Game :=
  { initialGame (fun n => [3, 2, 0, 3, 2, 1, 3, 2, 1, 3, 2, 1].getD n 0) with
    mazeW := 5
    mazeH := 5 }

/-- The cell `(x, y)` is one that the reveal step around `(cx, cy)` marks: it lies inside the
grid and within the reveal radius of the centre (squared Euclidean distance). -/
def InDisc (s : Game) (cx cy x y : Int) : Prop :=
  IsInside s x y = true ∧
    (x - cx) * (x - cx) + (y - cy) * (y - cy) ≤ s.revealRadius * s.revealRadius

instance (s : Game) (cx cy x y : Int) : Decidable (InDisc s cx cy x y) := by
  unfold InDisc; exact inferInstance

/-- A frame in which no key is pressed or held and the mouse does not move, lasting `dt`
seconds, with heading 0 (`sinf` gives 0 and `cosf` gives 1). -/
def idleInput (dt : ℚ) : Input :=
  { keyOne := false, keyTwo := false, keyThree := false, keyTab := false, keyG := false,
    keyR := false, keyM := false, keyW := false, keyS := false, keyA := false, keyD := false,
    keySpace := false, keyLeftShift := false, keyLeft := false, keyRight := false,
    frameTime := dt, mouseDeltaX := 0, sinYaw := 0, cosYaw := 1 }

/-- The state in which a timeout leaves the game: level EASY, a 21 × 21 grid that `InitGame`
returned, 300 seconds left, the 41 × 41 mask cleared, the player at `(2, 0, 2)` with heading 0,
and a goal check that changes nothing. -/
def AfterTimeout (fuel : Nat) (t : Game) : Prop :=
  t.currentLevel = .LEVEL_EASY ∧ t.mazeW = 21 ∧ t.mazeH = 21 ∧ t.levelTimeRemaining = 300 ∧
    (∀ x y : Int, 0 ≤ x → x < 41 → 0 ≤ y → y < 41 → t.seen y x = 0) ∧
    (t.playerPos.x = 2 ∧ t.playerPos.y = 0 ∧ t.playerPos.z = 2) ∧ t.playerYaw = 0 ∧
    (∃ s0 : Game, s0.mazeW = 21 ∧ s0.mazeH = 21 ∧ InitGame fuel s0 = some t) ∧
    GoalStep fuel t = some t

/-- The order of the four directions that `Shuffle` produces from `[0, 1, 2, 3]` when the three
draws `rand() % (i+1)`, for `i = 3, 2, 1`, have the values `j3`, `j2`, `j1`. -/
def shuffleFour (j3 j2 j1 : Nat) : List Int :=
  swapAt (swapAt (swapAt [0, 1, 2, 3] 3 j3) 2 j2) 1 j1

/-- The orders of the four directions produced by the 4 · 3 · 2 sequences of draws. -/
def fourOrders : List (List Int) :=
  (List.range 4).flatMap fun j3 => (List.range 3).flatMap fun j2 => (List.range 2).map fun j1 =>
    shuffleFour j3 j2 j1

/-- The loop of `GenerateMazeRecursive` with a log: `carveDirs`, returning in addition the
cells on which calls were entered, in the order of the calls. -/
def carveDirsLog (recur : Game → Int → Int → Option (Game × List (Int × Int))) (sx sy : Int) :
    List Int → Game → Option (Game × List (Int × Int))
  | [], s => some (s, [])
  | d :: ds, s =>
    let nx := sx + (eqInt d 1 - eqInt d 3) * 2
    let ny := sy + (eqInt d 2 - eqInt d 0) * 2
    if !IsInside s nx ny then carveDirsLog recur sx sy ds s
    else if CellAt s nx ny = CELL_WALL then
      let wx := sx + (eqInt d 1 - eqInt d 3)
      let wy := sy + (eqInt d 2 - eqInt d 0)
      match recur (SetCell s wx wy CELL_EMPTY) nx ny with
      | none => none
      | some r1 =>
        match carveDirsLog recur sx sy ds r1.1 with
        | none => none
        | some r2 => some (r2.1, r1.2 ++ r2.2)
    else carveDirsLog recur sx sy ds s

/-- `GenerateMazeRecursive(sx, sy)` with a log of the calls: the state it returns, and the
cells on which this call and the calls below it were entered. -/
def GenerateMazeRecursiveLog : Nat → Game → Int → Int → Option (Game × List (Int × Int))
  | 0, _, _, _ => none
  | fuel + 1, s, sx, sy =>
    let s1 := SetCell s sx sy CELL_EMPTY
    let sh := Shuffle [0, 1, 2, 3] 4 s1
    match carveDirsLog (GenerateMazeRecursiveLog fuel) sx sy sh.1 sh.2 with
    | none => none
    | some r => some (r.1, (sx, sy) :: r.2)

/-- The states of the running program: `main` starts from the initial values of the variables
and then only calls `SetLevel`, `InitGame` and the frame loop. -/
inductive Reachable : Game → Prop
  | start (rng : Nat → Nat) : Reachable (initialGame rng)
  | setLevel (fuel : Nat) (L : Level) (s t : Game) :
      Reachable s → SetLevel fuel L s = some t → Reachable t
  | initGame (fuel : Nat) (s t : Game) : Reachable s → InitGame fuel s = some t → Reachable t
  | frame (fuel : Nat) (inp : Input) (s t : Game) :
      Reachable s → Frame fuel inp s = some t → Reachable t

/-- The grid is square and of one of the three level sizes. -/
def LevelDims (s : Game) : Prop :=
  s.mazeW = s.mazeH ∧ (s.mazeW = 21 ∨ s.mazeW = 31 ∨ s.mazeW = 41)

/-- The reveal radius that `SetLevel` chooses for a level. -/
def levelRadius (L : Level) : Int :=
  if L = .LEVEL_EASY then 5 else if L = .LEVEL_MEDIUM then 4 else 3

/-- A frame in which only the restart key `R` is pressed. -/
def restartInput (dt : ℚ) : Input :=
  { idleInput dt with keyR := true }

/-- The state `t` agrees with `s` on the dimensions, on the stream of `rand()` values and on
every cell of the active grid. -/
def SameInside (s t : Game) : Prop :=
  t.mazeW = s.mazeW ∧ t.mazeH = s.mazeH ∧ t.rng = s.rng ∧
    ∀ x y : Int, IsInside s x y = true → t.maze y x = s.maze y x

/-- The open rooms: the open cells with both coordinates odd. -/
def roomCells (s : Game) : Finset (Int × Int) :=
  (emptyCells s).filter fun c => c.1 % 2 = 1 ∧ c.2 % 2 = 1

/-- The number of open rooms. -/
def countRooms (s : Game) : Nat := (roomCells s).card

/-- The open cells form a lattice, and they are one less than twice the open rooms. -/
def RoomShape (s : Game) : Prop :=
  Lattice s ∧ countEmpty s + 1 = 2 * countRooms s

/-- A frame of 1/6 second with heading 0 in which `D` and `Space` are held: the player moves
one unit towards `-x` and one unit up. -/
def slideInput : Input :=
  { idleInput (1 / 6) with keyD := true, keySpace := true }

/-! # Theorems -/

/-! ## Grid access -/

theorem IsInside_iff (s : Game) (x y : Int) :
    IsInside s x y = true ↔ 0 ≤ x ∧ x < s.mazeW ∧ 0 ≤ y ∧ y < s.mazeH := by
  simp [IsInside, and_assoc]

theorem SetCell_mazeW (s : Game) (x y v : Int) : (SetCell s x y v).mazeW = s.mazeW := by
  unfold SetCell; split <;> rfl

theorem SetCell_mazeH (s : Game) (x y v : Int) : (SetCell s x y v).mazeH = s.mazeH := by
  unfold SetCell; split <;> rfl

theorem IsInside_SetCell (s : Game) (x y v a b : Int) :
    IsInside (SetCell s x y v) a b = IsInside s a b := by
  simp [IsInside, SetCell_mazeW, SetCell_mazeH]

theorem SetCell_maze (s : Game) (x y v a b : Int) :
    (SetCell s x y v).maze b a =
      if IsInside s x y = true ∧ b = y ∧ a = x then v else s.maze b a := by
  unfold SetCell
  by_cases h : IsInside s x y = true <;> simp [h]

theorem SetCell_of_eq (s : Game) (x y v : Int) (h : s.maze y x = v) : SetCell s x y v = s := by
  unfold SetCell
  split
  · rfl
  · have : (fun y' x' => if y' = y ∧ x' = x then v else s.maze y' x') = s.maze := by
      funext y' x'
      split
      · next h1 => rw [h1.1, h1.2, h]
      · rfl
    rw [this]

theorem Open_iff (s : Game) (x y : Int) :
    Open s (x, y) ↔ (0 ≤ x ∧ x < s.mazeW ∧ 0 ≤ y ∧ y < s.mazeH) ∧ s.maze y x = CELL_EMPTY := by
  simp [Open, IsInside_iff]

theorem Open_SetCell (s : Game) (x y a b : Int) :
    Open (SetCell s x y CELL_EMPTY) (a, b) ↔ Open s (a, b) ∨ (IsInside s x y = true ∧ a = x ∧ b = y) := by
  simp only [Open, IsInside_SetCell, SetCell_maze]
  constructor
  · rintro ⟨h1, h2⟩
    by_cases h : IsInside s x y = true ∧ b = y ∧ a = x
    · right; exact ⟨h.1, h.2.2, h.2.1⟩
    · left; rw [if_neg h] at h2; exact ⟨h1, h2⟩
  · rintro (⟨h1, h2⟩ | ⟨h1, rfl, rfl⟩)
    · refine ⟨h1, ?_⟩
      split
      · rfl
      · exact h2
    · exact ⟨h1, by simp [h1]⟩

theorem Open_mono_SetCell (s : Game) (x y : Int) (c : Int × Int) (h : Open s c) :
    Open (SetCell s x y CELL_EMPTY) c := by
  obtain ⟨a, b⟩ := c
  exact (Open_SetCell s x y a b).2 (Or.inl h)

/-! ## Carving only opens cells -/

theorem Grows.refl (s : Game) : Grows s s :=
  ⟨rfl, rfl, rfl, rfl, rfl, rfl, rfl, rfl, rfl, rfl, fun _ _ => Or.inl rfl⟩

theorem Grows.inside {s t : Game} (h : Grows s t) (x y : Int) : IsInside t x y = IsInside s x y := by
  simp [IsInside, h.mazeW, h.mazeH]

theorem Grows.trans {s t u : Game} (h1 : Grows s t) (h2 : Grows t u) : Grows s u := by
  refine ⟨h2.mazeW.trans h1.mazeW, h2.mazeH.trans h1.mazeH, h2.seen.trans h1.seen,
    h2.revealRadius.trans h1.revealRadius, h2.playerPos.trans h1.playerPos,
    h2.playerYaw.trans h1.playerYaw, h2.currentLevel.trans h1.currentLevel,
    h2.levelTimeRemaining.trans h1.levelTimeRemaining, h2.showMap.trans h1.showMap,
    h2.mouseLook.trans h1.mouseLook, ?_⟩
  intro x y
  rcases h2.cell x y with e2 | ⟨i2, e2⟩
  · rcases h1.cell x y with e1 | ⟨i1, e1⟩
    · exact Or.inl (e2.trans e1)
    · exact Or.inr ⟨i1, e2.trans e1⟩
  · exact Or.inr ⟨(h1.inside x y) ▸ i2, e2⟩

theorem Grows.open {s t : Game} (h : Grows s t) {c : Int × Int} (hc : Open s c) : Open t c := by
  refine ⟨(h.inside c.1 c.2).trans hc.1, ?_⟩
  rcases h.cell c.1 c.2 with e | ⟨_, e⟩
  · exact e.trans hc.2
  · exact e

theorem Grows_SetCell (s : Game) (x y : Int) : Grows s (SetCell s x y CELL_EMPTY) := by
  have hf : ∀ {β : Type} (f : Game → β), (∀ (g : Game) (m : Int → Int → Int),
      f { g with maze := m } = f g) → f (SetCell s x y CELL_EMPTY) = f s := by
    intro β f hf
    unfold SetCell
    split
    · rfl
    · exact hf _ _
  refine ⟨SetCell_mazeW .., SetCell_mazeH .., hf _ fun _ _ => rfl, hf _ fun _ _ => rfl,
    hf _ fun _ _ => rfl, hf _ fun _ _ => rfl, hf _ fun _ _ => rfl, hf _ fun _ _ => rfl,
    hf _ fun _ _ => rfl, hf _ fun _ _ => rfl, ?_⟩
  intro a b
  rw [SetCell_maze]
  split
  · next h => right; obtain ⟨h1, rfl, rfl⟩ := h; exact ⟨h1, rfl⟩
  · left; rfl

theorem Grows_rand (s : Game) : Grows s (rand s).2 :=
  ⟨rfl, rfl, rfl, rfl, rfl, rfl, rfl, rfl, rfl, rfl, fun _ _ => Or.inl rfl⟩

theorem rand_maze (s : Game) : (rand s).2.maze = s.maze := rfl

theorem ShuffleLoop_Grows (i : Nat) : ∀ (arr : List Int) (s : Game),
    Grows s (ShuffleLoop i arr s).2 ∧ (ShuffleLoop i arr s).2.maze = s.maze := by
  induction i with
  | zero => intro arr s; exact ⟨Grows.refl s, rfl⟩
  | succ i ih =>
    intro arr s
    simp only [ShuffleLoop]
    have h := ih (swapAt arr (i + 1) ((rand s).1 % (i + 1 + 1))) (rand s).2
    exact ⟨(Grows_rand s).trans h.1, h.2.trans (rand_maze s)⟩

theorem Shuffle_Grows (arr : List Int) (n : Nat) (s : Game) :
    Grows s (Shuffle arr n s).2 ∧ (Shuffle arr n s).2.maze = s.maze :=
  ShuffleLoop_Grows (n - 1) arr s

theorem carveDirs_Grows (recur : Game → Int → Int → Option Game)
    (hrec : ∀ s x y t, recur s x y = some t → Grows s t) (sx sy : Int) :
    ∀ (ds : List Int) (s t : Game), carveDirs recur sx sy ds s = some t → Grows s t := by
  intro ds
  induction ds with
  | nil => intro s t h; simp [carveDirs] at h; subst h; exact Grows.refl s
  | cons d ds ih =>
    intro s t h
    simp only [carveDirs] at h
    split at h
    · exact ih _ _ h
    · split at h
      · split at h
        · exact absurd h (by simp)
        · next s1 hs1 =>
          exact ((Grows_SetCell s _ _).trans (hrec _ _ _ _ hs1)).trans (ih _ _ h)
      · exact ih _ _ h

theorem GenerateMazeRecursive_Grows (fuel : Nat) :
    ∀ (s : Game) (sx sy : Int) (t : Game), GenerateMazeRecursive fuel s sx sy = some t → Grows s t := by
  induction fuel with
  | zero => intro s sx sy t h; simp [GenerateMazeRecursive] at h
  | succ fuel ih =>
    intro s sx sy t h
    simp only [GenerateMazeRecursive] at h
    exact ((Grows_SetCell s sx sy).trans (Shuffle_Grows _ _ _).1).trans
      (carveDirs_Grows _ ih sx sy _ _ _ h)

/-! ## Invariant rule for the generator -/

theorem dir_cases (d : Int) :
    (dirX d = 0 ∧ dirY d = -1) ∨ (dirX d = 1 ∧ dirY d = 0) ∨ (dirX d = 0 ∧ dirY d = 1) ∨
      (dirX d = -1 ∧ dirY d = 0) ∨ (dirX d = 0 ∧ dirY d = 0) := by
  unfold dirX dirY eqInt
  by_cases h0 : d = 0
  · subst h0; simp
  by_cases h1 : d = 1
  · subst h1; simp
  by_cases h2 : d = 2
  · subst h2; simp
  by_cases h3 : d = 3
  · subst h3; simp
  simp [h0, h1, h2, h3]

/-- Invariant rule of the generator.  A property of states that does not depend on `rng` and
that survives carving a passage from an open room to a room two cells away which is still a
wall, holds when a call returns if it held right after the call opened its cell. -/
theorem GenerateMazeRecursive_invariant (I : Game → Prop)
    (hrng : ∀ s t : Game, t.maze = s.maze → t.mazeW = s.mazeW → t.mazeH = s.mazeH → I s → I t)
    (hcarve : ∀ (s : Game) (sx sy dx dy : Int), I s → sx % 2 = 1 → sy % 2 = 1 →
      Open s (sx, sy) → UnitStep dx dy → IsInside s (sx + 2 * dx) (sy + 2 * dy) = true →
      s.maze (sy + 2 * dy) (sx + 2 * dx) = CELL_WALL →
      I (SetCell (SetCell s (sx + dx) (sy + dy) CELL_EMPTY) (sx + 2 * dx) (sy + 2 * dy)
        CELL_EMPTY)) :
    ∀ (fuel : Nat) (s : Game) (sx sy : Int) (t : Game), sx % 2 = 1 → sy % 2 = 1 →
      IsInside s sx sy = true → I (SetCell s sx sy CELL_EMPTY) →
      GenerateMazeRecursive fuel s sx sy = some t → I t := by
  intro fuel
  induction fuel with
  | zero => intro s sx sy t _ _ _ _ h; simp [GenerateMazeRecursive] at h
  | succ fuel ih =>
    intro s sx sy t hx hy hin hI h
    simp only [GenerateMazeRecursive] at h
    have hsh := Shuffle_Grows [0, 1, 2, 3] 4 (SetCell s sx sy CELL_EMPTY)
    have hI2 : I (Shuffle [0, 1, 2, 3] 4 (SetCell s sx sy CELL_EMPTY)).2 :=
      hrng _ _ hsh.2 hsh.1.mazeW hsh.1.mazeH hI
    have hopen : Open (Shuffle [0, 1, 2, 3] 4 (SetCell s sx sy CELL_EMPTY)).2 (sx, sy) :=
      hsh.1.open ((Open_SetCell s sx sy sx sy).2 (Or.inr ⟨hin, rfl, rfl⟩))
    generalize (Shuffle [0, 1, 2, 3] 4 (SetCell s sx sy CELL_EMPTY)).2 = u at h hI2 hopen
    generalize (Shuffle [0, 1, 2, 3] 4 (SetCell s sx sy CELL_EMPTY)).1 = ds at h
    clear hsh hI hin
    induction ds generalizing u with
    | nil => simp [carveDirs] at h; subst h; exact hI2
    | cons d ds ihd =>
      simp only [carveDirs] at h
      split at h
      · exact ihd u hI2 hopen h
      · next hins =>
        split at h
        · next hwall =>
          split at h
          · exact absurd h (by simp)
          · next u1 hu1 =>
            have hins' : IsInside u (sx + 2 * dirX d) (sy + 2 * dirY d) = true := by
              simpa [dirX, dirY, mul_comm] using hins
            have hw : u.maze (sy + 2 * dirY d) (sx + 2 * dirX d) = CELL_WALL := by
              have := hwall
              simp only [CellAt, hins] at this
              simpa [dirX, dirY, mul_comm] using this
            have hunit : UnitStep (dirX d) (dirY d) := by
              rcases dir_cases d with c | c | c | c | c
              · exact Or.inl c
              · exact Or.inr (Or.inl c)
              · exact Or.inr (Or.inr (Or.inl c))
              · exact Or.inr (Or.inr (Or.inr c))
              · exfalso
                rw [c.1, c.2] at hw
                simp only [mul_zero, add_zero] at hw
                have := hopen.2
                simp only at this
                rw [this] at hw
                exact absurd hw (by decide)
            have hstep := hcarve u sx sy (dirX d) (dirY d) hI2 hx hy hopen hunit hins' hw
            have hpar : (sx + 2 * dirX d) % 2 = 1 ∧ (sy + 2 * dirY d) % 2 = 1 := by
              constructor <;> omega
            have hu1' : GenerateMazeRecursive fuel
                (SetCell u (sx + dirX d) (sy + dirY d) CELL_EMPTY) (sx + 2 * dirX d)
                (sy + 2 * dirY d) = some u1 := by
              simpa [dirX, dirY, mul_comm] using hu1
            have hI3 := ih _ _ _ _ hpar.1 hpar.2
              (by rw [IsInside_SetCell]; exact hins') hstep hu1'
            have hg := GenerateMazeRecursive_Grows fuel _ _ _ _ hu1'
            exact ihd u1 hI3 (hg.open (Open_mono_SetCell _ _ _ _ hopen)) h
        · exact ihd u hI2 hopen h

/-! ## Termination of the generator -/

theorem mem_gridCells (s : Game) (c : Int × Int) :
    c ∈ gridCells s ↔ IsInside s c.1 c.2 = true := by
  simp [gridCells, IsInside_iff, and_assoc]

theorem mem_wallCells (s : Game) (c : Int × Int) : c ∈ wallCells s ↔ Wall s c := by
  simp [wallCells, Wall, mem_gridCells]

theorem mem_emptyCells (s : Game) (c : Int × Int) : c ∈ emptyCells s ↔ Open s c := by
  simp [emptyCells, Open, mem_gridCells]

theorem Grows.wallCells_subset {s t : Game} (h : Grows s t) : wallCells t ⊆ wallCells s := by
  intro c hc
  rw [mem_wallCells] at hc ⊢
  refine ⟨(h.inside c.1 c.2) ▸ hc.1, ?_⟩
  rcases h.cell c.1 c.2 with e | ⟨_, e⟩
  · exact e ▸ hc.2
  · have := hc.2; rw [e] at this; exact absurd this (by decide)

theorem wallCells_SetCell_lt (s : Game) (x y : Int) (h : Wall s (x, y)) :
    (wallCells (SetCell s x y CELL_EMPTY)).card < (wallCells s).card := by
  apply Finset.card_lt_card
  refine ⟨(Grows_SetCell s x y).wallCells_subset, ?_⟩
  intro hsub
  have h1 := hsub ((mem_wallCells s (x, y)).2 h)
  rw [mem_wallCells] at h1
  have h2 := h1.2
  simp only [SetCell_maze, h.1, true_and, and_self, if_true] at h2
  exact absurd h2 (by decide)

theorem wallCells_card_le (s : Game) :
    (wallCells s).card ≤ s.mazeW.toNat * s.mazeH.toNat := by
  calc (wallCells s).card ≤ (gridCells s).card := Finset.card_filter_le _ _
    _ = s.mazeW.toNat * s.mazeH.toNat := by simp [gridCells]

/-- Termination of the generator: a budget above the number of wall cells left after the call
opened its own cell is enough for the call to return. -/
theorem GenerateMazeRecursive_terminates (fuel : Nat) :
    ∀ (s : Game) (sx sy : Int), (wallCells (SetCell s sx sy CELL_EMPTY)).card < fuel →
      ∃ t, GenerateMazeRecursive fuel s sx sy = some t := by
  induction fuel with
  | zero => intro s sx sy h; exact absurd h (Nat.not_lt_zero _)
  | succ fuel ih =>
    intro s sx sy hlt
    simp only [GenerateMazeRecursive]
    have hsh := Shuffle_Grows [0, 1, 2, 3] 4 (SetCell s sx sy CELL_EMPTY)
    have hcard : (wallCells (Shuffle [0, 1, 2, 3] 4 (SetCell s sx sy CELL_EMPTY)).2).card ≤ fuel :=
      le_trans (Finset.card_le_card hsh.1.wallCells_subset) (Nat.lt_succ_iff.1 hlt)
    have hself : IsInside (Shuffle [0, 1, 2, 3] 4 (SetCell s sx sy CELL_EMPTY)).2 sx sy = true →
        Open (Shuffle [0, 1, 2, 3] 4 (SetCell s sx sy CELL_EMPTY)).2 (sx, sy) := by
      intro hin
      rw [hsh.1.inside, IsInside_SetCell] at hin
      exact hsh.1.open ((Open_SetCell s sx sy sx sy).2 (Or.inr ⟨hin, rfl, rfl⟩))
    generalize (Shuffle [0, 1, 2, 3] 4 (SetCell s sx sy CELL_EMPTY)).2 = u at hcard hself
    generalize (Shuffle [0, 1, 2, 3] 4 (SetCell s sx sy CELL_EMPTY)).1 = ds
    clear hsh hlt
    induction ds generalizing u with
    | nil => exact ⟨u, rfl⟩
    | cons d ds ihd =>
      simp only [carveDirs]
      split
      · exact ihd u hcard hself
      · next hins =>
        split
        · next hwall =>
          have hins' : IsInside u (sx + dirX d * 2) (sy + dirY d * 2) = true := by
            simpa [dirX, dirY] using hins
          have hw : u.maze (sy + dirY d * 2) (sx + dirX d * 2) = CELL_WALL := by
            have := hwall
            simp only [CellAt, hins] at this
            simpa [dirX, dirY] using this
          have hne : ¬ (sy + dirY d * 2 = sy + dirY d ∧ sx + dirX d * 2 = sx + dirX d) := by
            rintro ⟨e1, e2⟩
            have ex : dirX d = 0 := by omega
            have ey : dirY d = 0 := by omega
            rw [ex, ey] at hins' hw
            simp only [zero_mul, add_zero] at hins' hw
            have := (hself hins').2
            simp only at this
            rw [this] at hw
            exact absurd hw (by decide)
          have hwall2 : Wall (SetCell u (sx + dirX d) (sy + dirY d) CELL_EMPTY)
              (sx + dirX d * 2, sy + dirY d * 2) := by
            refine ⟨by rw [IsInside_SetCell]; exact hins', ?_⟩
            simp only [SetCell_maze]
            rw [if_neg (fun h => hne h.2)]
            exact hw
          have hlt2 := wallCells_SetCell_lt _ _ _ hwall2
          have hle : (wallCells (SetCell u (sx + dirX d) (sy + dirY d) CELL_EMPTY)).card ≤ fuel :=
            le_trans (Finset.card_le_card (Grows_SetCell u _ _).wallCells_subset) hcard
          obtain ⟨u1, hu1⟩ := ih (SetCell u (sx + dirX d) (sy + dirY d) CELL_EMPTY)
            (sx + dirX d * 2) (sy + dirY d * 2) (lt_of_lt_of_le hlt2 hle)
          have hu1' : GenerateMazeRecursive fuel
              (SetCell u (sx + (eqInt d 1 - eqInt d 3)) (sy + (eqInt d 2 - eqInt d 0)) CELL_EMPTY)
              (sx + (eqInt d 1 - eqInt d 3) * 2) (sy + (eqInt d 2 - eqInt d 0) * 2) = some u1 := hu1
          rw [hu1']
          have hg := (Grows_SetCell u (sx + dirX d) (sy + dirY d)).trans
            (GenerateMazeRecursive_Grows fuel _ _ _ _ hu1)
          refine ihd u1 (le_trans (Finset.card_le_card hg.wallCells_subset) hcard) ?_
          intro hin
          rw [hg.inside] at hin
          exact hg.open (hself hin)
        · exact ihd u hcard hself

/-! ## Counting open cells and open pairs -/

/-- Counting the members of a finite set whose image under `f` is again a member, after one
new element `p` is added: the count grows by one for `f p` and by one for the preimage `g p`,
when these are members. -/
theorem card_filter_insert_shift {α : Type} [DecidableEq α] (E : Finset α) (p : α)
    (f g : α → α) (hp : p ∉ E) (hfp : f p ≠ p) (hfg : ∀ a, f a = p ↔ a = g p) :
    ((insert p E).filter fun c => f c ∈ insert p E).card =
      (E.filter fun c => f c ∈ E).card + (if f p ∈ E then 1 else 0) +
        (if g p ∈ E then 1 else 0) := by
  have hgp : g p ≠ p := by
    intro h
    have := (hfg p).2 h.symm
    exact hfp this
  have h1 : (E.filter fun c => f c ∈ insert p E) =
      (E.filter fun c => f c ∈ E) ∪ (if g p ∈ E then {g p} else ∅) := by
    ext c
    simp only [Finset.mem_filter, Finset.mem_insert, Finset.mem_union]
    constructor
    · rintro ⟨hc, h | h⟩
      · right
        have := (hfg c).1 h
        subst this
        simp [hc]
      · exact Or.inl ⟨hc, h⟩
    · rintro (⟨hc, h⟩ | h)
      · exact ⟨hc, Or.inr h⟩
      · split at h
        · next hg =>
          simp only [Finset.mem_singleton] at h
          subst h
          exact ⟨hg, Or.inl ((hfg _).2 rfl)⟩
        · simp at h
  have hdisj : Disjoint (E.filter fun c => f c ∈ E) (if g p ∈ E then {g p} else ∅) := by
    rw [Finset.disjoint_left]
    intro c hc hc2
    simp only [Finset.mem_filter] at hc
    split at hc2
    · simp only [Finset.mem_singleton] at hc2
      subst hc2
      have := (hfg (g p)).2 rfl
      rw [this] at hc
      exact hp hc.2
    · simp at hc2
  have h2 : (E.filter fun c => f c ∈ insert p E).card =
      (E.filter fun c => f c ∈ E).card + (if g p ∈ E then 1 else 0) := by
    rw [h1, Finset.card_union_of_disjoint hdisj]
    congr 1
    split <;> simp
  have hpf : p ∉ E.filter fun c => f c ∈ insert p E := by
    simp [hp]
  rw [Finset.filter_insert]
  by_cases hq : f p ∈ E
  · have : f p ∈ insert p E := Finset.mem_insert_of_mem hq
    rw [if_pos this, Finset.card_insert_of_not_mem hpf, h2]
    simp [hq]
    omega
  · have : f p ∉ insert p E := by
      simp [hq, hfp]
    rw [if_neg this, h2]
    simp [hq]

theorem emptyCells_SetCell (s : Game) (x y : Int) (hin : IsInside s x y = true) :
    emptyCells (SetCell s x y CELL_EMPTY) = insert (x, y) (emptyCells s) := by
  ext ⟨a, b⟩
  rw [Finset.mem_insert, mem_emptyCells, mem_emptyCells, Open_SetCell]
  simp [hin, or_comm]

theorem countEmpty_SetCell (s : Game) (x y : Int) (hin : IsInside s x y = true)
    (hw : ¬ Open s (x, y)) : countEmpty (SetCell s x y CELL_EMPTY) = countEmpty s + 1 := by
  unfold countEmpty
  rw [emptyCells_SetCell s x y hin, Finset.card_insert_of_not_mem]
  rwa [mem_emptyCells]

theorem countPassages_SetCell (s : Game) (x y : Int) (hin : IsInside s x y = true)
    (hw : ¬ Open s (x, y)) :
    countPassages (SetCell s x y CELL_EMPTY) =
      countPassages s + openNum s (x + 1) y + openNum s (x - 1) y + openNum s x (y + 1) +
        openNum s x (y - 1) := by
  unfold countPassages
  have hp : (x, y) ∉ emptyCells s := by rwa [mem_emptyCells]
  rw [emptyCells_SetCell s x y hin]
  rw [card_filter_insert_shift (emptyCells s) (x, y) (fun c => (c.1 + 1, c.2))
    (fun c => (c.1 - 1, c.2)) hp (by simp) (by
      rintro ⟨a, b⟩
      simp only [Prod.mk.injEq]
      constructor
      · rintro ⟨h1, h2⟩; exact ⟨by omega, h2⟩
      · rintro ⟨h1, h2⟩; exact ⟨by omega, h2⟩)]
  rw [card_filter_insert_shift (emptyCells s) (x, y) (fun c => (c.1, c.2 + 1))
    (fun c => (c.1, c.2 - 1)) hp (by simp) (by
      rintro ⟨a, b⟩
      simp only [Prod.mk.injEq]
      constructor
      · rintro ⟨h1, h2⟩; exact ⟨h1, by omega⟩
      · rintro ⟨h1, h2⟩; exact ⟨h1, by omega⟩)]
  simp only [mem_emptyCells, openNum]
  omega

/-! ## Lattice shape and connectivity -/

theorem Open_congr {s t : Game} (hm : t.maze = s.maze) (hw : t.mazeW = s.mazeW)
    (hh : t.mazeH = s.mazeH) (c : Int × Int) : Open t c ↔ Open s c := by
  simp [Open, IsInside, hm, hw, hh]

theorem Lattice.no_even {s : Game} (h : Lattice s) {x y : Int} (hx : x % 2 = 0) (hy : y % 2 = 0) :
    ¬ Open s (x, y) := by
  intro ho
  rcases h x y ho with c | c | c <;> omega

theorem Lattice.beside_wall {s : Game} (h : Lattice s) {x y a b : Int} (hx : x % 2 = 1)
    (hy : y % 2 = 1) (hn : ¬ Open s (x, y)) (hadj : Adjacent (a, b) (x, y)) : ¬ Open s (a, b) := by
  intro ho
  simp only [Adjacent] at hadj
  rcases h a b ho with c | c | c
  · omega
  · rcases hadj with ⟨e, e2 | e2⟩ | ⟨e, e2⟩
    · subst e; have : a + 1 = x := e2; subst this; exact hn c.2.2.2
    · subst e; have : a - 1 = x := by omega
      subst this; exact hn c.2.2.1
    · omega
  · rcases hadj with ⟨e, e2⟩ | ⟨e, e2 | e2⟩
    · omega
    · subst e; have : b + 1 = y := e2; subst this; exact hn c.2.2.2
    · subst e; have : b - 1 = y := by omega
      subst this; exact hn c.2.2.1

theorem Open_carve (s : Game) (a b c d x y : Int) (h1 : IsInside s a b = true)
    (h2 : IsInside s c d = true) :
    Open (SetCell (SetCell s a b CELL_EMPTY) c d CELL_EMPTY) (x, y) ↔
      Open s (x, y) ∨ (x = a ∧ y = b) ∨ (x = c ∧ y = d) := by
  rw [Open_SetCell, Open_SetCell, IsInside_SetCell]
  simp [h1, h2, or_assoc]

theorem UnitStep.between {s : Game} {sx sy dx dy : Int} (hu : UnitStep dx dy)
    (h0 : Open s (sx, sy)) (h2 : IsInside s (sx + 2 * dx) (sy + 2 * dy) = true) :
    IsInside s (sx + dx) (sy + dy) = true := by
  have h0' := h0.1
  simp only [IsInside_iff] at h0' h2 ⊢
  rcases hu with ⟨rfl, rfl⟩ | ⟨rfl, rfl⟩ | ⟨rfl, rfl⟩ | ⟨rfl, rfl⟩ <;> omega

theorem Lattice_carve (s : Game) (sx sy dx dy : Int) (hL : Lattice s) (hx : sx % 2 = 1)
    (hy : sy % 2 = 1) (h0 : Open s (sx, sy)) (hu : UnitStep dx dy)
    (hin : IsInside s (sx + 2 * dx) (sy + 2 * dy) = true)
    (_hw : s.maze (sy + 2 * dy) (sx + 2 * dx) = CELL_WALL) :
    Lattice (SetCell (SetCell s (sx + dx) (sy + dy) CELL_EMPTY) (sx + 2 * dx) (sy + 2 * dy)
      CELL_EMPTY) := by
  have hb := hu.between h0 hin
  intro x y ho
  simp only [Open_carve s _ _ _ _ _ _ hb hin] at ho ⊢
  rcases ho with ho | ⟨rfl, rfl⟩ | ⟨rfl, rfl⟩
  · rcases hL x y ho with c | c | c
    · exact Or.inl c
    · exact Or.inr (Or.inl ⟨c.1, c.2.1, Or.inl c.2.2.1, Or.inl c.2.2.2⟩)
    · exact Or.inr (Or.inr ⟨c.1, c.2.1, Or.inl c.2.2.1, Or.inl c.2.2.2⟩)
  · rcases hu with ⟨rfl, rfl⟩ | ⟨rfl, rfl⟩ | ⟨rfl, rfl⟩ | ⟨rfl, rfl⟩
    · refine Or.inr (Or.inr ⟨by omega, by omega, Or.inr (Or.inr ⟨by omega, by omega⟩), Or.inl ?_⟩)
      have : sy + -1 + 1 = sy := by omega
      simpa [this] using h0
    · refine Or.inr (Or.inl ⟨by omega, by omega, Or.inl ?_, Or.inr (Or.inr ⟨by omega, by omega⟩)⟩)
      have : sx + 1 - 1 = sx := by omega
      simpa [this] using h0
    · refine Or.inr (Or.inr ⟨by omega, by omega, Or.inl ?_, Or.inr (Or.inr ⟨by omega, by omega⟩)⟩)
      have : sy + 1 - 1 = sy := by omega
      simpa [this] using h0
    · refine Or.inr (Or.inl ⟨by omega, by omega, Or.inr (Or.inr ⟨by omega, by omega⟩), Or.inl ?_⟩)
      have : sx + -1 + 1 = sx := by omega
      simpa [this] using h0
  · left
    rcases hu with ⟨rfl, rfl⟩ | ⟨rfl, rfl⟩ | ⟨rfl, rfl⟩ | ⟨rfl, rfl⟩ <;> constructor <;> omega

theorem Joined_mono {s t : Game} (h : ∀ c, Open s c → Open t c) {a b : Int × Int}
    (hj : Joined s a b) : Joined t a b := by
  refine Relation.ReflTransGen.mono ?_ hj
  intro u v huv
  exact ⟨h _ huv.1, h _ huv.2.1, huv.2.2⟩

theorem Connected_carve (s : Game) (sx sy dx dy : Int) (hC : Connected s) (_hx : sx % 2 = 1)
    (_hy : sy % 2 = 1) (h0 : Open s (sx, sy)) (hu : UnitStep dx dy)
    (hin : IsInside s (sx + 2 * dx) (sy + 2 * dy) = true)
    (_hw : s.maze (sy + 2 * dy) (sx + 2 * dx) = CELL_WALL) :
    Connected (SetCell (SetCell s (sx + dx) (sy + dy) CELL_EMPTY) (sx + 2 * dx) (sy + 2 * dy)
      CELL_EMPTY) := by
  have hb := hu.between h0 hin
  have hmono : ∀ c, Open s c → Open (SetCell (SetCell s (sx + dx) (sy + dy) CELL_EMPTY)
      (sx + 2 * dx) (sy + 2 * dy) CELL_EMPTY) c := fun c hc =>
    Open_mono_SetCell _ _ _ _ (Open_mono_SetCell _ _ _ _ hc)
  have hs := Joined_mono hmono (hC _ h0)
  have how : Open (SetCell (SetCell s (sx + dx) (sy + dy) CELL_EMPTY)
      (sx + 2 * dx) (sy + 2 * dy) CELL_EMPTY) (sx + dx, sy + dy) :=
    (Open_carve s _ _ _ _ _ _ hb hin).2 (Or.inr (Or.inl ⟨rfl, rfl⟩))
  have hon : Open (SetCell (SetCell s (sx + dx) (sy + dy) CELL_EMPTY)
      (sx + 2 * dx) (sy + 2 * dy) CELL_EMPTY) (sx + 2 * dx, sy + 2 * dy) :=
    (Open_carve s _ _ _ _ _ _ hb hin).2 (Or.inr (Or.inr ⟨rfl, rfl⟩))
  have a1 : Adjacent (sx, sy) (sx + dx, sy + dy) := by
    simp only [Adjacent]
    rcases hu with ⟨rfl, rfl⟩ | ⟨rfl, rfl⟩ | ⟨rfl, rfl⟩ | ⟨rfl, rfl⟩ <;> omega
  have a2 : Adjacent (sx + dx, sy + dy) (sx + 2 * dx, sy + 2 * dy) := by
    simp only [Adjacent]
    rcases hu with ⟨rfl, rfl⟩ | ⟨rfl, rfl⟩ | ⟨rfl, rfl⟩ | ⟨rfl, rfl⟩ <;> omega
  have hjw := Relation.ReflTransGen.tail hs ⟨hmono _ h0, how, a1⟩
  have hjn := Relation.ReflTransGen.tail hjw ⟨how, hon, a2⟩
  rintro ⟨x, y⟩ ho
  rcases (Open_carve s _ _ _ _ _ _ hb hin).1 ho with ho | ⟨rfl, rfl⟩ | ⟨rfl, rfl⟩
  · exact Joined_mono hmono (hC _ ho)
  · exact hjw
  · exact hjn

/-! ## One more open cell than open pairs -/

theorem openAround_eq_one (s : Game) (x y a b : Int) (hadj : Adjacent (a, b) (x, y))
    (ho : Open s (a, b))
    (hothers : ∀ c d : Int, Adjacent (c, d) (x, y) → ¬ (c = a ∧ d = b) → ¬ Open s (c, d)) :
    openAround s x y = 1 := by
  have hr := hothers (x + 1) y (by simp [Adjacent])
  have hl := hothers (x - 1) y (by simp [Adjacent])
  have hd := hothers x (y + 1) (by simp [Adjacent])
  have hu := hothers x (y - 1) (by simp [Adjacent])
  simp only [Adjacent] at hadj
  unfold openAround openNum
  rcases hadj with ⟨e, e2 | e2⟩ | ⟨e, e2 | e2⟩
  · have ea : a = x - 1 := by omega
    subst ea; subst e
    rw [if_neg (hr (by omega)), if_pos ho, if_neg (hd (by omega)), if_neg (hu (by omega))]
  · have ea : a = x + 1 := by omega
    subst ea; subst e
    rw [if_pos ho, if_neg (hl (by omega)), if_neg (hd (by omega)), if_neg (hu (by omega))]
  · have eb : b = y - 1 := by omega
    subst eb; subst e
    rw [if_neg (hr (by omega)), if_neg (hl (by omega)), if_neg (hd (by omega)), if_pos ho]
  · have eb : b = y + 1 := by omega
    subst eb; subst e
    rw [if_neg (hr (by omega)), if_neg (hl (by omega)), if_pos ho, if_neg (hu (by omega))]

/-- Opening a wall cell that has exactly one open neighbour keeps the number of open cells one
above the number of open adjacent pairs. -/
theorem count_step (s : Game) (x y : Int) (hin : IsInside s x y = true) (hw : ¬ Open s (x, y))
    (h1 : openAround s x y = 1) (hc : countEmpty s = countPassages s + 1) :
    countEmpty (SetCell s x y CELL_EMPTY) = countPassages (SetCell s x y CELL_EMPTY) + 1 := by
  rw [countEmpty_SetCell s x y hin hw, countPassages_SetCell s x y hin hw, hc]
  unfold openAround at h1
  omega

theorem TreeShape_carve (s : Game) (sx sy dx dy : Int) (hT : TreeShape s) (hx : sx % 2 = 1)
    (hy : sy % 2 = 1) (h0 : Open s (sx, sy)) (hu : UnitStep dx dy)
    (hin : IsInside s (sx + 2 * dx) (sy + 2 * dy) = true)
    (hw : s.maze (sy + 2 * dy) (sx + 2 * dx) = CELL_WALL) :
    TreeShape (SetCell (SetCell s (sx + dx) (sy + dy) CELL_EMPTY) (sx + 2 * dx) (sy + 2 * dy)
      CELL_EMPTY) := by
  obtain ⟨hL, hc⟩ := hT
  refine ⟨Lattice_carve s sx sy dx dy hL hx hy h0 hu hin hw, ?_⟩
  have hb := hu.between h0 hin
  have hn : ¬ Open s (sx + 2 * dx, sy + 2 * dy) := by
    intro h
    have := h.2
    simp only at this
    rw [this] at hw
    exact absurd hw (by decide)
  have hnx : (sx + 2 * dx) % 2 = 1 := by omega
  have hny : (sy + 2 * dy) % 2 = 1 := by omega
  have a1 : Adjacent (sx, sy) (sx + dx, sy + dy) := by
    simp only [Adjacent]
    rcases hu with ⟨rfl, rfl⟩ | ⟨rfl, rfl⟩ | ⟨rfl, rfl⟩ | ⟨rfl, rfl⟩ <;> omega
  have a2 : Adjacent (sx + dx, sy + dy) (sx + 2 * dx, sy + 2 * dy) := by
    simp only [Adjacent]
    rcases hu with ⟨rfl, rfl⟩ | ⟨rfl, rfl⟩ | ⟨rfl, rfl⟩ | ⟨rfl, rfl⟩ <;> omega
  have hwn : ¬ Open s (sx + dx, sy + dy) := hL.beside_wall hnx hny hn a2
  -- the passage cell
  have hw1 : openAround s (sx + dx) (sy + dy) = 1 := by
    refine openAround_eq_one s _ _ sx sy a1 h0 ?_
    intro c d hadj hne ho
    have hcd : (c = sx + 2 * dx ∧ d = sy + 2 * dy) ∨ (c % 2 = 0 ∧ d % 2 = 0) := by
      simp only [Adjacent] at hadj
      rcases hu with ⟨rfl, rfl⟩ | ⟨rfl, rfl⟩ | ⟨rfl, rfl⟩ | ⟨rfl, rfl⟩ <;> omega
    rcases hcd with ⟨rfl, rfl⟩ | ⟨e1, e2⟩
    · exact hn ho
    · exact hL.no_even e1 e2 ho
  have hc1 := count_step s _ _ hb hwn hw1 hc
  -- the room
  have hin2 : IsInside (SetCell s (sx + dx) (sy + dy) CELL_EMPTY) (sx + 2 * dx) (sy + 2 * dy)
      = true := by rw [IsInside_SetCell]; exact hin
  have hne : ¬ (sx + 2 * dx = sx + dx ∧ sy + 2 * dy = sy + dy) := by
    rcases hu with ⟨rfl, rfl⟩ | ⟨rfl, rfl⟩ | ⟨rfl, rfl⟩ | ⟨rfl, rfl⟩ <;> omega
  have hn2 : ¬ Open (SetCell s (sx + dx) (sy + dy) CELL_EMPTY) (sx + 2 * dx, sy + 2 * dy) := by
    rw [Open_SetCell]
    rintro (h | ⟨_, h⟩)
    · exact hn h
    · exact hne h
  have hw2 : openAround (SetCell s (sx + dx) (sy + dy) CELL_EMPTY) (sx + 2 * dx) (sy + 2 * dy)
      = 1 := by
    refine openAround_eq_one _ _ _ (sx + dx) (sy + dy) a2
      ((Open_SetCell _ _ _ _ _).2 (Or.inr ⟨hb, rfl, rfl⟩)) ?_
    intro c d hadj hcd ho
    rcases (Open_SetCell _ _ _ _ _).1 ho with h | ⟨_, h⟩
    · exact hL.beside_wall hnx hny hn hadj h
    · exact hcd h
  exact count_step _ _ _ hin2 hn2 hw2 hc1

/-! ## Completeness of the search -/

theorem Shuffle_four_perm (s : Game) : ((Shuffle [0, 1, 2, 3] 4 s).1).Perm [0, 1, 2, 3] := by
  simp only [Shuffle, ShuffleLoop]
  have h3 : (rand s).1 % (2 + 1 + 1) < 4 := Nat.mod_lt _ (by decide)
  have h2 : (rand (rand s).2).1 % (1 + 1 + 1) < 3 := Nat.mod_lt _ (by decide)
  have h1 : (rand (rand (rand s).2).2).1 % (0 + 1 + 1) < 2 := Nat.mod_lt _ (by decide)
  generalize (rand s).1 % (2 + 1 + 1) = j3 at h3
  generalize (rand (rand s).2).1 % (1 + 1 + 1) = j2 at h2
  generalize (rand (rand (rand s).2).2).1 % (0 + 1 + 1) = j1 at h1
  interval_cases j3 <;> interval_cases j2 <;> interval_cases j1 <;> decide

theorem Shuffle_four_mem (s : Game) (d : Int) (hd : d = 0 ∨ d = 1 ∨ d = 2 ∨ d = 3) :
    d ∈ (Shuffle [0, 1, 2, 3] 4 s).1 := by
  rw [(Shuffle_four_perm s).mem_iff]
  rcases hd with rfl | rfl | rfl | rfl <;> simp

theorem Grows.binary {s t : Game} (h : Grows s t) (hb : Binary s) : Binary t := by
  intro x y hin
  rcases h.cell x y with e | ⟨_, e⟩
  · rw [e]; exact hb x y ((h.inside x y) ▸ hin)
  · exact Or.inr e

theorem Grows.closedAt {s t : Game} (h : Grows s t) {c : Int × Int} (hc : ClosedAt s c) :
    ClosedAt t c := by
  intro dx dy hu hin
  rw [h.inside] at hin
  exact h.open (hc dx dy hu hin)

theorem GenerateMazeRecursive_opens (fuel : Nat) (s : Game) (sx sy : Int) (t : Game)
    (hin : IsInside s sx sy = true) (h : GenerateMazeRecursive fuel s sx sy = some t) :
    Open t (sx, sy) := by
  cases fuel with
  | zero => simp [GenerateMazeRecursive] at h
  | succ fuel =>
    simp only [GenerateMazeRecursive] at h
    have h1 := (Shuffle_Grows [0, 1, 2, 3] 4 (SetCell s sx sy CELL_EMPTY)).1
    have h2 := carveDirs_Grows _ (GenerateMazeRecursive_Grows fuel) sx sy _ _ _ h
    exact h2.open (h1.open ((Open_SetCell s sx sy sx sy).2 (Or.inr ⟨hin, rfl, rfl⟩)))

/-- Completeness of the search: every room that a call opens has, when the call returns, all
its neighbouring rooms open. -/
theorem GenerateMazeRecursive_closed (fuel : Nat) :
    ∀ (s : Game) (sx sy : Int) (t : Game), sx % 2 = 1 → sy % 2 = 1 → Binary s →
      IsInside s sx sy = true → GenerateMazeRecursive fuel s sx sy = some t →
      ∀ x y : Int, x % 2 = 1 → y % 2 = 1 → Open t (x, y) → Open s (x, y) ∨ ClosedAt t (x, y) := by
  induction fuel with
  | zero => intro s sx sy t _ _ _ _ h; simp [GenerateMazeRecursive] at h
  | succ fuel ih =>
    intro s sx sy t hx hy hbin hin h
    simp only [GenerateMazeRecursive] at h
    have hsh := Shuffle_Grows [0, 1, 2, 3] 4 (SetCell s sx sy CELL_EMPTY)
    have hmem := Shuffle_four_mem (SetCell s sx sy CELL_EMPTY)
    have hg0 := (Grows_SetCell s sx sy).trans hsh.1
    have hbu := hg0.binary hbin
    have hou : ∀ c, Open (Shuffle [0, 1, 2, 3] 4 (SetCell s sx sy CELL_EMPTY)).2 c ↔
        Open (SetCell s sx sy CELL_EMPTY) c :=
      Open_congr hsh.2 hsh.1.mazeW hsh.1.mazeH
    have hself : Open (Shuffle [0, 1, 2, 3] 4 (SetCell s sx sy CELL_EMPTY)).2 (sx, sy) :=
      (hou _).2 ((Open_SetCell s sx sy sx sy).2 (Or.inr ⟨hin, rfl, rfl⟩))
    -- the loop
    have loop : ∀ (ds : List Int) (u : Game), Binary u → Open u (sx, sy) →
        carveDirs (GenerateMazeRecursive fuel) sx sy ds u = some t →
        (∀ x y : Int, x % 2 = 1 → y % 2 = 1 → Open t (x, y) → Open u (x, y) ∨ ClosedAt t (x, y)) ∧
        (∀ d ∈ ds, IsInside u (sx + 2 * dirX d) (sy + 2 * dirY d) = true →
          Open t (sx + 2 * dirX d, sy + 2 * dirY d)) := by
      intro ds
      induction ds with
      | nil =>
        intro u _ _ hr
        simp [carveDirs] at hr
        subst hr
        exact ⟨fun x y _ _ ho => Or.inl ho, by simp⟩
      | cons d ds ihd =>
        intro u hbu hself hr
        simp only [carveDirs] at hr
        have key : ∀ u1 : Game, Grows u u1 →
            (IsInside u (sx + 2 * dirX d) (sy + 2 * dirY d) = true →
              Open u1 (sx + 2 * dirX d, sy + 2 * dirY d)) →
            (∀ x y : Int, x % 2 = 1 → y % 2 = 1 → Open u1 (x, y) →
              Open u (x, y) ∨ ClosedAt u1 (x, y)) →
            carveDirs (GenerateMazeRecursive fuel) sx sy ds u1 = some t →
            (∀ x y : Int, x % 2 = 1 → y % 2 = 1 → Open t (x, y) →
              Open u (x, y) ∨ ClosedAt t (x, y)) ∧
            (∀ d' ∈ d :: ds, IsInside u (sx + 2 * dirX d') (sy + 2 * dirY d') = true →
              Open t (sx + 2 * dirX d', sy + 2 * dirY d')) := by
          intro u1 hg hd hcl hr1
          have hgt := carveDirs_Grows _ (GenerateMazeRecursive_Grows fuel) sx sy _ _ _ hr1
          obtain ⟨ha, hb⟩ := ihd u1 (hg.binary hbu) (hg.open hself) hr1
          constructor
          · intro x y ex ey ho
            rcases ha x y ex ey ho with h1 | h1
            · rcases hcl x y ex ey h1 with h2 | h2
              · exact Or.inl h2
              · exact Or.inr (hgt.closedAt h2)
            · exact Or.inr h1
          · intro d' hd' hin'
            rcases List.mem_cons.1 hd' with rfl | hd'
            · exact hgt.open (hd hin')
            · exact hb d' hd' (by rw [hg.inside]; exact hin')
        split at hr
        · next hins =>
          refine key u (Grows.refl u) ?_ (fun x y _ _ ho => Or.inl ho) hr
          intro hin'
          have : IsInside u (sx + (eqInt d 1 - eqInt d 3) * 2) (sy + (eqInt d 2 - eqInt d 0) * 2)
              = true := by simpa [dirX, dirY, mul_comm] using hin'
          rw [this] at hins
          exact absurd hins (by simp)
        · next hins =>
          have hins' : IsInside u (sx + 2 * dirX d) (sy + 2 * dirY d) = true := by
            simpa [dirX, dirY, mul_comm] using hins
          split at hr
          · next hwall =>
            split at hr
            · exact absurd hr (by simp)
            · next u1 hu1 =>
              have hu1' : GenerateMazeRecursive fuel
                  (SetCell u (sx + dirX d) (sy + dirY d) CELL_EMPTY) (sx + 2 * dirX d)
                  (sy + 2 * dirY d) = some u1 := by
                simpa [dirX, dirY, mul_comm] using hu1
              have hgw := Grows_SetCell u (sx + dirX d) (sy + dirY d)
              have hg1 := GenerateMazeRecursive_Grows fuel _ _ _ _ hu1'
              have hpar : (sx + 2 * dirX d) % 2 = 1 ∧ (sy + 2 * dirY d) % 2 = 1 := by
                constructor <;> omega
              have hinw : IsInside (SetCell u (sx + dirX d) (sy + dirY d) CELL_EMPTY)
                  (sx + 2 * dirX d) (sy + 2 * dirY d) = true := by
                rw [IsInside_SetCell]; exact hins'
              refine key u1 (hgw.trans hg1)
                (fun _ => GenerateMazeRecursive_opens fuel _ _ _ _ hinw hu1') ?_ hr
              intro x y ex ey ho
              rcases ih _ _ _ _ hpar.1 hpar.2 (hgw.binary hbu) hinw hu1' x y ex ey ho with h1 | h1
              · left
                rcases (Open_SetCell _ _ _ _ _).1 h1 with h2 | ⟨_, e1, e2⟩
                · exact h2
                · exfalso
                  have hw : u.maze (sy + 2 * dirY d) (sx + 2 * dirX d) = CELL_WALL := by
                    have := hwall
                    simp only [CellAt, hins] at this
                    simpa [dirX, dirY, mul_comm] using this
                  rcases dir_cases d with c | c | c | c | c
                  · have := c.2; omega
                  · have := c.1; omega
                  · have := c.2; omega
                  · have := c.1; omega
                  · rw [c.1, c.2] at hw
                    simp only [mul_zero, add_zero] at hw
                    have := hself.2
                    simp only at this
                    rw [this] at hw
                    exact absurd hw (by decide)
              · exact Or.inr h1
          · next hwall =>
            refine key u (Grows.refl u) ?_ (fun x y _ _ ho => Or.inl ho) hr
            intro _
            refine ⟨hins', ?_⟩
            have hc : CellAt u (sx + 2 * dirX d) (sy + 2 * dirY d) ≠ CELL_WALL := by
              simpa [dirX, dirY, mul_comm] using hwall
            simp only [CellAt, hins', Bool.not_true, Bool.false_eq_true, if_false] at hc
            rcases hbu _ _ hins' with h1 | h1
            · exact absurd h1 hc
            · exact h1
    obtain ⟨ha, hb⟩ := loop _ _ hbu hself h
    intro x y ex ey ho
    rcases ha x y ex ey ho with h1 | h1
    · rcases (Open_SetCell s sx sy x y).1 ((hou _).1 h1) with h2 | ⟨_, rfl, rfl⟩
      · exact Or.inl h2
      · right
        intro dx dy hu hin'
        have hin2 : IsInside (Shuffle [0, 1, 2, 3] 4 (SetCell s x y CELL_EMPTY)).2
            (x + 2 * dx) (y + 2 * dy) = true := by
          rw [hg0.inside]
          rw [(carveDirs_Grows _ (GenerateMazeRecursive_Grows fuel) x y _ _ _ h).inside,
            hg0.inside] at hin'
          exact hin'
        rcases hu with ⟨rfl, rfl⟩ | ⟨rfl, rfl⟩ | ⟨rfl, rfl⟩ | ⟨rfl, rfl⟩
        · exact hb 0 (hmem 0 (by simp)) hin2
        · exact hb 1 (hmem 1 (by simp)) hin2
        · exact hb 2 (hmem 2 (by simp)) hin2
        · exact hb 3 (hmem 3 (by simp)) hin2
    · exact Or.inr h1

/-! ## The grid left by `InitGame` -/

theorem tmod_two_eq_zero_iff (x : Int) : Int.tmod x 2 = 0 ↔ x % 2 = 0 := by
  rw [← Int.dvd_iff_tmod_eq_zero, Int.dvd_iff_emod_eq_zero]

theorem makeOdd_of_odd (s : Game) (hw : s.mazeW % 2 = 1) (hh : s.mazeH % 2 = 1) :
    makeOdd s = s := by
  have h1 : ¬ Int.tmod s.mazeW 2 = 0 := by rw [tmod_two_eq_zero_iff]; omega
  have h2 : ¬ Int.tmod s.mazeH 2 = 0 := by rw [tmod_two_eq_zero_iff]; omega
  simp [makeOdd, h1, h2]

theorem clearArrays_wall (s : Game) (x y : Int) (hx : 0 ≤ x ∧ x < MAX_SIZE)
    (hy : 0 ≤ y ∧ y < MAX_SIZE) : (clearArrays s).maze y x = CELL_WALL := by
  simp [clearArrays, hx.1, hx.2, hy.1, hy.2]

theorem clearArrays_not_open (s : Game) (hd : OddDims s) (c : Int × Int) :
    ¬ Open (clearArrays s) c := by
  intro ho
  have hin := (IsInside_iff _ _ _).1 ho.1
  have hm := ho.2
  have hin : (0:Int) ≤ c.1 ∧ c.1 < s.mazeW ∧ (0:Int) ≤ c.2 ∧ c.2 < s.mazeH := hin
  obtain ⟨_, _, _, h4, _, h6⟩ := hd
  rw [clearArrays_wall s c.1 c.2 ⟨hin.1, by omega⟩ ⟨hin.2.2.1, by omega⟩] at hm
  exact absurd hm (by decide)

theorem rooms_open (g : Game) (h11 : Open g (1, 1))
    (hcl : ∀ x y : Int, x % 2 = 1 → y % 2 = 1 → Open g (x, y) → ClosedAt g (x, y)) :
    ∀ x y : Int, x % 2 = 1 → y % 2 = 1 → IsInside g x y = true → Open g (x, y) := by
  have hrow : ∀ i : Nat, IsInside g (1 + 2 * (i : Int)) 1 = true → Open g (1 + 2 * (i : Int), 1) := by
    intro i
    induction i with
    | zero => intro _; simpa using h11
    | succ i ih =>
      intro hin
      have hin0 : IsInside g (1 + 2 * (i : Int)) 1 = true := by
        rw [IsInside_iff] at hin ⊢
        push_cast at hin
        omega
      have := hcl _ _ (by omega) (by omega) (ih hin0) 1 0 (Or.inr (Or.inl ⟨rfl, rfl⟩))
      have e1 : (1 + 2 * (i : Int) + 2 * 1) = 1 + 2 * ((i + 1 : Nat) : Int) := by push_cast; ring
      simp only [e1, mul_zero, add_zero] at this
      exact this hin
  have hcol : ∀ (i j : Nat), IsInside g (1 + 2 * (i : Int)) (1 + 2 * (j : Int)) = true →
      Open g (1 + 2 * (i : Int), 1 + 2 * (j : Int)) := by
    intro i j
    induction j with
    | zero =>
      intro hin
      simpa using hrow i (by simpa using hin)
    | succ j ih =>
      intro hin
      have hin0 : IsInside g (1 + 2 * (i : Int)) (1 + 2 * (j : Int)) = true := by
        rw [IsInside_iff] at hin ⊢
        push_cast at hin
        omega
      have := hcl _ _ (by omega) (by omega) (ih hin0) 0 1 (Or.inr (Or.inr (Or.inl ⟨rfl, rfl⟩)))
      have e1 : (1 + 2 * (j : Int) + 2 * 1) = 1 + 2 * ((j + 1 : Nat) : Int) := by push_cast; ring
      simp only [e1, mul_zero, add_zero] at this
      exact this hin
  intro x y hx hy hin
  have hin' := (IsInside_iff _ _ _).1 hin
  have ex : x = 1 + 2 * (((x - 1) / 2).toNat : Int) := by
    rw [Int.toNat_of_nonneg (by omega)]; omega
  have ey : y = 1 + 2 * (((y - 1) / 2).toNat : Int) := by
    rw [Int.toNat_of_nonneg (by omega)]; omega
  have := hcol ((x - 1) / 2).toNat ((y - 1) / 2).toNat (by rw [← ex, ← ey]; exact hin)
  rw [← ex, ← ey] at this
  exact this

/-- What `InitGame` computes on odd dimensions: the generator returns a grid `g`, the two
forced cells are already open in it, and `g` has the lattice, tree and room properties. -/
theorem InitGame_core (fuel : Nat) (s : Game) (hd : OddDims s)
    (hfuel : s.mazeW.toNat * s.mazeH.toNat < fuel) :
    ∃ g : Game, InitGame fuel s = some (ResetPlayerToStart g) ∧ Grows (clearArrays s) g ∧
      Lattice g ∧ Connected g ∧ countEmpty g = countPassages g + 1 ∧
      (∀ x y : Int, x % 2 = 1 → y % 2 = 1 → IsInside g x y = true → Open g (x, y)) := by
  have hodd : makeOdd (clearArrays s) = clearArrays s := makeOdd_of_odd _ hd.1 hd.2.1
  have hin11 : IsInside (clearArrays s) 1 1 = true := by
    rw [IsInside_iff]
    show (0:Int) ≤ 1 ∧ 1 < s.mazeW ∧ (0:Int) ≤ 1 ∧ 1 < s.mazeH
    obtain ⟨_, _, h3, _, h5, _⟩ := hd
    omega
  have hno := clearArrays_not_open s hd
  have hcardlt : (wallCells (SetCell (clearArrays s) 1 1 CELL_EMPTY)).card < fuel :=
    lt_of_le_of_lt (Finset.card_le_card (Grows_SetCell _ 1 1).wallCells_subset)
      (lt_of_le_of_lt (wallCells_card_le _) hfuel)
  obtain ⟨g, hg⟩ := GenerateMazeRecursive_terminates fuel (clearArrays s) 1 1 hcardlt
  have hgrow := GenerateMazeRecursive_Grows fuel _ _ _ _ hg
  have ho1 : ∀ x y : Int, Open (SetCell (clearArrays s) 1 1 CELL_EMPTY) (x, y) ↔ (x = 1 ∧ y = 1) := by
    intro x y
    rw [Open_SetCell]
    simp [hno, hin11]
  -- the three invariants hold right after the first cell is opened
  have hL1 : Lattice (SetCell (clearArrays s) 1 1 CELL_EMPTY) := by
    intro x y ho
    obtain ⟨rfl, rfl⟩ := (ho1 x y).1 ho
    left; constructor <;> decide
  have hC1 : Connected (SetCell (clearArrays s) 1 1 CELL_EMPTY) := by
    rintro ⟨x, y⟩ ho
    obtain ⟨rfl, rfl⟩ := (ho1 x y).1 ho
    exact Relation.ReflTransGen.refl
  have hN0 : countEmpty (clearArrays s) = 0 := by
    unfold countEmpty
    rw [Finset.card_eq_zero, Finset.eq_empty_iff_forall_not_mem]
    intro c hc
    exact hno c ((mem_emptyCells _ _).1 hc)
  have hP0 : countPassages (clearArrays s) = 0 := by
    unfold countPassages
    have : emptyCells (clearArrays s) = ∅ := by
      rw [Finset.eq_empty_iff_forall_not_mem]
      intro c hc
      exact hno c ((mem_emptyCells _ _).1 hc)
    rw [this]
    simp
  have hT1 : TreeShape (SetCell (clearArrays s) 1 1 CELL_EMPTY) := by
    refine ⟨hL1, ?_⟩
    rw [countEmpty_SetCell _ 1 1 hin11 (hno _), countPassages_SetCell _ 1 1 hin11 (hno _), hN0, hP0]
    simp [openNum, hno]
  have hrng : ∀ (I : Game → Prop), (∀ s t : Game, (∀ c, Open t c ↔ Open s c) → I s → I t) →
      ∀ s t : Game, t.maze = s.maze → t.mazeW = s.mazeW → t.mazeH = s.mazeH → I s → I t :=
    fun I hI s t hm hw hh hs => hI s t (Open_congr hm hw hh) hs
  have hL := GenerateMazeRecursive_invariant Lattice
    (by
      intro s t hm hw hh hs x y ho
      have e := Open_congr hm hw hh
      simp only [e] at ho ⊢
      exact hs x y ho)
    Lattice_carve fuel _ 1 1 g (by decide) (by decide) hin11 hL1 hg
  have hC := GenerateMazeRecursive_invariant Connected
    (by
      intro s t hm hw hh hs c ho
      have e := Open_congr hm hw hh
      exact Joined_mono (fun c hc => (e c).2 hc) (hs c ((e c).1 ho)))
    Connected_carve fuel _ 1 1 g (by decide) (by decide) hin11 hC1 hg
  have hT := GenerateMazeRecursive_invariant TreeShape
    (by
      intro s t hm hw hh hs
      have e := Open_congr hm hw hh
      refine ⟨fun x y ho => by simp only [e] at ho ⊢; exact hs.1 x y ho, ?_⟩
      have he : emptyCells t = emptyCells s := by
        ext c; rw [mem_emptyCells, mem_emptyCells, e]
      have := hs.2
      unfold countEmpty countPassages at this ⊢
      rw [he]; exact this)
    TreeShape_carve fuel _ 1 1 g (by decide) (by decide) hin11 hT1 hg
  have hbin : Binary (clearArrays s) := by
    intro x y hin
    have hin' := (IsInside_iff _ _ _).1 hin
    have hin' : (0:Int) ≤ x ∧ x < s.mazeW ∧ (0:Int) ≤ y ∧ y < s.mazeH := hin'
    obtain ⟨_, _, _, h4, _, h6⟩ := hd
    exact Or.inl (clearArrays_wall s x y ⟨hin'.1, by omega⟩ ⟨hin'.2.2.1, by omega⟩)
  have hcl := GenerateMazeRecursive_closed fuel _ 1 1 g (by decide) (by decide) hbin hin11 hg
  have h11 : Open g (1, 1) := GenerateMazeRecursive_opens fuel _ _ _ _ hin11 hg
  have hrooms := rooms_open g h11 (fun x y hx hy ho => (hcl x y hx hy ho).resolve_left (hno _))
  refine ⟨g, ?_, hgrow, hL, hC, hT.2, hrooms⟩
  have hgW : g.mazeW = s.mazeW := hgrow.mazeW
  have hgH : g.mazeH = s.mazeH := hgrow.mazeH
  have hexit : Open g (g.mazeW - 2, g.mazeH - 2) := by
    obtain ⟨h1, h2, h3, _, h5, _⟩ := hd
    refine hrooms _ _ (by omega) (by omega) ?_
    rw [IsInside_iff]
    omega
  simp only [InitGame, hodd, hg]
  rw [SetCell_of_eq g 1 1 CELL_EMPTY h11.2, SetCell_of_eq g _ _ CELL_EMPTY hexit.2]

/-! ## Soundness of the collision test -/

theorem roundf_near (q : ℚ) : (roundf q : ℚ) - 1 / 2 ≤ q ∧ q ≤ (roundf q : ℚ) + 1 / 2 := by
  unfold roundf
  split
  · have h1 := Int.floor_le (q + 1 / 2)
    have h2 := Int.lt_floor_add_one (q + 1 / 2)
    constructor <;> linarith
  · have h1 := Int.le_ceil (q - 1 / 2)
    have h2 := Int.ceil_lt_add_one (q - 1 / 2)
    constructor <;> linarith

theorem wallHit_false_clear (s : Game) (p : Vector3) (cx cy ox oy : Int)
    (hw : Wall s (cx + ox, cy + oy)) (hh : wallHit s p cx cy ox oy = false) (bx bz : ℚ)
    (hb : InFootprint (cx + ox) (cy + oy) bx bz) :
    (1 / 4 : ℚ) * (1 / 4) ≤ distSq p.x p.z bx bz := by
  have hin : IsInside s (cx + ox) (cy + oy) = true := hw.1
  have hm : s.maze (cy + oy) (cx + ox) = CELL_WALL := hw.2
  simp only [wallHit, hin, CellAt, hm, Bool.not_true, Bool.false_eq_true, if_false, if_true,
    decide_eq_false_iff_not, not_lt, CELL_SIZE] at hh
  obtain ⟨b1, b2, b3, b4⟩ := hb
  unfold distSq
  set X : ℚ := ((cx + ox : Int) : ℚ) with hX
  set Z : ℚ := ((cy + oy : Int) : ℚ) with hZ
  have kx : (p.x - (if p.x < X * 2 - 2 * (1 / 2) then X * 2 - 2 * (1 / 2)
      else if p.x > X * 2 + 2 * (1 / 2) then X * 2 + 2 * (1 / 2) else p.x)) *
      (p.x - (if p.x < X * 2 - 2 * (1 / 2) then X * 2 - 2 * (1 / 2)
      else if p.x > X * 2 + 2 * (1 / 2) then X * 2 + 2 * (1 / 2) else p.x)) ≤
      (p.x - bx) * (p.x - bx) := by
    split
    · nlinarith
    · split
      · nlinarith
      · nlinarith [mul_self_nonneg (p.x - bx)]
  have kz : (p.z - (if p.z < Z * 2 - 2 * (1 / 2) then Z * 2 - 2 * (1 / 2)
      else if p.z > Z * 2 + 2 * (1 / 2) then Z * 2 + 2 * (1 / 2) else p.z)) *
      (p.z - (if p.z < Z * 2 - 2 * (1 / 2) then Z * 2 - 2 * (1 / 2)
      else if p.z > Z * 2 + 2 * (1 / 2) then Z * 2 + 2 * (1 / 2) else p.z)) ≤
      (p.z - bz) * (p.z - bz) := by
    split
    · nlinarith
    · split
      · nlinarith
      · nlinarith [mul_self_nonneg (p.z - bz)]
  linarith

theorem CheckCollisionWithWalls_false_iff (s : Game) (p : Vector3) :
    CheckCollisionWithWalls s p = false ↔
      IsInside s (roundf (p.x / CELL_SIZE)) (roundf (p.z / CELL_SIZE)) = true ∧
      ∀ ox oy : Int, (ox = -1 ∨ ox = 0 ∨ ox = 1) → (oy = -1 ∨ oy = 0 ∨ oy = 1) →
        wallHit s p (roundf (p.x / CELL_SIZE)) (roundf (p.z / CELL_SIZE)) ox oy = false := by
  unfold CheckCollisionWithWalls
  simp only [IsInside_iff]
  constructor
  · intro h
    split at h
    · exact absurd h (by simp)
    · next hc =>
      refine ⟨by omega, ?_⟩
      simp only [List.any_cons, List.any_nil, Bool.or_false, Bool.or_eq_false_iff] at h
      rintro ox oy (rfl | rfl | rfl) (rfl | rfl | rfl) <;> simp [h]
  · rintro ⟨hin, h⟩
    rw [if_neg (by omega)]
    simp only [List.any_cons, List.any_nil, Bool.or_false, Bool.or_eq_false_iff]
    refine ⟨⟨h _ _ ?_ ?_, h _ _ ?_ ?_, h _ _ ?_ ?_⟩, ⟨h _ _ ?_ ?_, h _ _ ?_ ?_, h _ _ ?_ ?_⟩,
      ⟨h _ _ ?_ ?_, h _ _ ?_ ?_, h _ _ ?_ ?_⟩⟩ <;> simp

/-- The neighbourhood test misses no wall: a position that `CheckCollisionWithWalls` accepts
keeps the radius from the footprint of every wall cell of the grid. -/
theorem CheckCollisionWithWalls_clear (s : Game) (p : Vector3)
    (h : CheckCollisionWithWalls s p = false) : Clear s p.x p.z := by
  obtain ⟨_, hall⟩ := (CheckCollisionWithWalls_false_iff s p).1 h
  intro tx ty hw bx bz hb
  have rx := roundf_near (p.x / CELL_SIZE)
  have rz := roundf_near (p.z / CELL_SIZE)
  simp only [CELL_SIZE] at rx rz
  by_cases hnear : (tx - roundf (p.x / CELL_SIZE) = -1 ∨ tx - roundf (p.x / CELL_SIZE) = 0 ∨
      tx - roundf (p.x / CELL_SIZE) = 1) ∧ (ty - roundf (p.z / CELL_SIZE) = -1 ∨
      ty - roundf (p.z / CELL_SIZE) = 0 ∨ ty - roundf (p.z / CELL_SIZE) = 1)
  · have hh := hall _ _ hnear.1 hnear.2
    have e1 : roundf (p.x / CELL_SIZE) + (tx - roundf (p.x / CELL_SIZE)) = tx := by ring
    have e2 : roundf (p.z / CELL_SIZE) + (ty - roundf (p.z / CELL_SIZE)) = ty := by ring
    have := wallHit_false_clear s p _ _ _ _ (by rw [e1, e2]; exact hw) hh bx bz
      (by rw [e1, e2]; exact hb)
    exact this
  · obtain ⟨b1, b2, b3, b4⟩ := hb
    unfold distSq
    simp only [CELL_SIZE] at hnear
    have hfar : (tx - roundf (p.x / 2) ≤ -2 ∨ 2 ≤ tx - roundf (p.x / 2)) ∨
        (ty - roundf (p.z / 2) ≤ -2 ∨ 2 ≤ ty - roundf (p.z / 2)) := by omega
    rcases hfar with (hf | hf) | (hf | hf)
    · have : (tx : ℚ) - (roundf (p.x / 2) : ℚ) ≤ -2 := by exact_mod_cast hf
      nlinarith [mul_self_nonneg (p.z - bz)]
    · have : (2 : ℚ) ≤ (tx : ℚ) - (roundf (p.x / 2) : ℚ) := by exact_mod_cast hf
      nlinarith [mul_self_nonneg (p.z - bz)]
    · have : (ty : ℚ) - (roundf (p.z / 2) : ℚ) ≤ -2 := by exact_mod_cast hf
      nlinarith [mul_self_nonneg (p.x - bx)]
    · have : (2 : ℚ) ≤ (ty : ℚ) - (roundf (p.z / 2) : ℚ) := by exact_mod_cast hf
      nlinarith [mul_self_nonneg (p.x - bx)]

/-! ## Concrete states -/

theorem roundf_eq_of_nonneg (q : ℚ) (n : Int) (h0 : 0 ≤ q) (h1 : (n : ℚ) ≤ q + 1 / 2)
    (h2 : q + 1 / 2 < (n : ℚ) + 1) : roundf q = n := by
  unfold roundf
  rw [if_pos h0, Int.floor_eq_iff]
  exact ⟨h1, h2⟩

theorem cornerGame_full_blocked :
    CheckCollisionWithWalls cornerGame ⟨49 / 10, 0, 31 / 10⟩ = true := by
  have e1 : roundf ((49 / 10 : ℚ) / CELL_SIZE) = 2 :=
    roundf_eq_of_nonneg _ _ (by norm_num [CELL_SIZE]) (by norm_num [CELL_SIZE])
      (by norm_num [CELL_SIZE])
  have e2 : roundf ((31 / 10 : ℚ) / CELL_SIZE) = 2 :=
    roundf_eq_of_nonneg _ _ (by norm_num [CELL_SIZE]) (by norm_num [CELL_SIZE])
      (by norm_num [CELL_SIZE])
  simp only [CheckCollisionWithWalls, e1, e2]
  norm_num [wallHit, IsInside, CellAt, cornerGame, initialGame, CELL_SIZE, CELL_WALL, CELL_EMPTY]

theorem cornerGame_x_free :
    CheckCollisionWithWalls cornerGame ⟨49 / 10, 0, 27 / 10⟩ = false := by
  have e1 : roundf ((49 / 10 : ℚ) / CELL_SIZE) = 2 :=
    roundf_eq_of_nonneg _ _ (by norm_num [CELL_SIZE]) (by norm_num [CELL_SIZE])
      (by norm_num [CELL_SIZE])
  have e2 : roundf ((27 / 10 : ℚ) / CELL_SIZE) = 1 :=
    roundf_eq_of_nonneg _ _ (by norm_num [CELL_SIZE]) (by norm_num [CELL_SIZE])
      (by norm_num [CELL_SIZE])
  simp only [CheckCollisionWithWalls, e1, e2]
  norm_num [wallHit, IsInside, CellAt, cornerGame, initialGame, CELL_SIZE, CELL_WALL, CELL_EMPTY]

theorem cornerGame_z_free :
    CheckCollisionWithWalls cornerGame ⟨53 / 10, 0, 31 / 10⟩ = false := by
  have e1 : roundf ((53 / 10 : ℚ) / CELL_SIZE) = 3 :=
    roundf_eq_of_nonneg _ _ (by norm_num [CELL_SIZE]) (by norm_num [CELL_SIZE])
      (by norm_num [CELL_SIZE])
  have e2 : roundf ((31 / 10 : ℚ) / CELL_SIZE) = 2 :=
    roundf_eq_of_nonneg _ _ (by norm_num [CELL_SIZE]) (by norm_num [CELL_SIZE])
      (by norm_num [CELL_SIZE])
  simp only [CheckCollisionWithWalls, e1, e2]
  norm_num [wallHit, IsInside, CellAt, cornerGame, initialGame, CELL_SIZE, CELL_WALL, CELL_EMPTY]

/-- The grid of `cornerGame` is the one that `InitGame` generates on 5 × 5 from the stream of
`fiveGame`. -/
theorem cornerGame_generated :
    (InitGame 26 fiveGame).map (fun g =>
        (List.range 5).map fun y => (List.range 5).map fun x => g.maze y x) =
      some ((List.range 5).map fun y => (List.range 5).map fun x => cornerGame.maze y x) := by
  decide

/-! ## Movement resolution -/

theorem CheckCollisionWithWalls_congr {s t : Game} (hm : t.maze = s.maze)
    (hw : t.mazeW = s.mazeW) (hh : t.mazeH = s.mazeH) (p : Vector3) :
    CheckCollisionWithWalls t p = CheckCollisionWithWalls s p := by
  simp only [CheckCollisionWithWalls, wallHit, IsInside, CellAt, hm, hw, hh]

theorem ResolveMove_grid (s : Game) (p : Vector3) :
    (ResolveMove s p).maze = s.maze ∧ (ResolveMove s p).mazeW = s.mazeW ∧
      (ResolveMove s p).mazeH = s.mazeH := by
  unfold ResolveMove
  by_cases h1 : CheckCollisionWithWalls s p = false
  · simp [h1]
  · by_cases h2 : CheckCollisionWithWalls s ⟨p.x, s.playerPos.y, s.playerPos.z⟩ = false
    · simp [h1, h2]
    · by_cases h3 : CheckCollisionWithWalls s ⟨s.playerPos.x, s.playerPos.y, p.z⟩ = false
      · simp [h1, h2, h3]
      · simp [h1, h2, h3]

/-- The position produced by the movement resolution, as a case distinction on the three
collision tests. -/
theorem ResolveMove_playerPos (s : Game) (p : Vector3) :
    (ResolveMove s p).playerPos =
      if CheckCollisionWithWalls s p = false then p
      else if CheckCollisionWithWalls s ⟨p.x, s.playerPos.y, s.playerPos.z⟩ = false then
        ⟨p.x, s.playerPos.y, s.playerPos.z⟩
      else if CheckCollisionWithWalls s ⟨s.playerPos.x, s.playerPos.y, p.z⟩ = false then
        ⟨s.playerPos.x, s.playerPos.y, p.z⟩
      else s.playerPos := by
  unfold ResolveMove
  by_cases h1 : CheckCollisionWithWalls s p = false
  · simp [h1]
  · by_cases h2 : CheckCollisionWithWalls s ⟨p.x, s.playerPos.y, s.playerPos.z⟩ = false
    · simp [h1, h2]
    · by_cases h3 : CheckCollisionWithWalls s ⟨s.playerPos.x, s.playerPos.y, p.z⟩ = false
      · simp [h1, h2, h3]
      · simp [h1, h2, h3]

theorem ResolveMove_unblocked (s : Game) (p : Vector3)
    (h : CheckCollisionWithWalls s s.playerPos = false) :
    CheckCollisionWithWalls (ResolveMove s p) (ResolveMove s p).playerPos = false := by
  obtain ⟨hm, hw, hh⟩ := ResolveMove_grid s p
  rw [CheckCollisionWithWalls_congr hm hw hh, ResolveMove_playerPos]
  split
  · assumption
  · split
    · assumption
    · split
      · assumption
      · exact h

theorem resolveAll_unblocked (ps : List Vector3) : ∀ s : Game,
    CheckCollisionWithWalls s s.playerPos = false →
      ((resolveAll s ps).maze = s.maze ∧ (resolveAll s ps).mazeW = s.mazeW ∧
        (resolveAll s ps).mazeH = s.mazeH) ∧
      CheckCollisionWithWalls (resolveAll s ps) (resolveAll s ps).playerPos = false := by
  induction ps with
  | nil => intro s h; exact ⟨⟨rfl, rfl, rfl⟩, h⟩
  | cons p ps ih =>
    intro s h
    have h1 := ih (ResolveMove s p) (ResolveMove_unblocked s p h)
    obtain ⟨hm, hw, hh⟩ := ResolveMove_grid s p
    simp only [resolveAll, List.foldl_cons] at h1 ⊢
    exact ⟨⟨h1.1.1.trans hm, h1.1.2.1.trans hw, h1.1.2.2.trans hh⟩, h1.2⟩

theorem roundf_one : roundf ((1 * CELL_SIZE) / CELL_SIZE) = 1 :=
  roundf_eq_of_nonneg _ _ (by norm_num [CELL_SIZE]) (by norm_num [CELL_SIZE])
    (by norm_num [CELL_SIZE])

/-- The centre of the start cell is accepted by the collision test whenever the start cell
is open. -/
theorem start_unblocked (s : Game) (h : Open s (1, 1)) (y : ℚ) :
    CheckCollisionWithWalls s ⟨1 * CELL_SIZE, y, 1 * CELL_SIZE⟩ = false := by
  rw [CheckCollisionWithWalls_false_iff]
  simp only [roundf_one]
  refine ⟨h.1, ?_⟩
  have hm : s.maze 1 1 = CELL_EMPTY := h.2
  intro ox oy hx hy
  unfold wallHit
  simp only [CELL_SIZE]
  split
  · rfl
  · next hins =>
    split
    · next hw =>
      simp only [CellAt, hins, if_false] at hw
      rcases hx with rfl | rfl | rfl <;> rcases hy with rfl | rfl | rfl <;>
        first
        | (norm_num; done)
        | (exfalso
           simp only [add_zero] at hw
           rw [hm] at hw
           exact absurd hw (by decide))
    · rfl

/-! ## Maze generation: connectivity, perfectness, containment -/

theorem OddDims.mk' {s : Game} (hw : s.mazeW % 2 = 1) (hh : s.mazeH % 2 = 1) (hw3 : 3 ≤ s.mazeW)
    (hwm : s.mazeW ≤ 41) (hh3 : 3 ≤ s.mazeH) (hhm : s.mazeH ≤ 41) : OddDims s :=
  ⟨hw, hh, hw3, hwm, hh3, hhm⟩

theorem Joined_open {s : Game} {a b : Int × Int} (ha : Open s a) (h : Joined s a b) :
    Open s b := by
  induction h with
  | refl => exact ha
  | tail _ hstep _ => exact hstep.2.1

/-- C1 (connectivity).  For odd dimensions between 3 and 41 and any stream of `rand()` values,
`InitGame` returns (with a recursion budget above `mazeW * mazeH`) a grid of the same
dimensions in which the cells joined to the start cell `(1, 1)` by a path of 4-adjacent open
cells are exactly the open cells of the grid: a flood fill from the start reaches every
`CELL_EMPTY` cell and no other cell. -/
theorem InitGame_connectivity (fuel : Nat) (s : Game) (hw : s.mazeW % 2 = 1)
    (hh : s.mazeH % 2 = 1) (hw3 : 3 ≤ s.mazeW) (hwm : s.mazeW ≤ 41) (hh3 : 3 ≤ s.mazeH)
    (hhm : s.mazeH ≤ 41) (hfuel : s.mazeW.toNat * s.mazeH.toNat < fuel) :
    ∃ t : Game, InitGame fuel s = some t ∧ t.mazeW = s.mazeW ∧ t.mazeH = s.mazeH ∧
      ∀ c : Int × Int, Joined t (1, 1) c ↔ Open t c := by
  obtain ⟨g, hg, hgrow, _, hC, _, hrooms⟩ :=
    InitGame_core fuel s (OddDims.mk' hw hh hw3 hwm hh3 hhm) hfuel
  refine ⟨ResetPlayerToStart g, hg, hgrow.mazeW, hgrow.mazeH, ?_⟩
  have h11 : Open g (1, 1) := by
    refine hrooms 1 1 (by decide) (by decide) ?_
    rw [IsInside_iff, hgrow.mazeW, hgrow.mazeH]
    have e1 : (clearArrays s).mazeW = s.mazeW := rfl
    have e2 : (clearArrays s).mazeH = s.mazeH := rfl
    omega
  intro c
  constructor
  · intro hj
    exact Joined_open (s := ResetPlayerToStart g) h11 hj
  · intro ho
    exact Joined_mono (s := g) (fun _ h => h) (hC c ho)

/-- Witness for C1: the 21 × 21 grid of the program's initial state. -/
theorem InitGame_connectivity_witness :
    ∃ t : Game, InitGame 442 (initialGame fun n => n) = some t ∧ t.mazeW = 21 ∧ t.mazeH = 21 ∧
      ∀ c : Int × Int, Joined t (1, 1) c ↔ Open t c :=
  InitGame_connectivity 442 (initialGame fun n => n) (by decide) (by decide) (by decide)
    (by decide) (by decide) (by decide) (by decide)

/-- C2 (perfectness).  For odd dimensions between 3 and 41 and any stream of `rand()` values,
in the grid returned by `InitGame` the number of unordered pairs of 4-adjacent open cells is
one less than the number of open cells, and every open cell is joined to the start cell: the
open cells with their adjacencies form a connected graph with one edge less than vertices,
that is, a spanning tree. -/
theorem InitGame_perfect (fuel : Nat) (s : Game) (hw : s.mazeW % 2 = 1)
    (hh : s.mazeH % 2 = 1) (hw3 : 3 ≤ s.mazeW) (hwm : s.mazeW ≤ 41) (hh3 : 3 ≤ s.mazeH)
    (hhm : s.mazeH ≤ 41) (hfuel : s.mazeW.toNat * s.mazeH.toNat < fuel) :
    ∃ t : Game, InitGame fuel s = some t ∧ countPassages t + 1 = countEmpty t ∧
      ∀ c : Int × Int, Open t c → Joined t (1, 1) c := by
  obtain ⟨g, hg, _, _, hC, hcount, _⟩ :=
    InitGame_core fuel s (OddDims.mk' hw hh hw3 hwm hh3 hhm) hfuel
  refine ⟨ResetPlayerToStart g, hg, ?_, ?_⟩
  · exact hcount.symm
  · intro c ho
    exact Joined_mono (s := g) (fun _ h => h) (hC c ho)

/-- Witness for C2: the 31 × 31 grid of the medium level. -/
theorem InitGame_perfect_witness :
    ∃ t : Game, InitGame 962 { initialGame (fun n => 7 * n + 3) with mazeW := 31, mazeH := 31 }
        = some t ∧ countPassages t + 1 = countEmpty t ∧
      ∀ c : Int × Int, Open t c → Joined t (1, 1) c :=
  InitGame_perfect 962 { initialGame (fun n => 7 * n + 3) with mazeW := 31, mazeH := 31 }
    (by decide) (by decide) (by decide) (by decide) (by decide) (by decide) (by decide)

/-- C3 (collision containment).  In the state returned by `InitGame` the player stands at
`(2, 0, 2)`, a position that the collision test accepts; every position that
`CheckCollisionWithWalls` accepts is at squared distance at least `(1/4)²` from every point of
the footprint of every wall cell of the grid (the 3 × 3 neighbourhood test misses no wall); and
after resolving any sequence of proposed positions the grid is unchanged and the player's
`(x, z)` keeps that distance from every wall cell. -/
theorem collision_containment (fuel : Nat) (s : Game) (hw : s.mazeW % 2 = 1)
    (hh : s.mazeH % 2 = 1) (hw3 : 3 ≤ s.mazeW) (hwm : s.mazeW ≤ 41) (hh3 : 3 ≤ s.mazeH)
    (hhm : s.mazeH ≤ 41) (hfuel : s.mazeW.toNat * s.mazeH.toNat < fuel) :
    ∃ t : Game, InitGame fuel s = some t ∧
      (t.playerPos.x = 2 ∧ t.playerPos.y = 0 ∧ t.playerPos.z = 2) ∧
      CheckCollisionWithWalls t t.playerPos = false ∧
      (∀ p : Vector3, CheckCollisionWithWalls t p = false → Clear t p.x p.z) ∧
      ∀ ps : List Vector3,
        (resolveAll t ps).maze = t.maze ∧ (resolveAll t ps).mazeW = t.mazeW ∧
        (resolveAll t ps).mazeH = t.mazeH ∧
        Clear (resolveAll t ps) (resolveAll t ps).playerPos.x (resolveAll t ps).playerPos.z := by
  obtain ⟨g, hg, hgrow, _, _, _, hrooms⟩ :=
    InitGame_core fuel s (OddDims.mk' hw hh hw3 hwm hh3 hhm) hfuel
  have h11 : Open (ResetPlayerToStart g) (1, 1) := by
    refine hrooms 1 1 (by decide) (by decide) ?_
    rw [IsInside_iff, hgrow.mazeW, hgrow.mazeH]
    have e1 : (clearArrays s).mazeW = s.mazeW := rfl
    have e2 : (clearArrays s).mazeH = s.mazeH := rfl
    omega
  have hstart : CheckCollisionWithWalls (ResetPlayerToStart g) (ResetPlayerToStart g).playerPos
      = false := start_unblocked (ResetPlayerToStart g) h11 0
  refine ⟨ResetPlayerToStart g, hg, ?_, hstart,
    fun p hp => CheckCollisionWithWalls_clear _ p hp, ?_⟩
  · simp [ResetPlayerToStart, CELL_SIZE]
  · intro ps
    obtain ⟨⟨hm, hww, hhh⟩, hc⟩ := resolveAll_unblocked ps (ResetPlayerToStart g) hstart
    exact ⟨hm, hww, hhh, CheckCollisionWithWalls_clear _ _ hc⟩

/-- Witness for C3: the 41 × 41 grid of the hard level. -/
theorem collision_containment_witness :
    ∃ t : Game, InitGame 1682 { initialGame (fun n => n * n) with mazeW := 41, mazeH := 41 }
        = some t ∧
      (t.playerPos.x = 2 ∧ t.playerPos.y = 0 ∧ t.playerPos.z = 2) ∧
      CheckCollisionWithWalls t t.playerPos = false ∧
      (∀ p : Vector3, CheckCollisionWithWalls t p = false → Clear t p.x p.z) ∧
      ∀ ps : List Vector3,
        (resolveAll t ps).maze = t.maze ∧ (resolveAll t ps).mazeW = t.mazeW ∧
        (resolveAll t ps).mazeH = t.mazeH ∧
        Clear (resolveAll t ps) (resolveAll t ps).playerPos.x (resolveAll t ps).playerPos.z :=
  collision_containment 1682 { initialGame (fun n => n * n) with mazeW := 41, mazeH := 41 }
    (by decide) (by decide) (by decide) (by decide) (by decide) (by decide) (by decide)

/-! ## Sliding -/

theorem cornerGame_north_west_blocked :
    CheckCollisionWithWalls cornerGame ⟨49 / 10, 0, 9 / 10⟩ = true := by
  have e1 : roundf ((49 / 10 : ℚ) / CELL_SIZE) = 2 :=
    roundf_eq_of_nonneg _ _ (by norm_num [CELL_SIZE]) (by norm_num [CELL_SIZE])
      (by norm_num [CELL_SIZE])
  have e2 : roundf ((9 / 10 : ℚ) / CELL_SIZE) = 0 :=
    roundf_eq_of_nonneg _ _ (by norm_num [CELL_SIZE]) (by norm_num [CELL_SIZE])
      (by norm_num [CELL_SIZE])
  simp only [CheckCollisionWithWalls, e1, e2]
  norm_num [wallHit, IsInside, CellAt, cornerGame, initialGame, CELL_SIZE, CELL_WALL, CELL_EMPTY]

theorem cornerGame_north_blocked :
    CheckCollisionWithWalls cornerGame ⟨53 / 10, 0, 9 / 10⟩ = true := by
  have e1 : roundf ((53 / 10 : ℚ) / CELL_SIZE) = 3 :=
    roundf_eq_of_nonneg _ _ (by norm_num [CELL_SIZE]) (by norm_num [CELL_SIZE])
      (by norm_num [CELL_SIZE])
  have e2 : roundf ((9 / 10 : ℚ) / CELL_SIZE) = 0 :=
    roundf_eq_of_nonneg _ _ (by norm_num [CELL_SIZE]) (by norm_num [CELL_SIZE])
      (by norm_num [CELL_SIZE])
  simp only [CheckCollisionWithWalls, e1, e2]
  norm_num [wallHit, IsInside, CellAt, cornerGame, initialGame, CELL_SIZE, CELL_WALL, CELL_EMPTY]

/-- Counterexample to C4 as stated.  In `cornerGame` the player stands at `(5.3, 0, 2.7)` and
proposes `(4.9, 0, 3.1)`, inside the wall cell `(2, 2)`.  The full move is blocked and both
single-axis moves are individually unblocked, yet the resolver applies only the X move: the
`z` coordinate stays `2.7` and the Z move is not applied. -/
theorem sliding_not_independent :
    CheckCollisionWithWalls cornerGame ⟨49 / 10, 0, 31 / 10⟩ = true ∧
    CheckCollisionWithWalls cornerGame
      ⟨49 / 10, cornerGame.playerPos.y, cornerGame.playerPos.z⟩ = false ∧
    CheckCollisionWithWalls cornerGame
      ⟨cornerGame.playerPos.x, cornerGame.playerPos.y, 31 / 10⟩ = false ∧
    (ResolveMove cornerGame ⟨49 / 10, 0, 31 / 10⟩).playerPos.x = 49 / 10 ∧
    (ResolveMove cornerGame ⟨49 / 10, 0, 31 / 10⟩).playerPos.z = 27 / 10 ∧
    (ResolveMove cornerGame ⟨49 / 10, 0, 31 / 10⟩).playerPos.z ≠ 31 / 10 := by
  have hx : CheckCollisionWithWalls cornerGame
      ⟨49 / 10, cornerGame.playerPos.y, cornerGame.playerPos.z⟩ = false := cornerGame_x_free
  have hz : CheckCollisionWithWalls cornerGame
      ⟨cornerGame.playerPos.x, cornerGame.playerPos.y, 31 / 10⟩ = false := cornerGame_z_free
  have hp := ResolveMove_playerPos cornerGame ⟨49 / 10, 0, 31 / 10⟩
  rw [if_neg (by rw [cornerGame_full_blocked]; decide), if_pos hx] at hp
  refine ⟨cornerGame_full_blocked, hx, hz, ?_, ?_, ?_⟩
  · rw [hp]
  · rw [hp]; rfl
  · rw [hp]
    show (27 / 10 : ℚ) ≠ 31 / 10
    norm_num

/-- C4 (amended).  When the full move is blocked, the resolver tests the X-only move first and
applies it exactly when it is unblocked; it applies the Z-only move exactly when the X-only
move is blocked and the Z-only move is unblocked; otherwise the player stays.  When both
single-axis moves are unblocked only the X move is applied. -/
theorem ResolveMove_sliding (s : Game) (p : Vector3)
    (hfull : CheckCollisionWithWalls s p = true) :
    (CheckCollisionWithWalls s ⟨p.x, s.playerPos.y, s.playerPos.z⟩ = false →
      (ResolveMove s p).playerPos = ⟨p.x, s.playerPos.y, s.playerPos.z⟩) ∧
    (CheckCollisionWithWalls s ⟨p.x, s.playerPos.y, s.playerPos.z⟩ = true →
      CheckCollisionWithWalls s ⟨s.playerPos.x, s.playerPos.y, p.z⟩ = false →
      (ResolveMove s p).playerPos = ⟨s.playerPos.x, s.playerPos.y, p.z⟩) ∧
    (CheckCollisionWithWalls s ⟨p.x, s.playerPos.y, s.playerPos.z⟩ = true →
      CheckCollisionWithWalls s ⟨s.playerPos.x, s.playerPos.y, p.z⟩ = true →
      (ResolveMove s p).playerPos = s.playerPos) := by
  rw [ResolveMove_playerPos, if_neg (by rw [hfull]; decide)]
  refine ⟨?_, ?_, ?_⟩
  · intro hx; rw [if_pos hx]
  · intro hx hz; rw [if_neg (by rw [hx]; decide), if_pos hz]
  · intro hx hz; rw [if_neg (by rw [hx]; decide), if_neg (by rw [hz]; decide)]

/-- Witness for the amended C4: the blocked diagonal move of `cornerGame`. -/
theorem ResolveMove_sliding_witness :
    (ResolveMove cornerGame ⟨49 / 10, 0, 31 / 10⟩).playerPos =
      ⟨49 / 10, cornerGame.playerPos.y, cornerGame.playerPos.z⟩ :=
  (ResolveMove_sliding cornerGame ⟨49 / 10, 0, 31 / 10⟩ cornerGame_full_blocked).1
    cornerGame_x_free

/-- C5 (sliding correctness).  An unblocked move is applied in full.  When the full move is
blocked and exactly one single-axis move is unblocked, the resolved position is the current
position with only that axis replaced by the proposed coordinate.  When the full move and both
single-axis moves are blocked the player stays. -/
theorem ResolveMove_correct (s : Game) (p : Vector3) :
    (CheckCollisionWithWalls s p = false → (ResolveMove s p).playerPos = p) ∧
    (CheckCollisionWithWalls s p = true →
      CheckCollisionWithWalls s ⟨p.x, s.playerPos.y, s.playerPos.z⟩ = false →
      CheckCollisionWithWalls s ⟨s.playerPos.x, s.playerPos.y, p.z⟩ = true →
      (ResolveMove s p).playerPos = ⟨p.x, s.playerPos.y, s.playerPos.z⟩) ∧
    (CheckCollisionWithWalls s p = true →
      CheckCollisionWithWalls s ⟨p.x, s.playerPos.y, s.playerPos.z⟩ = true →
      CheckCollisionWithWalls s ⟨s.playerPos.x, s.playerPos.y, p.z⟩ = false →
      (ResolveMove s p).playerPos = ⟨s.playerPos.x, s.playerPos.y, p.z⟩) ∧
    (CheckCollisionWithWalls s p = true →
      CheckCollisionWithWalls s ⟨p.x, s.playerPos.y, s.playerPos.z⟩ = true →
      CheckCollisionWithWalls s ⟨s.playerPos.x, s.playerPos.y, p.z⟩ = true →
      (ResolveMove s p).playerPos = s.playerPos) := by
  rw [ResolveMove_playerPos]
  refine ⟨?_, ?_, ?_, ?_⟩
  · intro h; rw [if_pos h]
  · intro h hx _; rw [if_neg (by rw [h]; decide), if_pos hx]
  · intro h hx hz; rw [if_neg (by rw [h]; decide), if_neg (by rw [hx]; decide), if_pos hz]
  · intro h hx hz
    rw [if_neg (by rw [h]; decide), if_neg (by rw [hx]; decide), if_neg (by rw [hz]; decide)]

/-- Witness for C5: in `cornerGame` the move towards `(4.9, 0, 0.9)` is blocked by the wall to
the north, the X-only move is free and the Z-only move is blocked, and the player slides to
`(4.9, 0, 2.7)`. -/
theorem ResolveMove_correct_witness :
    (ResolveMove cornerGame ⟨49 / 10, 0, 9 / 10⟩).playerPos =
      ⟨49 / 10, cornerGame.playerPos.y, cornerGame.playerPos.z⟩ :=
  (ResolveMove_correct cornerGame ⟨49 / 10, 0, 9 / 10⟩).2.1 cornerGame_north_west_blocked
    cornerGame_x_free cornerGame_north_blocked

/-! ## The reveal loops -/

theorem mem_intRange (lo hi v : Int) : v ∈ intRange lo hi ↔ lo ≤ v ∧ v ≤ hi := by
  unfold intRange
  simp only [List.mem_map, List.mem_range]
  constructor
  · rintro ⟨k, hk, rfl⟩
    omega
  · rintro ⟨h1, h2⟩
    exact ⟨(v - lo).toNat, by omega, by omega⟩

theorem revealCell_eq (cx cy : Int) (s : Game) (x y : Int) :
    revealCell cx cy s x y =
      { s with seen := fun b a =>
          if b = y ∧ a = x ∧ InDisc s cx cy x y then 1 else s.seen b a } := by
  unfold revealCell InDisc
  by_cases hin : IsInside s x y = true
  · by_cases hd : (x - cx) * (x - cx) + (y - cy) * (y - cy) ≤ s.revealRadius * s.revealRadius
    · simp only [hin, Bool.not_true, Bool.false_eq_true, if_false, hd, if_true, true_and,
        and_true]
    · simp [hin, hd]
  · simp [hin]

theorem InDisc_withSeen (s : Game) (f : Int → Int → Int) (cx cy a b : Int) :
    InDisc { s with seen := f } cx cy a b ↔ InDisc s cx cy a b := Iff.rfl

/-- The inner reveal loop over the columns `xs` of row `y`. -/
theorem reveal_row (cx cy y : Int) (xs : List Int) : ∀ s : Game,
    xs.foldl (fun s2 x => revealCell cx cy s2 x y) s =
      { s with seen := fun b a =>
          if b = y ∧ a ∈ xs ∧ InDisc s cx cy a y then 1 else s.seen b a } := by
  induction xs with
  | nil => intro s; simp
  | cons x xs ih =>
    intro s
    rw [List.foldl_cons, ih, revealCell_eq]
    simp only [InDisc_withSeen]
    congr 1
    funext b a
    by_cases h1 : b = y ∧ a ∈ xs ∧ InDisc s cx cy a y
    · rw [if_pos h1, if_pos ⟨h1.1, List.mem_cons_of_mem _ h1.2.1, h1.2.2⟩]
    · rw [if_neg h1]
      by_cases h2 : b = y ∧ a = x ∧ InDisc s cx cy x y
      · rw [if_pos h2]
        obtain ⟨e1, e2, e3⟩ := h2
        subst e2
        rw [if_pos ⟨e1, List.mem_cons_self _ _, e3⟩]
      · rw [if_neg h2, if_neg]
        rintro ⟨e1, e2, e3⟩
        rcases List.mem_cons.1 e2 with e | e
        · subst e; exact h2 ⟨e1, rfl, e3⟩
        · exact h1 ⟨e1, e, e3⟩

/-- The outer reveal loop over the rows `ys`, each row visiting the columns `lo .. hi`. -/
theorem reveal_rows (cx cy : Int) (ys : List Int) : ∀ s : Game,
    ys.foldl (fun s1 y =>
        (intRange (cx - s1.revealRadius) (cx + s1.revealRadius)).foldl
          (fun s2 x => revealCell cx cy s2 x y) s1) s =
      { s with seen := fun b a =>
          if b ∈ ys ∧ a ∈ intRange (cx - s.revealRadius) (cx + s.revealRadius) ∧
            InDisc s cx cy a b then 1 else s.seen b a } := by
  induction ys with
  | nil => intro s; simp
  | cons y ys ih =>
    intro s
    rw [List.foldl_cons, ih, reveal_row]
    simp only [InDisc_withSeen]
    congr 1
    funext b a
    by_cases h1 : b ∈ ys ∧ a ∈ intRange (cx - s.revealRadius) (cx + s.revealRadius) ∧
        InDisc s cx cy a b
    · rw [if_pos h1, if_pos ⟨List.mem_cons_of_mem _ h1.1, h1.2.1, h1.2.2⟩]
    · rw [if_neg h1]
      by_cases h2 : b = y ∧ a ∈ intRange (cx - s.revealRadius) (cx + s.revealRadius) ∧
          InDisc s cx cy a y
      · rw [if_pos h2]
        obtain ⟨e1, e2, e3⟩ := h2
        subst e1
        rw [if_pos ⟨List.mem_cons_self _ _, e2, e3⟩]
      · rw [if_neg h2, if_neg]
        rintro ⟨e1, e2, e3⟩
        rcases List.mem_cons.1 e1 with e | e
        · subst e; exact h2 ⟨rfl, e2, e3⟩
        · exact h1 ⟨e, e2, e3⟩

/-- What `Reveal` computes: only `seen` changes, and exactly the cells of the disc inside
the grid are set. -/
theorem Reveal_eq (s : Game) (cx cy : Int) (hr : 0 ≤ s.revealRadius) :
    Reveal s cx cy =
      { s with seen := fun y x => if InDisc s cx cy x y then 1 else s.seen y x } := by
  unfold Reveal
  rw [reveal_rows]
  congr 1
  funext y x
  by_cases h : InDisc s cx cy x y
  · rw [if_pos h, if_pos]
    have h2 := h.2
    refine ⟨(mem_intRange _ _ _).2 ?_, (mem_intRange _ _ _).2 ?_, h⟩
    · constructor <;> nlinarith [mul_self_nonneg (x - cx), mul_self_nonneg (y - cy),
        mul_self_nonneg (y - cy - s.revealRadius), mul_self_nonneg (y - cy + s.revealRadius)]
    · constructor <;> nlinarith [mul_self_nonneg (x - cx), mul_self_nonneg (y - cy),
        mul_self_nonneg (x - cx - s.revealRadius), mul_self_nonneg (x - cx + s.revealRadius)]
  · rw [if_neg h, if_neg]
    exact fun h' => h h'.2.2

/-! ## Reveal: postcondition and idempotence -/

theorem InDisc_iff (s : Game) (cx cy x y : Int) :
    InDisc s cx cy x y ↔ (0 ≤ x ∧ x < s.mazeW ∧ 0 ≤ y ∧ y < s.mazeH) ∧
      (x - cx) ^ 2 + (y - cy) ^ 2 ≤ s.revealRadius ^ 2 := by
  simp only [InDisc, IsInside_iff, pow_two]

/-- C6 (reveal postcondition).  For a radius `r ≥ 0`, after the reveal loops around the centre
`(cx, cy)` a cell is seen exactly when it was seen before or it lies inside the grid with
`(x-cx)² + (y-cy)² ≤ r²`; every other cell of the mask, in particular every cell outside the
grid, keeps its value; and nothing but the mask changes. -/
theorem Reveal_postcondition (s : Game) (cx cy : Int) (hr : 0 ≤ s.revealRadius) :
    (∀ x y : Int, (Reveal s cx cy).seen y x ≠ 0 ↔
      (s.seen y x ≠ 0 ∨ ((0 ≤ x ∧ x < s.mazeW ∧ 0 ≤ y ∧ y < s.mazeH) ∧
        (x - cx) ^ 2 + (y - cy) ^ 2 ≤ s.revealRadius ^ 2))) ∧
    (∀ x y : Int, ¬ ((0 ≤ x ∧ x < s.mazeW ∧ 0 ≤ y ∧ y < s.mazeH) ∧
        (x - cx) ^ 2 + (y - cy) ^ 2 ≤ s.revealRadius ^ 2) →
      (Reveal s cx cy).seen y x = s.seen y x) ∧
    Reveal s cx cy = { s with seen := (Reveal s cx cy).seen } := by
  have h := Reveal_eq s cx cy hr
  refine ⟨?_, ?_, ?_⟩
  · intro x y
    rw [h, ← InDisc_iff]
    show (if InDisc s cx cy x y then (1 : Int) else s.seen y x) ≠ 0 ↔ _
    by_cases hd : InDisc s cx cy x y
    · simp [hd]
    · simp [hd]
  · intro x y hn
    rw [h, ← InDisc_iff] at *
    show (if InDisc s cx cy x y then (1 : Int) else s.seen y x) = _
    rw [if_neg hn]
  · rw [h]

/-- Witness for C6: the initial 21 × 21 state, radius 4, centre `(1, 1)`. -/
theorem Reveal_postcondition_witness :
    (∀ x y : Int, (Reveal (initialGame fun n => n) 1 1).seen y x ≠ 0 ↔
      ((initialGame fun n => n).seen y x ≠ 0 ∨ ((0 ≤ x ∧ x < 21 ∧ 0 ≤ y ∧ y < 21) ∧
        (x - 1) ^ 2 + (y - 1) ^ 2 ≤ (4 : Int) ^ 2))) ∧
    (∀ x y : Int, ¬ ((0 ≤ x ∧ x < 21 ∧ 0 ≤ y ∧ y < 21) ∧
        (x - 1) ^ 2 + (y - 1) ^ 2 ≤ (4 : Int) ^ 2) →
      (Reveal (initialGame fun n => n) 1 1).seen y x = (initialGame fun n => n).seen y x) ∧
    Reveal (initialGame fun n => n) 1 1 =
      { initialGame (fun n => n) with seen := (Reveal (initialGame fun n => n) 1 1).seen } :=
  Reveal_postcondition (initialGame fun n => n) 1 1 (by decide)

/-- C7 (reveal is idempotent and absorbs smaller radii).  After a reveal with radius `r`, a
second reveal around the same centre with a radius `0 ≤ r' ≤ r` changes nothing: the state is
the one it was called on, so the mask is the mask of the first reveal; with `r' = r` this is
idempotence. -/
theorem Reveal_absorbs (s : Game) (cx cy r' : Int) (h0 : 0 ≤ r') (hle : r' ≤ s.revealRadius) :
    Reveal { Reveal s cx cy with revealRadius := r' } cx cy =
        { Reveal s cx cy with revealRadius := r' } ∧
    (Reveal { Reveal s cx cy with revealRadius := r' } cx cy).seen = (Reveal s cx cy).seen ∧
    Reveal (Reveal s cx cy) cx cy = Reveal s cx cy := by
  have hr : 0 ≤ s.revealRadius := le_trans h0 hle
  have h := Reveal_eq s cx cy hr
  have key : ∀ r2 : Int, 0 ≤ r2 → r2 ≤ s.revealRadius →
      Reveal { Reveal s cx cy with revealRadius := r2 } cx cy =
        { Reveal s cx cy with revealRadius := r2 } := by
    intro r2 h2 hle2
    rw [Reveal_eq _ cx cy (by exact h2)]
    congr 1
    funext y x
    by_cases hd : InDisc { Reveal s cx cy with revealRadius := r2 } cx cy x y
    · rw [if_pos hd]
      have hd' : InDisc s cx cy x y := by
        rw [h] at hd
        refine ⟨hd.1, le_trans hd.2 ?_⟩
        show r2 * r2 ≤ s.revealRadius * s.revealRadius
        nlinarith
      show _ = (Reveal s cx cy).seen y x
      rw [h]
      show (1 : Int) = if InDisc s cx cy x y then 1 else s.seen y x
      rw [if_pos hd']
    · rw [if_neg hd]
  refine ⟨key r' h0 hle, ?_, ?_⟩
  · rw [key r' h0 hle]
  · have e : Reveal s cx cy = { Reveal s cx cy with revealRadius := s.revealRadius } := by
      rw [h]
    have k := key s.revealRadius hr le_rfl
    rw [← e] at k
    exact k

/-- Witness for C7: radius 5 followed by radius 3 around the cell `(4, 6)`. -/
theorem Reveal_absorbs_witness :
    (Reveal { Reveal { initialGame (fun n => n) with revealRadius := 5 } 4 6 with
        revealRadius := 3 } 4 6).seen =
      (Reveal { initialGame (fun n => n) with revealRadius := 5 } 4 6).seen :=
  (Reveal_absorbs { initialGame (fun n => n) with revealRadius := 5 } 4 6 3 (by decide)
    (by decide)).2.1

/-! ## Visibility within a frame -/

theorem Reveal_only_seen (s : Game) (cx cy : Int) :
    Reveal s cx cy = { s with seen := (Reveal s cx cy).seen } ∧
      ∀ x y : Int, s.seen y x ≠ 0 → (Reveal s cx cy).seen y x ≠ 0 := by
  unfold Reveal
  rw [reveal_rows]
  refine ⟨rfl, ?_⟩
  intro x y h
  dsimp only
  split
  · decide
  · exact h

theorem RevealStep_only_seen (s : Game) :
    RevealStep s = { s with seen := (RevealStep s).seen } ∧
      ∀ x y : Int, s.seen y x ≠ 0 → (RevealStep s).seen y x ≠ 0 :=
  Reveal_only_seen s _ _

theorem ResolveMove_only_pos (s : Game) (p : Vector3) :
    ResolveMove s p = { s with playerPos := (ResolveMove s p).playerPos } := by
  unfold ResolveMove
  by_cases h1 : CheckCollisionWithWalls s p = false
  · simp [h1]
  · by_cases h2 : CheckCollisionWithWalls s ⟨p.x, s.playerPos.y, s.playerPos.z⟩ = false
    · simp [h1, h2]
    · by_cases h3 : CheckCollisionWithWalls s ⟨s.playerPos.x, s.playerPos.y, p.z⟩ = false
      · simp [h1, h2, h3]
      · simp [h1, h2, h3]

theorem ResolveMove_playerPos_congr {s t : Game} (hm : t.maze = s.maze) (hw : t.mazeW = s.mazeW)
    (hh : t.mazeH = s.mazeH) (hp : t.playerPos = s.playerPos) (p : Vector3) :
    (ResolveMove t p).playerPos = (ResolveMove s p).playerPos := by
  rw [ResolveMove_playerPos, ResolveMove_playerPos]
  simp only [CheckCollisionWithWalls_congr hm hw hh, hp]

theorem turnStep_fields (inp : Input) (s : Game) :
    turnStep inp s = { s with playerYaw := (turnStep inp s).playerYaw } := by
  unfold turnStep
  split
  · rfl
  · split <;> split <;> rfl

theorem goalReached_congr {s t : Game} (hw : t.mazeW = s.mazeW) (hh : t.mazeH = s.mazeH)
    (hp : t.playerPos = s.playerPos) : goalReached t = goalReached s := by
  simp only [goalReached, hw, hh, hp]

/-- The part of the key handling that does not start a level: the two toggles. -/
theorem KeyStep_no_level (fuel : Nat) (inp : Input) (s : Game) (h1 : inp.keyOne = false)
    (h2 : inp.keyTwo = false) (h3 : inp.keyThree = false) (h4 : inp.keyTab = false)
    (h5 : inp.keyR = false) :
    ∃ (m l : Bool), KeyStep fuel inp s = some { s with showMap := m, mouseLook := l } := by
  cases hg : inp.keyG <;> cases hm : inp.keyM <;>
    simp only [KeyStep, h1, h2, h3, h4, h5, hg, hm, Bool.false_eq_true, if_false, if_true,
      Option.bind_eq_bind, Option.some_bind, Option.pure_def] <;>
    exact ⟨_, _, rfl⟩

/-- C8 (visibility monotonicity within a session).  In a frame in which the game is not
initialised again (no level key, no Tab, no restart key, the timer stays positive, and the
position reached by the move is not the goal), the frame completes and every cell that was
seen before it is seen after it. -/
theorem Frame_seen_monotone (fuel : Nat) (inp : Input) (s : Game) (h1 : inp.keyOne = false)
    (h2 : inp.keyTwo = false) (h3 : inp.keyThree = false) (h4 : inp.keyTab = false)
    (h5 : inp.keyR = false) (htime : 0 < s.levelTimeRemaining - inp.frameTime)
    (hgoal : goalReached (MoveStep (frameVelocity inp) s) = false) :
    ∃ t : Game, Frame fuel inp s = some t ∧
      ∀ x y : Int, s.seen y x ≠ 0 → t.seen y x ≠ 0 := by
  obtain ⟨m, l, hk⟩ := KeyStep_no_level fuel inp s h1 h2 h3 h4 h5
  simp only [Frame, hk, Option.bind_eq_bind, Option.some_bind]
  generalize hs1 : ({ s with showMap := m, mouseLook := l } : Game) = s1
  have e1 : s1.maze = s.maze ∧ s1.mazeW = s.mazeW ∧ s1.mazeH = s.mazeH ∧
      s1.playerPos = s.playerPos ∧ s1.seen = s.seen ∧
      s1.levelTimeRemaining = s.levelTimeRemaining := by
    subst hs1; exact ⟨rfl, rfl, rfl, rfl, rfl, rfl⟩
  generalize hs2 : turnStep inp s1 = s2
  have e2 : s2.maze = s.maze ∧ s2.mazeW = s.mazeW ∧ s2.mazeH = s.mazeH ∧
      s2.playerPos = s.playerPos ∧ s2.seen = s.seen ∧
      s2.levelTimeRemaining = s.levelTimeRemaining := by
    have := turnStep_fields inp s1
    rw [hs2] at this
    rw [this]
    exact e1
  generalize hs3 : MoveStep (frameVelocity inp) s2 = s3
  have e3 : s3.mazeW = s.mazeW ∧ s3.mazeH = s.mazeH ∧
      s3.playerPos = (MoveStep (frameVelocity inp) s).playerPos ∧ s3.seen = s.seen ∧
      s3.levelTimeRemaining = s.levelTimeRemaining := by
    have hp : s3.playerPos = (MoveStep (frameVelocity inp) s).playerPos := by
      rw [← hs3]
      unfold MoveStep
      simp only [e2.2.2.2.1]
      exact ResolveMove_playerPos_congr e2.1 e2.2.1 e2.2.2.1 e2.2.2.2.1 _
    have := ResolveMove_only_pos s2 ⟨s2.playerPos.x + (frameVelocity inp).x,
      s2.playerPos.y + (frameVelocity inp).y, s2.playerPos.z + (frameVelocity inp).z⟩
    have hs3' : s3 = { s2 with playerPos := s3.playerPos } := by
      rw [← hs3]; exact this
    refine ⟨?_, ?_, hp, ?_, ?_⟩
    · rw [hs3']; exact e2.2.1
    · rw [hs3']; exact e2.2.2.1
    · rw [hs3']; exact e2.2.2.2.2.1
    · rw [hs3']; exact e2.2.2.2.2.2
  generalize hs4 : RevealStep s3 = s4
  obtain ⟨hv1, hv2⟩ := RevealStep_only_seen s3
  rw [hs4] at hv1 hv2
  have e4 : s4.mazeW = s.mazeW ∧ s4.mazeH = s.mazeH ∧
      s4.playerPos = (MoveStep (frameVelocity inp) s).playerPos ∧
      s4.levelTimeRemaining = s.levelTimeRemaining := by
    rw [hv1]; exact ⟨e3.1, e3.2.1, e3.2.2.1, e3.2.2.2.2⟩
  have ht : ¬ (s4.levelTimeRemaining - inp.frameTime ≤ 0) := by
    rw [e4.2.2.2]; exact not_le.2 htime
  simp only [TimerStep, ht, if_false, Option.some_bind]
  have hg : goalReached { s4 with levelTimeRemaining := s4.levelTimeRemaining - inp.frameTime }
      = false := by
    rw [← hgoal]
    have hg0 := ResolveMove_grid s ⟨s.playerPos.x + (frameVelocity inp).x,
      s.playerPos.y + (frameVelocity inp).y, s.playerPos.z + (frameVelocity inp).z⟩
    exact goalReached_congr (t := { s4 with
      levelTimeRemaining := s4.levelTimeRemaining - inp.frameTime })
      (e4.1.trans hg0.2.1.symm) (e4.2.1.trans hg0.2.2.symm) e4.2.2.1
  simp only [GoalStep, hg, Bool.false_eq_true, if_false]
  refine ⟨_, rfl, ?_⟩
  intro x y hseen
  exact hv2 x y (by rw [e3.2.2.2.1]; exact hseen)

/-! ## Levels -/

theorem idle_velocity (dt : ℚ) : frameVelocity (idleInput dt) = ⟨0, 0, 0⟩ := by
  simp [frameVelocity, idleInput]

theorem cornerGame_idle_no_goal (dt : ℚ) :
    goalReached (MoveStep (frameVelocity (idleInput dt)) cornerGame) = false := by
  rw [idle_velocity]
  have hp := ResolveMove_playerPos cornerGame
    ⟨cornerGame.playerPos.x + 0, cornerGame.playerPos.y + 0, cornerGame.playerPos.z + 0⟩
  have hg := ResolveMove_grid cornerGame
    ⟨cornerGame.playerPos.x + 0, cornerGame.playerPos.y + 0, cornerGame.playerPos.z + 0⟩
  have hx : (MoveStep ⟨0, 0, 0⟩ cornerGame).playerPos.x = 53 / 10 ∧
      (MoveStep ⟨0, 0, 0⟩ cornerGame).playerPos.z = 27 / 10 := by
    unfold MoveStep
    rw [hp]
    split
    · exact ⟨add_zero _, add_zero _⟩
    · split
      · exact ⟨add_zero _, rfl⟩
      · split
        · exact ⟨rfl, add_zero _⟩
        · exact ⟨rfl, rfl⟩
  have hw : (MoveStep ⟨0, 0, 0⟩ cornerGame).mazeW = 5 := hg.2.1
  have hh : (MoveStep ⟨0, 0, 0⟩ cornerGame).mazeH = 5 := hg.2.2
  unfold goalReached
  rw [hx.1, hx.2, hw, hh]
  norm_num [CELL_SIZE]

/-- Witness for C8: an idle frame of 1/60 s in `cornerGame`. -/
theorem Frame_seen_monotone_witness :
    ∃ t : Game, Frame 0 (idleInput (1 / 60)) cornerGame = some t ∧
      ∀ x y : Int, cornerGame.seen y x ≠ 0 → t.seen y x ≠ 0 :=
  Frame_seen_monotone 0 (idleInput (1 / 60)) cornerGame rfl rfl rfl rfl rfl
    (by norm_num [cornerGame, initialGame, idleInput]) (cornerGame_idle_no_goal _)

/-- What `InitGame` leaves in the other variables on odd dimensions: the mask is cleared, the
player is at the start cell with heading 0, and level, timer, radius and dimensions are kept. -/
theorem InitGame_frame (fuel : Nat) (s : Game) (hd : OddDims s)
    (hfuel : s.mazeW.toNat * s.mazeH.toNat < fuel) :
    ∃ t : Game, InitGame fuel s = some t ∧ t.mazeW = s.mazeW ∧ t.mazeH = s.mazeH ∧
      t.currentLevel = s.currentLevel ∧ t.levelTimeRemaining = s.levelTimeRemaining ∧
      t.revealRadius = s.revealRadius ∧
      (∀ x y : Int, 0 ≤ x → x < 41 → 0 ≤ y → y < 41 → t.seen y x = 0) ∧
      (t.playerPos.x = 2 ∧ t.playerPos.y = 0 ∧ t.playerPos.z = 2) ∧ t.playerYaw = 0 := by
  obtain ⟨g, hg, hgrow, _⟩ := InitGame_core fuel s hd hfuel
  refine ⟨ResetPlayerToStart g, hg, hgrow.mazeW, hgrow.mazeH, hgrow.currentLevel,
    hgrow.levelTimeRemaining, hgrow.revealRadius, ?_, ?_, rfl⟩
  · intro x y hx0 hx1 hy0 hy1
    show g.seen y x = 0
    rw [hgrow.seen]
    simp [clearArrays, MAX_SIZE, hx0, hx1, hy0, hy1]
  · simp [ResetPlayerToStart, CELL_SIZE]

theorem OddDims_of_size (s : Game) (n : Int) (hw : s.mazeW = n) (hh : s.mazeH = n)
    (hn : n % 2 = 1 ∧ 3 ≤ n ∧ n ≤ 41) :
    OddDims s ∧ s.mazeW.toNat * s.mazeH.toNat ≤ 1681 := by
  refine ⟨⟨by omega, by omega, by omega, ?_, by omega, ?_⟩, ?_⟩
  · unfold MAX_SIZE; omega
  · unfold MAX_SIZE; omega
  · have h1 : s.mazeW.toNat ≤ 41 := by omega
    have h2 : s.mazeH.toNat ≤ 41 := by omega
    calc s.mazeW.toNat * s.mazeH.toNat ≤ 41 * 41 := Nat.mul_le_mul h1 h2
      _ = 1681 := by norm_num

/-- C9 (SetLevel contract).  For each level, any prior state and any stream of `rand()`
values, `SetLevel` returns (with a recursion budget above 41 · 41) a state with that level, a
grid of 21 / 31 / 41 cells a side, 300 / 180 / 90 seconds left, reveal radius 5 / 4 / 3, every
cell of the 41 × 41 mask unseen, and the player at `(2, 0, 2)` with heading 0. -/
theorem SetLevel_contract (fuel : Nat) (L : Level) (s : Game) (hfuel : 1681 < fuel) :
    ∃ t : Game, SetLevel fuel L s = some t ∧ t.currentLevel = L ∧
      (t.mazeW = match L with
        | .LEVEL_EASY => 21
        | .LEVEL_MEDIUM => 31
        | .LEVEL_HARD => 41) ∧
      t.mazeH = t.mazeW ∧
      (t.levelTimeRemaining = match L with
        | .LEVEL_EASY => 300
        | .LEVEL_MEDIUM => 180
        | .LEVEL_HARD => 90) ∧
      (t.revealRadius = match L with
        | .LEVEL_EASY => 5
        | .LEVEL_MEDIUM => 4
        | .LEVEL_HARD => 3) ∧
      (∀ x y : Int, 0 ≤ x → x < 41 → 0 ≤ y → y < 41 → t.seen y x = 0) ∧
      (t.playerPos.x = 2 ∧ t.playerPos.y = 0 ∧ t.playerPos.z = 2) ∧ t.playerYaw = 0 := by
  cases L
  · obtain ⟨t, ht, h1, h2, h3, h4, h5, h6, h7, h8⟩ := InitGame_frame fuel
      { s with
        currentLevel := .LEVEL_EASY
        mazeH := 21
        mazeW := 21
        levelTimeRemaining := 300
        revealRadius := 5 }
      (OddDims_of_size _ 21 rfl rfl (by decide)).1
      (lt_of_le_of_lt (OddDims_of_size _ 21 rfl rfl (by decide)).2 hfuel)
    exact ⟨t, ht, h3, h1, h2.trans h1.symm, h4, h5, h6, h7, h8⟩
  · obtain ⟨t, ht, h1, h2, h3, h4, h5, h6, h7, h8⟩ := InitGame_frame fuel
      { s with
        currentLevel := .LEVEL_MEDIUM
        mazeH := 31
        mazeW := 31
        levelTimeRemaining := 180
        revealRadius := 4 }
      (OddDims_of_size _ 31 rfl rfl (by decide)).1
      (lt_of_le_of_lt (OddDims_of_size _ 31 rfl rfl (by decide)).2 hfuel)
    exact ⟨t, ht, h3, h1, h2.trans h1.symm, h4, h5, h6, h7, h8⟩
  · obtain ⟨t, ht, h1, h2, h3, h4, h5, h6, h7, h8⟩ := InitGame_frame fuel
      { s with
        currentLevel := .LEVEL_HARD
        mazeH := 41
        mazeW := 41
        levelTimeRemaining := 90
        revealRadius := 3 }
      (OddDims_of_size _ 41 rfl rfl (by decide)).1
      (lt_of_le_of_lt (OddDims_of_size _ 41 rfl rfl (by decide)).2 hfuel)
    exact ⟨t, ht, h3, h1, h2.trans h1.symm, h4, h5, h6, h7, h8⟩

/-! ## Timeout -/

/-- Witness for C9: `SetLevel(LEVEL_MEDIUM)` from the initial state. -/
theorem SetLevel_contract_witness :
    ∃ t : Game, SetLevel 1682 .LEVEL_MEDIUM (initialGame fun n => 3 * n) = some t ∧
      t.currentLevel = .LEVEL_MEDIUM ∧ t.mazeW = 31 ∧ t.mazeH = t.mazeW ∧
      t.levelTimeRemaining = 180 ∧ t.revealRadius = 4 ∧
      (∀ x y : Int, 0 ≤ x → x < 41 → 0 ≤ y → y < 41 → t.seen y x = 0) ∧
      (t.playerPos.x = 2 ∧ t.playerPos.y = 0 ∧ t.playerPos.z = 2) ∧ t.playerYaw = 0 :=
  SetLevel_contract 1682 .LEVEL_MEDIUM (initialGame fun n => 3 * n) (by decide)

theorem TimerStep_timeout (fuel : Nat) (s : Game) (dt : ℚ) (hfuel : 1681 < fuel)
    (h : s.levelTimeRemaining - dt ≤ 0) :
    ∃ t : Game, TimerStep fuel dt s = some t ∧ AfterTimeout fuel t := by
  have hs0 := OddDims_of_size
    { s with
      levelTimeRemaining := 300
      currentLevel := .LEVEL_EASY
      mazeH := 21
      mazeW := 21
      revealRadius := 5 } 21 rfl rfl (by decide)
  obtain ⟨t1, ht1, a2', a3', a1, a4', _, _, _, _⟩ := InitGame_frame fuel _ hs0.1
    (lt_of_le_of_lt hs0.2 hfuel)
  have ht1 : SetLevel fuel .LEVEL_EASY
      { s with levelTimeRemaining := s.levelTimeRemaining - dt } = some t1 := ht1
  have a2' : t1.mazeW = 21 := a2'
  have a3 : t1.mazeH = t1.mazeW := a3'.trans a2'.symm
  have a1 : t1.currentLevel = .LEVEL_EASY := a1
  have a4' : t1.levelTimeRemaining = 300 := a4'
  have hsz := OddDims_of_size t1 21 a2' (a3.trans a2') (by decide)
  obtain ⟨t, ht, b1, b2, b3, b4, _, b6, b7, b8⟩ := InitGame_frame fuel t1 hsz.1
    (lt_of_le_of_lt hsz.2 hfuel)
  refine ⟨t, ?_, b3.trans a1, b1.trans a2', b2.trans (a3.trans a2'), b4.trans a4', b6, b7, b8,
    ⟨t1, a2', a3.trans a2', ht⟩, ?_⟩
  · simp only [TimerStep, h, if_true, ht1, ht]
  · have hg : goalReached t = false := by
      unfold goalReached
      rw [b7.1, b7.2.2, b1.trans a2', b2.trans (a3.trans a2')]
      norm_num [CELL_SIZE]
    simp only [GoalStep, hg, Bool.false_eq_true, if_false]

/-- C10 (timeout forces a full reset to EASY).  With a recursion budget above 41 · 41: when the
time remaining minus the frame time is `≤ 0`, the timer update returns a state of level EASY
with a 21 × 21 grid produced by `InitGame`, 300 seconds left, the mask cleared and the player at
the start, and the goal check that ends the frame leaves that state as it is; this is then the
state in which the whole frame ends.  When the difference is positive, the timer update changes
only the time remaining. -/
theorem timeout_resets (fuel : Nat) (s : Game) (dt : ℚ) (hfuel : 1681 < fuel) :
    (s.levelTimeRemaining - dt ≤ 0 →
      ∃ t : Game, TimerStep fuel dt s = some t ∧ AfterTimeout fuel t) ∧
    (0 < s.levelTimeRemaining - dt →
      TimerStep fuel dt s = some { s with levelTimeRemaining := s.levelTimeRemaining - dt }) ∧
    (∀ (inp : Input) (s1 : Game), KeyStep fuel inp s = some s1 →
      s1.levelTimeRemaining - inp.frameTime ≤ 0 →
      ∃ t : Game, Frame fuel inp s = some t ∧ AfterTimeout fuel t) := by
  refine ⟨TimerStep_timeout fuel s dt hfuel, ?_, ?_⟩
  · intro h
    simp only [TimerStep, not_le.2 h, if_false]
  · intro inp s1 hk h
    have e2 := turnStep_fields inp s1
    have e3 := ResolveMove_only_pos (turnStep inp s1)
      ⟨(turnStep inp s1).playerPos.x + (frameVelocity inp).x,
        (turnStep inp s1).playerPos.y + (frameVelocity inp).y,
        (turnStep inp s1).playerPos.z + (frameVelocity inp).z⟩
    have e4 := (RevealStep_only_seen (MoveStep (frameVelocity inp) (turnStep inp s1))).1
    have htime : (RevealStep (MoveStep (frameVelocity inp) (turnStep inp s1))).levelTimeRemaining
        = s1.levelTimeRemaining := by
      rw [e4]
      show (MoveStep (frameVelocity inp) (turnStep inp s1)).levelTimeRemaining = _
      unfold MoveStep
      rw [e3]
      show (turnStep inp s1).levelTimeRemaining = _
      rw [e2]
    obtain ⟨t, ht, hat⟩ := TimerStep_timeout fuel
      (RevealStep (MoveStep (frameVelocity inp) (turnStep inp s1))) inp.frameTime hfuel
      (by rw [htime]; exact h)
    refine ⟨t, ?_, hat⟩
    simp only [Frame, hk, Option.bind_eq_bind, Option.some_bind, ht]
    exact hat.2.2.2.2.2.2.2.2

/-- Witness for C10: level EASY with 300 seconds left, and an idle frame of 300.01 seconds. -/
theorem timeout_resets_witness :
    ∃ t : Game, Frame 1682 (idleInput (30001 / 100)) (initialGame fun n => n) = some t ∧
      AfterTimeout 1682 t :=
  (timeout_resets 1682 (initialGame fun n => n) (30001 / 100) (by decide)).2.2
    (idleInput (30001 / 100)) (initialGame fun n => n) rfl
    (by norm_num [initialGame, idleInput])

/-! ## The shuffle -/

theorem swapAt_length (arr : List Int) (i j : Nat) : (swapAt arr i j).length = arr.length := by
  simp [swapAt]

theorem swapAt_perm (arr : List Int) (i j : Nat) (hi : i < arr.length) (hj : j < arr.length) :
    (swapAt arr i j).Perm arr := by
  rw [List.perm_iff_count]
  intro a
  unfold swapAt
  have e1 : arr.getD i 0 = arr[i] := by simp [List.getD_eq_getElem?_getD, hi]
  have e2 : arr.getD j 0 = arr[j] := by simp [List.getD_eq_getElem?_getD, hj]
  simp only [e1, e2]
  have hj' : j < (arr.set i arr[j]).length := by simpa using hj
  rw [List.count_set _ _ _ _ hj', List.count_set _ _ _ _ hi]
  have hget : (arr.set i arr[j])[j] = arr[j] := by
    rw [List.getElem_set]
    split
    · rfl
    · rfl
  rw [hget]
  have b1 : (if (arr[i] == a) = true then 1 else 0) ≤ arr.count a := by
    have := List.boole_getElem_le_countP (fun x => x == a) arr i hi
    simpa [List.count_eq_countP] using this
  by_cases h1 : (arr[i] == a) = true <;> by_cases h2 : (arr[j] == a) = true <;>
    simp only [h1, h2, if_true, if_false] at b1 ⊢ <;> omega

theorem ShuffleLoop_perm (i : Nat) : ∀ (arr : List Int) (s : Game), i < arr.length ∨ i = 0 →
    (ShuffleLoop i arr s).1.Perm arr := by
  induction i with
  | zero => intro arr s _; exact List.Perm.refl _
  | succ i ih =>
    intro arr s h
    have hi : i + 1 < arr.length := by omega
    simp only [ShuffleLoop]
    have hj : (rand s).1 % (i + 1 + 1) < arr.length :=
      lt_of_lt_of_le (Nat.mod_lt _ (by omega)) (by omega)
    refine List.Perm.trans (ih _ _ ?_) (swapAt_perm arr _ _ hi hj)
    rw [swapAt_length]
    omega

theorem Shuffle_perm (arr : List Int) (n : Nat) (s : Game) (hn : n ≤ arr.length) :
    (Shuffle arr n s).1.Perm arr := by
  unfold Shuffle
  apply ShuffleLoop_perm
  omega

theorem Shuffle_four_eq (s : Game) :
    (Shuffle [0, 1, 2, 3] 4 s).1 = shuffleFour (s.rng 0 % 4) (s.rng 1 % 3) (s.rng 2 % 2) := rfl

theorem shuffleFour_injective :
    ∀ (j3 k3 : Fin 4) (j2 k2 : Fin 3) (j1 k1 : Fin 2),
      shuffleFour j3 j2 j1 = shuffleFour k3 k2 k1 → j3 = k3 ∧ j2 = k2 ∧ j1 = k1 := by
  decide

theorem fourOrders_length : fourOrders.length = 24 := by decide

theorem fourOrders_nodup : fourOrders.Nodup := by decide

theorem mem_fourOrders (l : List Int) :
    l ∈ fourOrders ↔ ∃ j3 < 4, ∃ j2 < 3, ∃ j1 < 2, shuffleFour j3 j2 j1 = l := by
  simp only [fourOrders, List.mem_flatMap, List.mem_range, List.mem_map]

theorem shuffleFour_perm (j3 j2 j1 : Nat) (h3 : j3 < 4) (h2 : j2 < 3) (h1 : j1 < 2) :
    (shuffleFour j3 j2 j1).Perm [0, 1, 2, 3] := by
  unfold shuffleFour
  refine (swapAt_perm _ 1 j1 ?_ ?_).trans ((swapAt_perm _ 2 j2 ?_ ?_).trans
    (swapAt_perm _ 3 j3 ?_ ?_)) <;> simp [swapAt_length] <;> omega

theorem fourOrders_perm_permutations :
    fourOrders.Perm (List.permutations [(0 : Int), 1, 2, 3]) := by
  apply List.Subperm.perm_of_length_le
  · apply List.subperm_of_subset fourOrders_nodup
    intro l hl
    obtain ⟨j3, h3, j2, h2, j1, h1, rfl⟩ := (mem_fourOrders l).1 hl
    exact List.mem_permutations.2 (shuffleFour_perm j3 j2 j1 h3 h2 h1)
  · rw [List.length_permutations, fourOrders_length]
    decide

/-! ## The calls of the generator -/

theorem carveDirsLog_erase (recLog : Game → Int → Int → Option (Game × List (Int × Int)))
    (recur : Game → Int → Int → Option Game)
    (h : ∀ s x y, (recLog s x y).map Prod.fst = recur s x y) (sx sy : Int) :
    ∀ (ds : List Int) (s : Game),
      (carveDirsLog recLog sx sy ds s).map Prod.fst = carveDirs recur sx sy ds s := by
  intro ds
  induction ds with
  | nil => intro s; rfl
  | cons d ds ih =>
    intro s
    simp only [carveDirsLog, carveDirs]
    split
    · exact ih s
    · split
      · rw [← h]
        cases hr : recLog (SetCell s (sx + (eqInt d 1 - eqInt d 3))
            (sy + (eqInt d 2 - eqInt d 0)) CELL_EMPTY) (sx + (eqInt d 1 - eqInt d 3) * 2)
            (sy + (eqInt d 2 - eqInt d 0) * 2) with
        | none => rfl
        | some r1 =>
          simp only [Option.map_some']
          rw [← ih r1.1]
          cases carveDirsLog recLog sx sy ds r1.1 with
          | none => rfl
          | some r2 => rfl
      · exact ih s

/-- Erasing the log gives `GenerateMazeRecursive`. -/
theorem GenerateMazeRecursiveLog_erase (fuel : Nat) : ∀ (s : Game) (sx sy : Int),
    (GenerateMazeRecursiveLog fuel s sx sy).map Prod.fst = GenerateMazeRecursive fuel s sx sy := by
  induction fuel with
  | zero => intro s sx sy; rfl
  | succ fuel ih =>
    intro s sx sy
    simp only [GenerateMazeRecursiveLog, GenerateMazeRecursive]
    rw [← carveDirsLog_erase _ _ ih]
    cases carveDirsLog (GenerateMazeRecursiveLog fuel) sx sy
        (Shuffle [0, 1, 2, 3] 4 (SetCell s sx sy CELL_EMPTY)).1
        (Shuffle [0, 1, 2, 3] 4 (SetCell s sx sy CELL_EMPTY)).2 with
    | none => rfl
    | some r => rfl

theorem Wall_not_Open {s : Game} {c : Int × Int} (hw : Wall s c) (ho : Open s c) : False := by
  have h1 := hw.2
  have h2 := ho.2
  rw [h2] at h1
  exact absurd h1 (by decide)

theorem Grows.wall {s t : Game} (h : Grows s t) {c : Int × Int} (hc : Wall t c) : Wall s c :=
  (mem_wallCells s c).1 (h.wallCells_subset ((mem_wallCells t c).2 hc))

/-- The calls below a call: they are entered on pairwise different cells, each a wall cell of
the grid when the call above had opened its own cell, and each open afterwards. -/
theorem GenerateMazeRecursiveLog_calls (fuel : Nat) :
    ∀ (s : Game) (sx sy : Int) (t : Game) (log : List (Int × Int)),
      GenerateMazeRecursiveLog fuel s sx sy = some (t, log) →
      ∃ rest, log = (sx, sy) :: rest ∧ rest.Nodup ∧
        ∀ c ∈ rest, Wall (SetCell s sx sy CELL_EMPTY) c ∧ Open t c := by
  induction fuel with
  | zero => intro s sx sy t log h; simp [GenerateMazeRecursiveLog] at h
  | succ fuel ih =>
    intro s sx sy t log h
    simp only [GenerateMazeRecursiveLog] at h
    have hsh := Shuffle_Grows [0, 1, 2, 3] 4 (SetCell s sx sy CELL_EMPTY)
    have loop : ∀ (ds : List Int) (u t : Game) (lg : List (Int × Int)),
        carveDirsLog (GenerateMazeRecursiveLog fuel) sx sy ds u = some (t, lg) →
        lg.Nodup ∧ ∀ c ∈ lg, Wall u c ∧ Open t c := by
      intro ds
      induction ds with
      | nil =>
        intro u t lg hr
        simp only [carveDirsLog, Option.some.injEq, Prod.mk.injEq] at hr
        obtain ⟨_, rfl⟩ := hr
        exact ⟨List.nodup_nil, by simp⟩
      | cons d ds ihd =>
        intro u t lg hr
        simp only [carveDirsLog] at hr
        split at hr
        · exact ihd u t lg hr
        · next hins =>
          split at hr
          · next hwall =>
            split at hr
            · exact absurd hr (by simp)
            · next r1 hr1 =>
              split at hr
              · exact absurd hr (by simp)
              · next r2 hr2 =>
                simp only [Option.some.injEq, Prod.mk.injEq] at hr
                obtain ⟨rfl, rfl⟩ := hr
                obtain ⟨u1, log1⟩ := r1
                obtain ⟨t2, log2⟩ := r2
                simp only at hr2 ⊢
                obtain ⟨rest1, rfl, hnd1, hall1⟩ := ih _ _ _ _ _ hr1
                obtain ⟨hnd2, hall2⟩ := ihd u1 t2 log2 hr2
                have hins' : IsInside u (sx + (eqInt d 1 - eqInt d 3) * 2)
                    (sy + (eqInt d 2 - eqInt d 0) * 2) = true := by simpa using hins
                have hwn : Wall u (sx + (eqInt d 1 - eqInt d 3) * 2,
                    sy + (eqInt d 2 - eqInt d 0) * 2) := by
                  refine ⟨hins', ?_⟩
                  have := hwall
                  simp only [CellAt, hins] at this
                  simpa using this
                have he1 := GenerateMazeRecursiveLog_erase fuel
                  (SetCell u (sx + (eqInt d 1 - eqInt d 3)) (sy + (eqInt d 2 - eqInt d 0))
                    CELL_EMPTY) (sx + (eqInt d 1 - eqInt d 3) * 2)
                  (sy + (eqInt d 2 - eqInt d 0) * 2)
                rw [hr1] at he1
                have hgen : GenerateMazeRecursive fuel
                    (SetCell u (sx + (eqInt d 1 - eqInt d 3)) (sy + (eqInt d 2 - eqInt d 0))
                      CELL_EMPTY) (sx + (eqInt d 1 - eqInt d 3) * 2)
                    (sy + (eqInt d 2 - eqInt d 0) * 2) = some u1 := he1.symm
                have hg1 := GenerateMazeRecursive_Grows fuel _ _ _ _ hgen
                have hgw := Grows_SetCell u (sx + (eqInt d 1 - eqInt d 3))
                  (sy + (eqInt d 2 - eqInt d 0))
                have he2 := carveDirsLog_erase _ _ (GenerateMazeRecursiveLog_erase fuel) sx sy
                  ds u1
                rw [hr2] at he2
                have hg2 := carveDirs_Grows _ (GenerateMazeRecursive_Grows fuel) sx sy _ _ _
                  he2.symm
                have hopen_n : Open u1 (sx + (eqInt d 1 - eqInt d 3) * 2,
                    sy + (eqInt d 2 - eqInt d 0) * 2) :=
                  GenerateMazeRecursive_opens fuel _ _ _ _
                    (by rw [IsInside_SetCell]; exact hins') hgen
                have hn_notin : (sx + (eqInt d 1 - eqInt d 3) * 2,
                    sy + (eqInt d 2 - eqInt d 0) * 2) ∉ rest1 := by
                  intro hmem
                  have hw := (hall1 _ hmem).1
                  have ho : Open (SetCell (SetCell u (sx + (eqInt d 1 - eqInt d 3))
                      (sy + (eqInt d 2 - eqInt d 0)) CELL_EMPTY)
                      (sx + (eqInt d 1 - eqInt d 3) * 2) (sy + (eqInt d 2 - eqInt d 0) * 2)
                      CELL_EMPTY) (sx + (eqInt d 1 - eqInt d 3) * 2,
                      sy + (eqInt d 2 - eqInt d 0) * 2) :=
                    (Open_SetCell _ _ _ _ _).2 (Or.inr
                      ⟨by rw [IsInside_SetCell]; exact hins', rfl, rfl⟩)
                  exact Wall_not_Open hw ho
                have hall1' : ∀ c ∈ (sx + (eqInt d 1 - eqInt d 3) * 2,
                    sy + (eqInt d 2 - eqInt d 0) * 2) :: rest1, Wall u c ∧ Open u1 c := by
                  intro c hc
                  rcases List.mem_cons.1 hc with rfl | hc
                  · exact ⟨hwn, hopen_n⟩
                  · exact ⟨hgw.wall ((Grows_SetCell _ _ _).wall (hall1 c hc).1), (hall1 c hc).2⟩
                refine ⟨?_, ?_⟩
                · rw [List.nodup_append]
                  refine ⟨List.nodup_cons.2 ⟨hn_notin, hnd1⟩, hnd2, ?_⟩
                  intro c hc1 hc2
                  exact Wall_not_Open (hall2 c hc2).1 (hall1' c hc1).2
                · intro c hc
                  rcases List.mem_append.1 hc with hc | hc
                  · exact ⟨(hall1' c hc).1, hg2.open (hall1' c hc).2⟩
                  · exact ⟨hgw.wall (hg1.wall (hall2 c hc).1), (hall2 c hc).2⟩
          · exact ihd u t lg hr
    split at h
    · exact absurd h (by simp)
    · next r hr =>
      simp only [Option.some.injEq, Prod.mk.injEq] at h
      obtain ⟨rfl, rfl⟩ := h
      obtain ⟨t, lg⟩ := r
      obtain ⟨hnd, hall⟩ := loop _ _ _ _ hr
      refine ⟨lg, rfl, hnd, ?_⟩
      intro c hc
      exact ⟨hsh.1.wall (hall c hc).1, (hall c hc).2⟩

/-- C13 (termination of maze generation).  For every grid, every start cell and every stream
of `rand()` values, `GenerateMazeRecursive` returns when its recursion budget exceeds
`mazeW * mazeH`.  The calls below the first one are entered on pairwise different cells, each
a wall cell of the grid before the call and open afterwards, so the number of wall cells in
the grid drops by at least the number of these calls, and the total number of calls is at
most `1 + mazeW * mazeH`. -/
theorem GenerateMazeRecursive_bounded_calls (fuel : Nat) (s : Game) (sx sy : Int)
    (hfuel : s.mazeW.toNat * s.mazeH.toNat < fuel) :
    ∃ (t : Game) (rest : List (Int × Int)),
      GenerateMazeRecursiveLog fuel s sx sy = some (t, (sx, sy) :: rest) ∧
      GenerateMazeRecursive fuel s sx sy = some t ∧
      rest.Nodup ∧ (∀ c ∈ rest, Wall s c ∧ Open t c) ∧
      (wallCells t).card + rest.length ≤ (wallCells s).card ∧
      ((sx, sy) :: rest).length ≤ 1 + s.mazeW.toNat * s.mazeH.toNat := by
  have hcard : (wallCells (SetCell s sx sy CELL_EMPTY)).card < fuel :=
    lt_of_le_of_lt (Finset.card_le_card (Grows_SetCell s sx sy).wallCells_subset)
      (lt_of_le_of_lt (wallCells_card_le s) hfuel)
  obtain ⟨t, ht⟩ := GenerateMazeRecursive_terminates fuel s sx sy hcard
  have he := GenerateMazeRecursiveLog_erase fuel s sx sy
  rw [ht] at he
  obtain ⟨⟨t', log⟩, hlog, htt⟩ := Option.map_eq_some'.1 he
  have htt : t' = t := htt
  subst htt
  obtain ⟨rest, rfl, hnd, hall⟩ := GenerateMazeRecursiveLog_calls fuel s sx sy t' _ hlog
  have hgrow := GenerateMazeRecursive_Grows fuel s sx sy t' ht
  have hall' : ∀ c ∈ rest, Wall s c ∧ Open t' c := fun c hc =>
    ⟨(Grows_SetCell s sx sy).wall (hall c hc).1, (hall c hc).2⟩
  have hsub : wallCells t' ∪ rest.toFinset ⊆ wallCells s := by
    intro c hc
    rcases Finset.mem_union.1 hc with h | h
    · exact hgrow.wallCells_subset h
    · exact (mem_wallCells s c).2 (hall' c (List.mem_toFinset.1 h)).1
  have hdisj : Disjoint (wallCells t') rest.toFinset := by
    rw [Finset.disjoint_left]
    intro c h1 h2
    exact Wall_not_Open ((mem_wallCells t' c).1 h1) (hall' c (List.mem_toFinset.1 h2)).2
  have hmeasure : (wallCells t').card + rest.length ≤ (wallCells s).card := by
    have := Finset.card_le_card hsub
    rw [Finset.card_union_of_disjoint hdisj, List.toFinset_card_of_nodup hnd] at this
    exact this
  refine ⟨t', rest, hlog, ht, hnd, hall', hmeasure, ?_⟩
  have := wallCells_card_le s
  simp only [List.length_cons]
  omega

/-- Witness for C13: a call on the start cell of an all-wall 21 × 21 grid. -/
theorem GenerateMazeRecursive_bounded_calls_witness :
    ∃ (t : Game) (rest : List (Int × Int)),
      GenerateMazeRecursiveLog 442 (clearArrays (initialGame fun n => n)) 1 1 =
        some (t, (1, 1) :: rest) ∧
      GenerateMazeRecursive 442 (clearArrays (initialGame fun n => n)) 1 1 = some t ∧
      rest.Nodup ∧ (∀ c ∈ rest, Wall (clearArrays (initialGame fun n => n)) c ∧ Open t c) ∧
      (wallCells t).card + rest.length ≤ (wallCells (clearArrays (initialGame fun n => n))).card ∧
      ((1, 1) :: rest).length ≤ 1 + 21 * 21 :=
  GenerateMazeRecursive_bounded_calls 442 (clearArrays (initialGame fun n => n)) 1 1
    (by decide)

/-- C15 (the shuffle is a Fisher–Yates permutation).  For an array of length `n` and any
stream of `rand()` values the output of `Shuffle` is a permutation of its input.  For the four
directions the output is `shuffleFour j3 j2 j1`, where `j3`, `j2`, `j1` are the three draws
`rand() % 4`, `rand() % 3`, `rand() % 2`; different sequences of draws give different orders,
every order so obtained is a permutation of `[0, 1, 2, 3]`, and every permutation of
`[0, 1, 2, 3]` is obtained: the 4 · 3 · 2 = 24 sequences of draws correspond one to one to the
24 permutations. -/
theorem Shuffle_fisher_yates :
    (∀ (arr : List Int) (n : Nat) (s : Game), n = arr.length →
      (Shuffle arr n s).1.Perm arr) ∧
    (∀ s : Game, (Shuffle [0, 1, 2, 3] 4 s).1 =
      shuffleFour (s.rng 0 % 4) (s.rng 1 % 3) (s.rng 2 % 2)) ∧
    (∀ (j3 k3 : Fin 4) (j2 k2 : Fin 3) (j1 k1 : Fin 2),
      shuffleFour j3 j2 j1 = shuffleFour k3 k2 k1 → j3 = k3 ∧ j2 = k2 ∧ j1 = k1) ∧
    (∀ j3 < 4, ∀ j2 < 3, ∀ j1 < 2, (shuffleFour j3 j2 j1).Perm [0, 1, 2, 3]) ∧
    (∀ l : List Int, l.Perm [0, 1, 2, 3] →
      ∃ j3 < 4, ∃ j2 < 3, ∃ j1 < 2, shuffleFour j3 j2 j1 = l) ∧
    fourOrders.length = 24 ∧ fourOrders.Perm (List.permutations [(0 : Int), 1, 2, 3]) := by
  refine ⟨?_, Shuffle_four_eq, shuffleFour_injective, ?_, ?_, fourOrders_length,
    fourOrders_perm_permutations⟩
  · intro arr n s hn
    exact Shuffle_perm arr n s (le_of_eq hn)
  · intro j3 h3 j2 h2 j1 h1
    exact shuffleFour_perm j3 j2 j1 h3 h2 h1
  · intro l hl
    have hmem : l ∈ fourOrders :=
      (fourOrders_perm_permutations.mem_iff).2 (List.mem_permutations.2 hl)
    exact (mem_fourOrders l).1 hmem

/-- Witness for C15: shuffling the four directions with the stream `5, 4, 3, ...` gives the
order `[0, 2, 3, 1]`, a permutation of `[0, 1, 2, 3]`. -/
theorem Shuffle_fisher_yates_witness :
    (Shuffle [0, 1, 2, 3] 4 (initialGame fun n => 5 - n)).1 = [0, 2, 3, 1] ∧
      (Shuffle [0, 1, 2, 3] 4 (initialGame fun n => 5 - n)).1.Perm [0, 1, 2, 3] :=
  ⟨by rw [Shuffle_fisher_yates.2.1]; decide,
    Shuffle_fisher_yates.1 [0, 1, 2, 3] 4 (initialGame fun n => 5 - n) rfl⟩

/-! ## `InitGame` on arbitrary dimensions -/

theorem makeOdd_eq (s : Game) :
    makeOdd s = { s with
      mazeW := if s.mazeW % 2 = 0 then s.mazeW - 1 else s.mazeW
      mazeH := if s.mazeH % 2 = 0 then s.mazeH - 1 else s.mazeH } := by
  unfold makeOdd
  by_cases hw : s.mazeW % 2 = 0 <;> by_cases hh : s.mazeH % 2 = 0 <;>
    simp [tmod_two_eq_zero_iff, hw, hh]

theorem makeOdd_odd (s : Game) : (makeOdd s).mazeW % 2 = 1 ∧ (makeOdd s).mazeH % 2 = 1 := by
  rw [makeOdd_eq]
  constructor
  · show (if s.mazeW % 2 = 0 then s.mazeW - 1 else s.mazeW) % 2 = 1
    split <;> omega
  · show (if s.mazeH % 2 = 0 then s.mazeH - 1 else s.mazeH) % 2 = 1
    split <;> omega

theorem makeOdd_toNat_le (s : Game) :
    (makeOdd s).mazeW.toNat * (makeOdd s).mazeH.toNat ≤ s.mazeW.toNat * s.mazeH.toNat := by
  rw [makeOdd_eq]
  apply Nat.mul_le_mul
  · show (if s.mazeW % 2 = 0 then s.mazeW - 1 else s.mazeW).toNat ≤ _
    split <;> omega
  · show (if s.mazeH % 2 = 0 then s.mazeH - 1 else s.mazeH).toNat ≤ _
    split <;> omega

/-- The shape of every result of `InitGame`: a grid grown from the all-wall grid on the odd
dimensions, with the player reset. -/
theorem InitGame_some (fuel : Nat) (s t : Game) (h : InitGame fuel s = some t) :
    ∃ g g2 : Game, GenerateMazeRecursive fuel (makeOdd (clearArrays s)) 1 1 = some g ∧
      Grows (makeOdd (clearArrays s)) g ∧ Grows g g2 ∧
      g2 = SetCell (SetCell g 1 1 CELL_EMPTY) (g.mazeW - 2) (g.mazeH - 2) CELL_EMPTY ∧
      t = ResetPlayerToStart g2 := by
  unfold InitGame at h
  simp only at h
  split at h
  · exact absurd h (by simp)
  · next g hg =>
    simp only [Option.some.injEq] at h
    refine ⟨g, _, hg, GenerateMazeRecursive_Grows fuel _ _ _ _ hg,
      (Grows_SetCell g 1 1).trans (Grows_SetCell _ _ _), ?_, h.symm⟩
    rw [SetCell_mazeW, SetCell_mazeH]

/-- `InitGame` returns for every state when the recursion budget exceeds `mazeW * mazeH`. -/
theorem InitGame_returns (fuel : Nat) (s : Game) (hfuel : s.mazeW.toNat * s.mazeH.toNat < fuel) :
    ∃ t : Game, InitGame fuel s = some t := by
  have hcard : (wallCells (SetCell (makeOdd (clearArrays s)) 1 1 CELL_EMPTY)).card < fuel := by
    refine lt_of_le_of_lt (Finset.card_le_card (Grows_SetCell _ 1 1).wallCells_subset) ?_
    refine lt_of_le_of_lt (wallCells_card_le _) ?_
    exact lt_of_le_of_lt (makeOdd_toNat_le (clearArrays s)) hfuel
  obtain ⟨g, hg⟩ := GenerateMazeRecursive_terminates fuel _ 1 1 hcard
  refine ⟨ResetPlayerToStart (SetCell (SetCell g 1 1 CELL_EMPTY)
    ((SetCell g 1 1 CELL_EMPTY).mazeW - 2) ((SetCell g 1 1 CELL_EMPTY).mazeH - 2) CELL_EMPTY), ?_⟩
  simp only [InitGame, hg]

/-- What `InitGame` leaves in the variables other than the grid: the dimensions are made odd,
the mask is cleared, the player is at the start with heading 0, and the level, the timer, the
radius and the two toggles are kept. -/
theorem InitGame_fields (fuel : Nat) (s t : Game) (h : InitGame fuel s = some t) :
    t.mazeW = (if s.mazeW % 2 = 0 then s.mazeW - 1 else s.mazeW) ∧
    t.mazeH = (if s.mazeH % 2 = 0 then s.mazeH - 1 else s.mazeH) ∧
    t.currentLevel = s.currentLevel ∧ t.levelTimeRemaining = s.levelTimeRemaining ∧
    t.revealRadius = s.revealRadius ∧ t.showMap = s.showMap ∧ t.mouseLook = s.mouseLook ∧
    (∀ x y : Int, 0 ≤ x → x < 41 → 0 ≤ y → y < 41 → t.seen y x = 0) ∧
    (t.playerPos.x = 2 ∧ t.playerPos.y = 0 ∧ t.playerPos.z = 2) ∧ t.playerYaw = 0 := by
  obtain ⟨g, g2, _, hg1, hg2, _, rfl⟩ := InitGame_some fuel s t h
  have hg := hg1.trans hg2
  have hm := makeOdd_eq (clearArrays s)
  refine ⟨?_, ?_, ?_, ?_, ?_, ?_, ?_, ?_, ?_, rfl⟩
  · show g2.mazeW = _
    rw [hg.mazeW, hm]; rfl
  · show g2.mazeH = _
    rw [hg.mazeH, hm]; rfl
  · show g2.currentLevel = _
    rw [hg.currentLevel, hm]; rfl
  · show g2.levelTimeRemaining = _
    rw [hg.levelTimeRemaining, hm]; rfl
  · show g2.revealRadius = _
    rw [hg.revealRadius, hm]; rfl
  · show g2.showMap = _
    rw [hg.showMap, hm]; rfl
  · show g2.mouseLook = _
    rw [hg.mouseLook, hm]; rfl
  · intro x y hx0 hx1 hy0 hy1
    show g2.seen y x = 0
    rw [hg.seen, hm]
    simp [clearArrays, MAX_SIZE, hx0, hx1, hy0, hy1]
  · simp [ResetPlayerToStart, CELL_SIZE]

/-! ## The dimensions of the active grid -/

theorem LevelDims.initGame {s t : Game} {fuel : Nat} (hd : LevelDims s)
    (h : InitGame fuel s = some t) : LevelDims t := by
  obtain ⟨hw, hh, _⟩ := InitGame_fields fuel s t h
  obtain ⟨e, hs⟩ := hd
  have h1 : ¬ s.mazeW % 2 = 0 := by omega
  have h2 : ¬ s.mazeH % 2 = 0 := by omega
  rw [if_neg h1] at hw
  rw [if_neg h2] at hh
  exact ⟨by rw [hw, hh, e], by rw [hw]; exact hs⟩

theorem LevelDims.setLevel {s t : Game} {fuel : Nat} (L : Level)
    (h : SetLevel fuel L s = some t) : LevelDims t := by
  have hd : LevelDims { s with
      currentLevel := L
      mazeH := levelSizes L
      mazeW := levelSizes L
      levelTimeRemaining := levelTimes L } := by
    refine ⟨rfl, ?_⟩
    cases L
    · left; rfl
    · right; left; rfl
    · right; right; rfl
  cases L
  · exact LevelDims.initGame (s := { s with
      currentLevel := .LEVEL_EASY
      mazeH := levelSizes .LEVEL_EASY
      mazeW := levelSizes .LEVEL_EASY
      levelTimeRemaining := levelTimes .LEVEL_EASY
      revealRadius := 5 }) ⟨hd.1, hd.2⟩ h
  · exact LevelDims.initGame (s := { s with
      currentLevel := .LEVEL_MEDIUM
      mazeH := levelSizes .LEVEL_MEDIUM
      mazeW := levelSizes .LEVEL_MEDIUM
      levelTimeRemaining := levelTimes .LEVEL_MEDIUM
      revealRadius := 4 }) ⟨hd.1, hd.2⟩ h
  · exact LevelDims.initGame (s := { s with
      currentLevel := .LEVEL_HARD
      mazeH := levelSizes .LEVEL_HARD
      mazeW := levelSizes .LEVEL_HARD
      levelTimeRemaining := levelTimes .LEVEL_HARD
      revealRadius := 3 }) ⟨hd.1, hd.2⟩ h

theorem LevelDims.congr {s t : Game} (hd : LevelDims s) (hw : t.mazeW = s.mazeW)
    (hh : t.mazeH = s.mazeH) : LevelDims t := by
  unfold LevelDims at *
  rw [hw, hh]
  exact hd

/-- The key handling as a chain of its six steps. -/
theorem KeyStep_eq (fuel : Nat) (inp : Input) (s : Game) :
    KeyStep fuel inp s =
      (if inp.keyOne = true then SetLevel fuel .LEVEL_EASY s else some s).bind fun s1 =>
      (if inp.keyTwo = true then SetLevel fuel .LEVEL_MEDIUM s1 else some s1).bind fun s2 =>
      (if inp.keyThree = true then SetLevel fuel .LEVEL_HARD s2 else some s2).bind fun s3 =>
      (if inp.keyTab = true then SetLevel fuel (Level.ofInt ((s3.currentLevel.toInt + 1) % 3)) s3
        else some s3).bind fun s4 =>
      (if inp.keyR = true then
          InitGame fuel (if inp.keyG = true then { s4 with showMap := !s4.showMap } else s4)
        else some (if inp.keyG = true then { s4 with showMap := !s4.showMap } else s4)).bind
        fun s6 => some (if inp.keyM = true then { s6 with mouseLook := !s6.mouseLook } else s6) := by
  unfold KeyStep
  cases inp.keyOne <;> cases inp.keyTwo <;> cases inp.keyThree <;> cases inp.keyTab <;>
    cases inp.keyR <;> rfl

theorem LevelDims.keyStep {s t : Game} {fuel : Nat} {inp : Input} (hd : LevelDims s)
    (h : KeyStep fuel inp s = some t) : LevelDims t := by
  have step : ∀ (b : Bool) (L : Game → Level) (u v : Game), LevelDims u →
      (if b = true then SetLevel fuel (L u) u else some u) = some v → LevelDims v := by
    intro b L u v hu hv
    split at hv
    · exact LevelDims.setLevel _ hv
    · simp only [Option.some.injEq] at hv
      subst hv; exact hu
  rw [KeyStep_eq] at h
  obtain ⟨s1, h1, h⟩ := Option.bind_eq_some.1 h
  obtain ⟨s2, h2, h⟩ := Option.bind_eq_some.1 h
  obtain ⟨s3, h3, h⟩ := Option.bind_eq_some.1 h
  obtain ⟨s4, h4, h⟩ := Option.bind_eq_some.1 h
  obtain ⟨s6, h6, h⟩ := Option.bind_eq_some.1 h
  have d1 := step _ (fun _ => .LEVEL_EASY) _ _ hd h1
  have d2 := step _ (fun _ => .LEVEL_MEDIUM) _ _ d1 h2
  have d3 := step _ (fun _ => .LEVEL_HARD) _ _ d2 h3
  have d4 := step _ (fun u => Level.ofInt ((u.currentLevel.toInt + 1) % 3)) _ _ d3 h4
  have d5 : LevelDims (if inp.keyG = true then { s4 with showMap := !s4.showMap } else s4) := by
    split
    · exact d4.congr rfl rfl
    · exact d4
  have d6 : LevelDims s6 := by
    split at h6
    · exact d5.initGame h6
    · simp only [Option.some.injEq] at h6
      subst h6; exact d5
  simp only [Option.some.injEq] at h
  subst h
  split
  · exact d6.congr rfl rfl
  · exact d6

theorem LevelDims.frame {s t : Game} {fuel : Nat} {inp : Input} (hd : LevelDims s)
    (h : Frame fuel inp s = some t) : LevelDims t := by
  simp only [Frame, Option.bind_eq_bind] at h
  obtain ⟨s1, h1, h⟩ := Option.bind_eq_some.1 h
  obtain ⟨s5, h5, h⟩ := Option.bind_eq_some.1 h
  have d1 := hd.keyStep h1
  have e2 := turnStep_fields inp s1
  have e3 := ResolveMove_grid (turnStep inp s1)
    ⟨(turnStep inp s1).playerPos.x + (frameVelocity inp).x,
      (turnStep inp s1).playerPos.y + (frameVelocity inp).y,
      (turnStep inp s1).playerPos.z + (frameVelocity inp).z⟩
  have e4 := (RevealStep_only_seen (MoveStep (frameVelocity inp) (turnStep inp s1))).1
  have d2 : LevelDims (turnStep inp s1) := by
    rw [e2]; exact d1.congr rfl rfl
  have d3 : LevelDims (MoveStep (frameVelocity inp) (turnStep inp s1)) :=
    d2.congr e3.2.1 e3.2.2
  have d4 : LevelDims (RevealStep (MoveStep (frameVelocity inp) (turnStep inp s1))) := by
    rw [e4]; exact d3.congr rfl rfl
  have d5 : LevelDims s5 := by
    simp only [TimerStep] at h5
    split at h5
    · split at h5
      · exact absurd h5 (by simp)
      · next u hu => exact (LevelDims.setLevel _ hu).initGame h5
    · simp only [Option.some.injEq] at h5
      subst h5; exact d4.congr rfl rfl
  simp only [GoalStep] at h
  split at h
  · split at h
    · exact absurd h (by simp)
    · next u hu => exact (LevelDims.setLevel _ hu).initGame h
  · simp only [Option.some.injEq] at h
    subst h; exact d5

/-- In every reachable state the grid is square with side 21, 31 or 41. -/
theorem Reachable.levelDims {s : Game} (h : Reachable s) : LevelDims s := by
  induction h with
  | start rng => exact ⟨rfl, Or.inl rfl⟩
  | setLevel fuel L s t _ hst _ => exact LevelDims.setLevel L hst
  | initGame fuel s t _ hst ih => exact ih.initGame hst
  | frame fuel inp s t _ hst ih => exact ih.frame hst

/-! ## Levels: `SetLevel` followed by `InitGame` -/

theorem levelSizes_cases (L : Level) :
    levelSizes L % 2 = 1 ∧ 3 ≤ levelSizes L ∧ levelSizes L ≤ 41 := by
  cases L <;> decide

/-- The state on which `SetLevel` calls `InitGame`. -/
theorem SetLevel_eq (fuel : Nat) (L : Level) (s : Game) :
    SetLevel fuel L s = InitGame fuel { s with
      currentLevel := L
      mazeH := levelSizes L
      mazeW := levelSizes L
      levelTimeRemaining := levelTimes L
      revealRadius := levelRadius L } := by
  cases L <;> rfl

/-- What `SetLevel` returns. -/
theorem SetLevel_fields (fuel : Nat) (L : Level) (s t : Game) (h : SetLevel fuel L s = some t) :
    t.currentLevel = L ∧ t.mazeW = levelSizes L ∧ t.mazeH = levelSizes L ∧
    t.levelTimeRemaining = levelTimes L ∧ t.revealRadius = levelRadius L ∧
    t.showMap = s.showMap ∧ t.mouseLook = s.mouseLook ∧
    (∀ x y : Int, 0 ≤ x → x < 41 → 0 ≤ y → y < 41 → t.seen y x = 0) ∧
    (t.playerPos.x = 2 ∧ t.playerPos.y = 0 ∧ t.playerPos.z = 2) ∧ t.playerYaw = 0 := by
  rw [SetLevel_eq] at h
  obtain ⟨hw, hh, h1, h2, h3, h4, h5, h6, h7, h8⟩ := InitGame_fields fuel _ t h
  have hodd := (levelSizes_cases L).1
  have hne : ¬ levelSizes L % 2 = 0 := by omega
  simp only [hne, if_false] at hw hh
  exact ⟨h1, hw, hh, h2, h3, h4, h5, h6, h7, h8⟩

theorem SetLevel_returns (fuel : Nat) (L : Level) (s : Game) (hfuel : 1681 < fuel) :
    ∃ t : Game, SetLevel fuel L s = some t := by
  rw [SetLevel_eq]
  apply InitGame_returns
  refine lt_of_le_of_lt ?_ hfuel
  exact (OddDims_of_size _ (levelSizes L) rfl rfl (levelSizes_cases L)).2

/-- `SetLevel(L); InitGame();` as the timer and the goal check run it. -/
theorem SetLevel_InitGame (fuel : Nat) (L : Level) (s : Game) (hfuel : 1681 < fuel) :
    ∃ t1 t : Game, SetLevel fuel L s = some t1 ∧ InitGame fuel t1 = some t ∧
      t1.mazeW = levelSizes L ∧ t1.mazeH = levelSizes L ∧
      t.currentLevel = L ∧ t.mazeW = levelSizes L ∧ t.mazeH = levelSizes L ∧
      t.levelTimeRemaining = levelTimes L ∧ t.revealRadius = levelRadius L ∧
      (∀ x y : Int, 0 ≤ x → x < 41 → 0 ≤ y → y < 41 → t.seen y x = 0) ∧
      (t.playerPos.x = 2 ∧ t.playerPos.y = 0 ∧ t.playerPos.z = 2) ∧ t.playerYaw = 0 := by
  obtain ⟨t1, ht1⟩ := SetLevel_returns fuel L s hfuel
  obtain ⟨a1, a2, a3, a4, a5, _, _, _, _, _⟩ := SetLevel_fields fuel L s t1 ht1
  have hsz := OddDims_of_size t1 (levelSizes L) a2 a3 (levelSizes_cases L)
  obtain ⟨t, ht⟩ := InitGame_returns fuel t1 (lt_of_le_of_lt hsz.2 hfuel)
  obtain ⟨hw, hh, b1, b2, b3, _, _, b6, b7, b8⟩ := InitGame_fields fuel t1 t ht
  have hodd := (levelSizes_cases L).1
  rw [a2, if_neg (by omega)] at hw
  rw [a3, if_neg (by omega)] at hh
  exact ⟨t1, t, ht1, ht, a2, a3, b1.trans a1, hw, hh, b2.trans a4, b3.trans a5, b6, b7, b8⟩

theorem goalReached_iff (s : Game) :
    goalReached s = true ↔
      (s.playerPos.x - 2 * ((s.mazeW : ℚ) - 2)) ^ 2 +
        (s.playerPos.z - 2 * ((s.mazeH : ℚ) - 2)) ^ 2 < 1 := by
  unfold goalReached
  simp only [decide_eq_true_eq, CELL_SIZE]
  push_cast
  constructor <;> intro h <;> nlinarith

/-! ## Goal check, bounds, exit, dimensions, restart -/

/-- C11 (the goal check advances cyclically).  With a recursion budget above 41 · 41: the goal
test holds exactly when the squared horizontal distance from the player to the centre
`(2(w-2), 2(h-2))` of the exit cell is below 1.  When it holds, the goal check returns a state
whose level is `(currentLevel + 1) mod 3`, with that level's size, time budget and reveal
radius, produced by `InitGame` (regenerated grid), with the mask cleared and the player at the
start; when it fails, the goal check changes nothing.  The successor of EASY is MEDIUM, of
MEDIUM is HARD, of HARD is EASY, so three advances return to the original level. -/
theorem GoalStep_advances (fuel : Nat) (s : Game) (hfuel : 1681 < fuel) :
    (goalReached s = true ↔
      (s.playerPos.x - 2 * ((s.mazeW : ℚ) - 2)) ^ 2 +
        (s.playerPos.z - 2 * ((s.mazeH : ℚ) - 2)) ^ 2 < 1) ∧
    (goalReached s = true →
      ∃ t : Game, GoalStep fuel s = some t ∧
        t.currentLevel = Level.ofInt ((s.currentLevel.toInt + 1) % 3) ∧
        t.mazeW = levelSizes t.currentLevel ∧ t.mazeH = levelSizes t.currentLevel ∧
        t.levelTimeRemaining = levelTimes t.currentLevel ∧
        t.revealRadius = levelRadius t.currentLevel ∧
        (∀ x y : Int, 0 ≤ x → x < 41 → 0 ≤ y → y < 41 → t.seen y x = 0) ∧
        (t.playerPos.x = 2 ∧ t.playerPos.y = 0 ∧ t.playerPos.z = 2) ∧ t.playerYaw = 0 ∧
        ∃ s0 : Game, s0.mazeW = t.mazeW ∧ s0.mazeH = t.mazeH ∧ InitGame fuel s0 = some t) ∧
    (goalReached s = false → GoalStep fuel s = some s) ∧
    (Level.ofInt ((Level.LEVEL_EASY.toInt + 1) % 3) = .LEVEL_MEDIUM ∧
      Level.ofInt ((Level.LEVEL_MEDIUM.toInt + 1) % 3) = .LEVEL_HARD ∧
      Level.ofInt ((Level.LEVEL_HARD.toInt + 1) % 3) = .LEVEL_EASY) ∧
    (∀ L : Level,
      Level.ofInt (((Level.ofInt (((Level.ofInt ((L.toInt + 1) % 3)).toInt + 1) % 3)).toInt + 1)
        % 3) = L) := by
  refine ⟨goalReached_iff s, ?_, ?_, ⟨by decide, by decide, by decide⟩, ?_⟩
  · intro hg
    obtain ⟨t1, t, ht1, ht, a1, a2, b1, b2, b3, b4, b5, b6, b7, b8⟩ :=
      SetLevel_InitGame fuel (Level.ofInt ((s.currentLevel.toInt + 1) % 3)) s hfuel
    refine ⟨t, ?_, b1, ?_, ?_, ?_, ?_, b6, b7, b8, t1, ?_, ?_, ht⟩
    · simp only [GoalStep, hg, if_true, ht1, ht]
    · rw [b1]; exact b2
    · rw [b1]; exact b3
    · rw [b1]; exact b4
    · rw [b1]; exact b5
    · rw [a1, b2]
    · rw [a2, b3]
  · intro hg
    simp only [GoalStep, hg, Bool.false_eq_true, if_false]
  · intro L
    cases L <;> decide

/-- Witness for C11: in `cornerGame` with the player moved to the centre of the exit cell
`(3, 3)`, the goal check advances from EASY to MEDIUM. -/
theorem GoalStep_advances_witness :
    ∃ t : Game, GoalStep 1682 { cornerGame with playerPos := ⟨6, 0, 6⟩ } = some t ∧
      t.currentLevel = .LEVEL_MEDIUM ∧ t.mazeW = 31 :=
  have h := (GoalStep_advances 1682 { cornerGame with playerPos := ⟨6, 0, 6⟩ } (by decide)).2.1
    ((goalReached_iff _).2 (by norm_num [cornerGame, initialGame]))
  h.elim fun t ht => ⟨t, ht.1, ht.2.1, ht.2.2.1.trans (by rw [ht.2.1]; rfl)⟩

/-- C12 (out-of-bounds queries are wall / blocked).  For a cell outside the active grid
`CellAt` returns `CELL_WALL` and `SetCell` returns the state unchanged; a position whose
nearest cell is outside the grid is blocked; and in every reachable state the cells that pass
the `IsInside` guard, the only ones at which `CellAt` and `SetCell` touch `maze[y][x]`, have
both indices in `0 .. MAX_SIZE - 1`. -/
theorem out_of_bounds_is_wall :
    (∀ (s : Game) (x y : Int), IsInside s x y = false → CellAt s x y = CELL_WALL) ∧
    (∀ (s : Game) (x y v : Int), IsInside s x y = false → SetCell s x y v = s) ∧
    (∀ (s : Game) (p : Vector3),
      IsInside s (roundf (p.x / CELL_SIZE)) (roundf (p.z / CELL_SIZE)) = false →
      CheckCollisionWithWalls s p = true) ∧
    (∀ (s : Game) (x y : Int), IsInside s x y = true → CellAt s x y = s.maze y x) ∧
    (∀ (s : Game), Reachable s → ∀ x y : Int, IsInside s x y = true →
      0 ≤ x ∧ x < MAX_SIZE ∧ 0 ≤ y ∧ y < MAX_SIZE) := by
  refine ⟨?_, ?_, ?_, ?_, ?_⟩
  · intro s x y h
    simp [CellAt, h]
  · intro s x y v h
    simp [SetCell, h]
  · intro s p h
    have h' : ¬ (0 ≤ roundf (p.x / CELL_SIZE) ∧ roundf (p.x / CELL_SIZE) < s.mazeW ∧
        0 ≤ roundf (p.z / CELL_SIZE) ∧ roundf (p.z / CELL_SIZE) < s.mazeH) := by
      rw [← IsInside_iff, h]; decide
    unfold CheckCollisionWithWalls
    simp only
    rw [if_pos (by omega)]
  · intro s x y h
    simp [CellAt, h]
  · intro s hs x y h
    obtain ⟨e, hd⟩ := hs.levelDims
    rw [IsInside_iff] at h
    unfold MAX_SIZE
    omega

/-- Witness for C12: the cell `(-1, 5)` and a position west of the grid, in `cornerGame`. -/
theorem out_of_bounds_is_wall_witness :
    CellAt cornerGame (-1) 5 = CELL_WALL ∧ SetCell cornerGame (-1) 5 CELL_EMPTY = cornerGame :=
  ⟨out_of_bounds_is_wall.1 cornerGame (-1) 5 (by decide),
    out_of_bounds_is_wall.2.1 cornerGame (-1) 5 CELL_EMPTY (by decide)⟩

/-- C14 (the exit is always reachable).  For every level and every stream of `rand()` values,
`SetLevel` returns (with a recursion budget above 41 · 41) a state with that level's grid size
and time budget in which the entry cell `(1, 1)` and the exit cell `(w-2, h-2)` are both open
and the exit is joined to the entry by a path of 4-adjacent open cells. -/
theorem SetLevel_exit_reachable (fuel : Nat) (L : Level) (s : Game) (hfuel : 1681 < fuel) :
    ∃ t : Game, SetLevel fuel L s = some t ∧
      t.mazeW = levelSizes L ∧ t.mazeH = levelSizes L ∧
      t.levelTimeRemaining = levelTimes L ∧
      Open t (1, 1) ∧ Open t (t.mazeW - 2, t.mazeH - 2) ∧
      Joined t (1, 1) (t.mazeW - 2, t.mazeH - 2) := by
  have hsz := OddDims_of_size { s with
      currentLevel := L
      mazeH := levelSizes L
      mazeW := levelSizes L
      levelTimeRemaining := levelTimes L
      revealRadius := levelRadius L } (levelSizes L) rfl rfl (levelSizes_cases L)
  obtain ⟨g, hg, hgrow, _, hC, _, hrooms⟩ := InitGame_core fuel _ hsz.1
    (lt_of_le_of_lt hsz.2 hfuel)
  have hw : g.mazeW = levelSizes L := hgrow.mazeW
  have hh : g.mazeH = levelSizes L := hgrow.mazeH
  have hL := levelSizes_cases L
  have h11 : Open g (1, 1) := by
    refine hrooms 1 1 (by decide) (by decide) ?_
    rw [IsInside_iff, hw, hh]; omega
  have hexit : Open g (g.mazeW - 2, g.mazeH - 2) := by
    refine hrooms _ _ (by omega) (by omega) ?_
    rw [IsInside_iff, hw, hh]; omega
  refine ⟨ResetPlayerToStart g, ?_, hw, hh, hgrow.levelTimeRemaining, h11, hexit, ?_⟩
  · rw [SetLevel_eq]; exact hg
  · exact Joined_mono (s := g) (fun _ h => h) (hC _ hexit)

/-- Witness for C14: level EASY, a 21 × 21 grid with entry `(1, 1)`, exit `(19, 19)` and 300
seconds on the timer. -/
theorem SetLevel_exit_reachable_witness :
    ∃ t : Game, SetLevel 1682 .LEVEL_EASY (initialGame fun n => n) = some t ∧
      t.mazeW = 21 ∧ t.mazeH = 21 ∧ t.levelTimeRemaining = 300 ∧
      Open t (1, 1) ∧ Open t (t.mazeW - 2, t.mazeH - 2) ∧
      Joined t (1, 1) (t.mazeW - 2, t.mazeH - 2) :=
  SetLevel_exit_reachable 1682 .LEVEL_EASY (initialGame fun n => n) (by decide)

/-- C16 (the active dimensions are odd and within the maximum).  In every reachable state the
grid is square with side 21, 31 or 41, hence odd and at most `MAX_SIZE`, and every cell that
passes the `IsInside` guard has both indices in `0 .. MAX_SIZE - 1`.  For any state, `InitGame`
(with a recursion budget above `mazeW * mazeH`) generates on odd dimensions, the entry value
when it is odd and the entry value minus one when it is even, and returns a state with these
dimensions. -/
theorem dimensions_odd_and_bounded :
    (∀ s : Game, Reachable s →
      s.mazeW = s.mazeH ∧ (s.mazeW = 21 ∨ s.mazeW = 31 ∨ s.mazeW = 41) ∧
      s.mazeW % 2 = 1 ∧ s.mazeH % 2 = 1 ∧ s.mazeW ≤ MAX_SIZE ∧ s.mazeH ≤ MAX_SIZE ∧
      ∀ x y : Int, IsInside s x y = true → 0 ≤ x ∧ x < MAX_SIZE ∧ 0 ≤ y ∧ y < MAX_SIZE) ∧
    (∀ (fuel : Nat) (s : Game), 0 < s.mazeW → 0 < s.mazeH →
      s.mazeW.toNat * s.mazeH.toNat < fuel →
      ∃ g t : Game, GenerateMazeRecursive fuel (makeOdd (clearArrays s)) 1 1 = some g ∧
        InitGame fuel s = some t ∧
        (makeOdd (clearArrays s)).mazeW = t.mazeW ∧ (makeOdd (clearArrays s)).mazeH = t.mazeH ∧
        g.mazeW = t.mazeW ∧ g.mazeH = t.mazeH ∧
        t.mazeW % 2 = 1 ∧ t.mazeH % 2 = 1 ∧
        (s.mazeW % 2 = 1 → t.mazeW = s.mazeW) ∧ (s.mazeW % 2 = 0 → t.mazeW = s.mazeW - 1) ∧
        (s.mazeH % 2 = 1 → t.mazeH = s.mazeH) ∧ (s.mazeH % 2 = 0 → t.mazeH = s.mazeH - 1)) := by
  constructor
  · intro s hs
    obtain ⟨e, hd⟩ := hs.levelDims
    refine ⟨e, hd, by omega, by omega, by unfold MAX_SIZE; omega, by unfold MAX_SIZE; omega, ?_⟩
    intro x y h
    rw [IsInside_iff] at h
    unfold MAX_SIZE
    omega
  · intro fuel s _ _ hfuel
    obtain ⟨t, ht⟩ := InitGame_returns fuel s hfuel
    obtain ⟨g, g2, hg, hg1, hg2, _, rfl⟩ := InitGame_some fuel s t ht
    obtain ⟨hw, hh, _⟩ := InitGame_fields fuel s _ ht
    have ho := makeOdd_odd (clearArrays s)
    have e1 : (makeOdd (clearArrays s)).mazeW = (ResetPlayerToStart g2).mazeW :=
      ((hg1.trans hg2).mazeW).symm
    have e2 : (makeOdd (clearArrays s)).mazeH = (ResetPlayerToStart g2).mazeH :=
      ((hg1.trans hg2).mazeH).symm
    refine ⟨g, _, hg, ht, e1, e2, hg2.mazeW.symm, hg2.mazeH.symm, ?_, ?_, ?_, ?_, ?_, ?_⟩
    · rw [← e1]; exact ho.1
    · rw [← e2]; exact ho.2
    · intro h; rw [hw, if_neg (by omega)]
    · intro h; rw [hw, if_pos h]
    · intro h; rw [hh, if_neg (by omega)]
    · intro h; rw [hh, if_pos h]

/-- Witness for C16: `InitGame` entered with the even dimensions 22 × 30 generates on
21 × 29. -/
theorem dimensions_odd_and_bounded_witness :
    ∃ g t : Game,
      GenerateMazeRecursive 661
        (makeOdd (clearArrays { initialGame (fun n => n) with mazeW := 22, mazeH := 30 })) 1 1
        = some g ∧
      InitGame 661 { initialGame (fun n => n) with mazeW := 22, mazeH := 30 } = some t ∧
      t.mazeW = 21 ∧ t.mazeH = 29 := by
  obtain ⟨g, t, h1, h2, _, _, _, _, _, _, _, h3, _, h4⟩ := dimensions_odd_and_bounded.2 661
    { initialGame (fun n => n) with mazeW := 22, mazeH := 30 } (by decide) (by decide)
    (by decide)
  exact ⟨g, t, h1, h2, h3 (by decide), h4 (by decide)⟩

/-- C19 (restart keeps the session parameters).  For a state with odd dimensions, `InitGame`
(with a recursion budget above `mazeW * mazeH`) returns a state with the same level, width,
height, reveal radius, time remaining and toggles; the mask is cleared and the player is at the
start with heading 0.  In a frame in which only `R` is pressed the key handling is exactly this
call of `InitGame`, so a restart does not reset the countdown. -/
theorem InitGame_restart (fuel : Nat) (s : Game) (hw : s.mazeW % 2 = 1) (hh : s.mazeH % 2 = 1)
    (hfuel : s.mazeW.toNat * s.mazeH.toNat < fuel) :
    (∃ t : Game, InitGame fuel s = some t ∧
      t.currentLevel = s.currentLevel ∧ t.mazeW = s.mazeW ∧ t.mazeH = s.mazeH ∧
      t.revealRadius = s.revealRadius ∧ t.levelTimeRemaining = s.levelTimeRemaining ∧
      t.showMap = s.showMap ∧ t.mouseLook = s.mouseLook ∧
      (∀ x y : Int, 0 ≤ x → x < 41 → 0 ≤ y → y < 41 → t.seen y x = 0) ∧
      (t.playerPos.x = 2 ∧ t.playerPos.y = 0 ∧ t.playerPos.z = 2) ∧ t.playerYaw = 0) ∧
    (∀ dt : ℚ, KeyStep fuel (restartInput dt) s = InitGame fuel s) := by
  constructor
  · obtain ⟨t, ht⟩ := InitGame_returns fuel s hfuel
    obtain ⟨a1, a2, a3, a4, a5, a6, a7, a8, a9, a10⟩ := InitGame_fields fuel s t ht
    rw [if_neg (by omega)] at a1 a2
    exact ⟨t, ht, a3, a1, a2, a5, a4, a6, a7, a8, a9, a10⟩
  · intro dt
    rw [KeyStep_eq]
    show (InitGame fuel s).bind (fun s6 => some s6) = InitGame fuel s
    cases InitGame fuel s <;> rfl

/-- Witness for C19: a restart in the initial state with 123 seconds left on the timer. -/
theorem InitGame_restart_witness :
    ∃ t : Game,
      InitGame 442 { initialGame (fun n => n) with levelTimeRemaining := 123 } = some t ∧
      t.currentLevel = .LEVEL_EASY ∧ t.mazeW = 21 ∧ t.mazeH = 21 ∧ t.revealRadius = 4 ∧
      t.levelTimeRemaining = 123 :=
  have h := (InitGame_restart 442 { initialGame (fun n => n) with levelTimeRemaining := 123 }
    (by decide) (by decide) (by decide)).1
  h.elim fun t ht => ⟨t, ht.1, ht.2.1, ht.2.2.1, ht.2.2.2.1, ht.2.2.2.2.1, ht.2.2.2.2.2.1⟩

/-! ## Determinism of the generator -/

theorem SameInside.bounds {s t : Game} (h : SameInside s t) (x y : Int) :
    IsInside t x y = IsInside s x y := by
  simp [IsInside, h.1, h.2.1]

theorem SameInside.cellAt {s t : Game} (h : SameInside s t) (x y : Int) :
    CellAt t x y = CellAt s x y := by
  unfold CellAt
  rw [h.bounds]
  by_cases hin : IsInside s x y = true
  · simp [hin, h.2.2.2 x y hin]
  · simp [hin]

theorem SetCell_rng (s : Game) (x y v : Int) : (SetCell s x y v).rng = s.rng := by
  unfold SetCell; split <;> rfl

theorem SameInside.setCell {s t : Game} (h : SameInside s t) (x y v : Int) :
    SameInside (SetCell s x y v) (SetCell t x y v) := by
  refine ⟨?_, ?_, ?_, ?_⟩
  · rw [SetCell_mazeW, SetCell_mazeW]; exact h.1
  · rw [SetCell_mazeH, SetCell_mazeH]; exact h.2.1
  · rw [SetCell_rng, SetCell_rng]; exact h.2.2.1
  · intro a b hin
    rw [IsInside_SetCell] at hin
    rw [SetCell_maze, SetCell_maze, h.bounds, h.2.2.2 a b hin]

theorem ShuffleLoop_sim (i : Nat) : ∀ (arr : List Int) (s t : Game), SameInside s t →
    (ShuffleLoop i arr t).1 = (ShuffleLoop i arr s).1 ∧
      SameInside (ShuffleLoop i arr s).2 (ShuffleLoop i arr t).2 := by
  induction i with
  | zero => intro arr s t h; exact ⟨rfl, h⟩
  | succ i ih =>
    intro arr s t h
    simp only [ShuffleLoop]
    have hv : (rand t).1 = (rand s).1 := by
      show t.rng 0 = s.rng 0
      rw [h.2.2.1]
    have hs : SameInside (rand s).2 (rand t).2 := by
      refine ⟨h.1, h.2.1, ?_, h.2.2.2⟩
      show (fun n => t.rng (n + 1)) = fun n => s.rng (n + 1)
      rw [h.2.2.1]
    rw [hv]
    exact ih _ _ _ hs

theorem carveDirs_sim (rec1 rec2 : Game → Int → Int → Option Game)
    (hrec : ∀ s t x y u, SameInside s t → rec1 s x y = some u →
      ∃ v, rec2 t x y = some v ∧ SameInside u v) (sx sy : Int) :
    ∀ (ds : List Int) (s t u : Game), SameInside s t → carveDirs rec1 sx sy ds s = some u →
      ∃ v, carveDirs rec2 sx sy ds t = some v ∧ SameInside u v := by
  intro ds
  induction ds with
  | nil =>
    intro s t u h hr
    simp only [carveDirs, Option.some.injEq] at hr
    subst hr
    exact ⟨t, rfl, h⟩
  | cons d ds ih =>
    intro s t u h hr
    simp only [carveDirs] at hr ⊢
    rw [h.bounds, h.cellAt]
    split at hr
    · next hin =>
      rw [if_pos hin]
      exact ih s t u h hr
    · next hin =>
      rw [if_neg hin]
      split at hr
      · next hw =>
        rw [if_pos hw]
        split at hr
        · exact absurd hr (by simp)
        · next s1 hs1 =>
          obtain ⟨t1, ht1, h1⟩ := hrec _ _ _ _ _ (h.setCell _ _ CELL_EMPTY) hs1
          rw [ht1]
          exact ih s1 t1 u h1 hr
      · next hw =>
        rw [if_neg hw]
        exact ih s t u h hr

/-- Two calls of the generator on states that agree inside the grid return states that agree
inside the grid. -/
theorem GenerateMazeRecursive_sim (fuel : Nat) : ∀ (s t : Game) (sx sy : Int) (u : Game),
    SameInside s t → GenerateMazeRecursive fuel s sx sy = some u →
      ∃ v, GenerateMazeRecursive fuel t sx sy = some v ∧ SameInside u v := by
  induction fuel with
  | zero => intro s t sx sy u _ h; simp [GenerateMazeRecursive] at h
  | succ fuel ih =>
    intro s t sx sy u h hr
    simp only [GenerateMazeRecursive] at hr ⊢
    have hsh := ShuffleLoop_sim 3 [0, 1, 2, 3] _ _ (h.setCell sx sy CELL_EMPTY)
    have hsh1 : (Shuffle [0, 1, 2, 3] 4 (SetCell t sx sy CELL_EMPTY)).1 =
        (Shuffle [0, 1, 2, 3] 4 (SetCell s sx sy CELL_EMPTY)).1 := hsh.1
    rw [hsh1]
    exact carveDirs_sim _ _ (fun s t x y u hst hu => ih s t x y u hst hu) sx sy _ _ _ _
      hsh.2 hr

theorem carveDirs_mono (rec1 rec2 : Game → Int → Int → Option Game)
    (hrec : ∀ s x y u, rec1 s x y = some u → rec2 s x y = some u) (sx sy : Int) :
    ∀ (ds : List Int) (s u : Game), carveDirs rec1 sx sy ds s = some u →
      carveDirs rec2 sx sy ds s = some u := by
  intro ds
  induction ds with
  | nil => intro s u hr; exact hr
  | cons d ds ih =>
    intro s u hr
    simp only [carveDirs] at hr ⊢
    split at hr
    · next hin => rw [if_pos hin]; exact ih s u hr
    · next hin =>
      rw [if_neg hin]
      split at hr
      · next hw =>
        rw [if_pos hw]
        split at hr
        · exact absurd hr (by simp)
        · next s1 hs1 =>
          rw [hrec _ _ _ _ hs1]
          exact ih s1 u hr
      · next hw => rw [if_neg hw]; exact ih s u hr

/-- A larger recursion budget does not change the result of the generator. -/
theorem GenerateMazeRecursive_fuel_mono (fuel : Nat) : ∀ (fuel' : Nat) (s : Game) (sx sy : Int)
    (u : Game), fuel ≤ fuel' → GenerateMazeRecursive fuel s sx sy = some u →
      GenerateMazeRecursive fuel' s sx sy = some u := by
  induction fuel with
  | zero => intro _ s sx sy u _ h; simp [GenerateMazeRecursive] at h
  | succ fuel ih =>
    intro fuel' s sx sy u hle hr
    obtain ⟨k, rfl⟩ : ∃ k, fuel' = k + 1 := ⟨fuel' - 1, by omega⟩
    simp only [GenerateMazeRecursive] at hr ⊢
    exact carveDirs_mono _ _ (fun s x y u h => ih k s x y u (by omega) h) sx sy _ _ _ hr

/-! ## Counting rooms -/

theorem countRooms_SetCell (s : Game) (x y : Int) (hin : IsInside s x y = true)
    (hw : ¬ Open s (x, y)) :
    countRooms (SetCell s x y CELL_EMPTY) =
      countRooms s + (if x % 2 = 1 ∧ y % 2 = 1 then 1 else 0) := by
  unfold countRooms roomCells
  rw [emptyCells_SetCell s x y hin, Finset.filter_insert]
  by_cases hp : x % 2 = 1 ∧ y % 2 = 1
  · rw [if_pos hp, if_pos (by exact hp), Finset.card_insert_of_not_mem]
    intro hmem
    exact hw ((mem_emptyCells s _).1 (Finset.mem_filter.1 hmem).1)
  · rw [if_neg hp, if_neg (by exact hp)]
    rfl

theorem RoomShape_carve (s : Game) (sx sy dx dy : Int) (hT : RoomShape s) (hx : sx % 2 = 1)
    (hy : sy % 2 = 1) (h0 : Open s (sx, sy)) (hu : UnitStep dx dy)
    (hin : IsInside s (sx + 2 * dx) (sy + 2 * dy) = true)
    (hw : s.maze (sy + 2 * dy) (sx + 2 * dx) = CELL_WALL) :
    RoomShape (SetCell (SetCell s (sx + dx) (sy + dy) CELL_EMPTY) (sx + 2 * dx) (sy + 2 * dy)
      CELL_EMPTY) := by
  obtain ⟨hL, hc⟩ := hT
  refine ⟨Lattice_carve s sx sy dx dy hL hx hy h0 hu hin hw, ?_⟩
  have hb := hu.between h0 hin
  have hn : ¬ Open s (sx + 2 * dx, sy + 2 * dy) := by
    intro h
    have h2 : s.maze (sy + 2 * dy) (sx + 2 * dx) = CELL_EMPTY := h.2
    rw [h2] at hw
    exact absurd hw (by decide)
  have hnx : (sx + 2 * dx) % 2 = 1 := by omega
  have hny : (sy + 2 * dy) % 2 = 1 := by omega
  have a2 : Adjacent (sx + dx, sy + dy) (sx + 2 * dx, sy + 2 * dy) := by
    simp only [Adjacent]
    rcases hu with ⟨rfl, rfl⟩ | ⟨rfl, rfl⟩ | ⟨rfl, rfl⟩ | ⟨rfl, rfl⟩ <;> omega
  have hwn : ¬ Open s (sx + dx, sy + dy) := hL.beside_wall hnx hny hn a2
  have hpw : ¬ ((sx + dx) % 2 = 1 ∧ (sy + dy) % 2 = 1) := by
    rcases hu with ⟨rfl, rfl⟩ | ⟨rfl, rfl⟩ | ⟨rfl, rfl⟩ | ⟨rfl, rfl⟩ <;> omega
  have hin2 : IsInside (SetCell s (sx + dx) (sy + dy) CELL_EMPTY) (sx + 2 * dx) (sy + 2 * dy)
      = true := by rw [IsInside_SetCell]; exact hin
  have hne : ¬ (sx + 2 * dx = sx + dx ∧ sy + 2 * dy = sy + dy) := by
    rcases hu with ⟨rfl, rfl⟩ | ⟨rfl, rfl⟩ | ⟨rfl, rfl⟩ | ⟨rfl, rfl⟩ <;> omega
  have hn2 : ¬ Open (SetCell s (sx + dx) (sy + dy) CELL_EMPTY) (sx + 2 * dx, sy + 2 * dy) := by
    rw [Open_SetCell]
    rintro (h | ⟨_, h⟩)
    · exact hn h
    · exact hne h
  rw [countEmpty_SetCell _ _ _ hin2 hn2, countEmpty_SetCell _ _ _ hb hwn,
    countRooms_SetCell _ _ _ hin2 hn2, countRooms_SetCell _ _ _ hb hwn, if_neg hpw,
    if_pos ⟨hnx, hny⟩]
  omega

/-- The rooms of a grid of odd width `w` and odd height `h`. -/
theorem card_rooms (w h : Int) (hw : w % 2 = 1) (hh : h % 2 = 1) :
    ((Finset.Ico 0 w ×ˢ Finset.Ico 0 h).filter
      fun c : Int × Int => c.1 % 2 = 1 ∧ c.2 % 2 = 1).card =
      ((w - 1) / 2).toNat * ((h - 1) / 2).toNat := by
  have himg : ((Finset.Ico 0 w ×ˢ Finset.Ico 0 h).filter
      fun c : Int × Int => c.1 % 2 = 1 ∧ c.2 % 2 = 1) =
      (Finset.Ico 0 ((w - 1) / 2) ×ˢ Finset.Ico 0 ((h - 1) / 2)).image
        fun c : Int × Int => (2 * c.1 + 1, 2 * c.2 + 1) := by
    ext ⟨x, y⟩
    simp only [Finset.mem_filter, Finset.mem_product, Finset.mem_Ico, Finset.mem_image,
      Prod.mk.injEq, Prod.exists]
    constructor
    · rintro ⟨⟨⟨h1, h2⟩, h3, h4⟩, h5, h6⟩
      exact ⟨(x - 1) / 2, (y - 1) / 2, ⟨⟨by omega, by omega⟩, by omega, by omega⟩, by omega,
        by omega⟩
    · rintro ⟨i, j, ⟨⟨h1, h2⟩, h3, h4⟩, rfl, rfl⟩
      exact ⟨⟨⟨by omega, by omega⟩, by omega, by omega⟩, by omega, by omega⟩
  rw [himg, Finset.card_image_of_injective]
  · simp
  · rintro ⟨a, b⟩ ⟨c, d⟩ h
    simp only [Prod.mk.injEq] at h ⊢
    constructor <;> omega

/-! ## The shape of every generated maze -/

/-- The grid that the generator returns on odd dimensions from the all-wall grid: `InitGame`
returns it with the player reset, it is a lattice in which every cell is a wall or open, every
room is open, and the open cells are one less than twice the rooms. -/
theorem InitGame_shape (fuel : Nat) (s : Game) (hd : OddDims s)
    (hfuel : s.mazeW.toNat * s.mazeH.toNat < fuel) :
    ∃ g : Game, GenerateMazeRecursive fuel (clearArrays s) 1 1 = some g ∧
      InitGame fuel s = some (ResetPlayerToStart g) ∧ Grows (clearArrays s) g ∧
      Lattice g ∧ Binary g ∧
      (∀ x y : Int, x % 2 = 1 → y % 2 = 1 → IsInside g x y = true → Open g (x, y)) ∧
      countEmpty g + 1 = 2 * countRooms g := by
  have hodd : makeOdd (clearArrays s) = clearArrays s := makeOdd_of_odd _ hd.1 hd.2.1
  obtain ⟨t, ht⟩ := InitGame_returns fuel s hfuel
  obtain ⟨g, g2, hg, hgrow, _, hg2, rfl⟩ := InitGame_some fuel s t ht
  rw [hodd] at hg hgrow
  have hin11 : IsInside (clearArrays s) 1 1 = true := by
    rw [IsInside_iff]
    show (0 : Int) ≤ 1 ∧ 1 < s.mazeW ∧ (0 : Int) ≤ 1 ∧ 1 < s.mazeH
    obtain ⟨_, _, h3, _, h5, _⟩ := hd
    omega
  have hno := clearArrays_not_open s hd
  have ho1 : ∀ x y : Int,
      Open (SetCell (clearArrays s) 1 1 CELL_EMPTY) (x, y) ↔ (x = 1 ∧ y = 1) := by
    intro x y
    rw [Open_SetCell]
    simp [hno, hin11]
  have hL1 : Lattice (SetCell (clearArrays s) 1 1 CELL_EMPTY) := by
    intro x y ho
    obtain ⟨rfl, rfl⟩ := (ho1 x y).1 ho
    left; constructor <;> decide
  have hempty : emptyCells (clearArrays s) = ∅ := by
    rw [Finset.eq_empty_iff_forall_not_mem]
    intro c hc
    exact hno c ((mem_emptyCells _ _).1 hc)
  have hR1 : RoomShape (SetCell (clearArrays s) 1 1 CELL_EMPTY) := by
    refine ⟨hL1, ?_⟩
    rw [countEmpty_SetCell _ 1 1 hin11 (hno _), countRooms_SetCell _ 1 1 hin11 (hno _)]
    unfold countEmpty countRooms roomCells
    rw [hempty]
    simp
  have hR := GenerateMazeRecursive_invariant RoomShape
    (by
      intro u v hm hw hh hs
      have e := Open_congr hm hw hh
      refine ⟨fun x y ho => by simp only [e] at ho ⊢; exact hs.1 x y ho, ?_⟩
      have he : emptyCells v = emptyCells u := by
        ext c; rw [mem_emptyCells, mem_emptyCells, e]
      have := hs.2
      unfold countEmpty countRooms roomCells at this ⊢
      rw [he]; exact this)
    RoomShape_carve fuel _ 1 1 g (by decide) (by decide) hin11 hR1 hg
  have hbin0 : Binary (clearArrays s) := by
    intro x y hin
    have hin' : (0 : Int) ≤ x ∧ x < s.mazeW ∧ (0 : Int) ≤ y ∧ y < s.mazeH :=
      (IsInside_iff _ _ _).1 hin
    obtain ⟨_, _, _, h4, _, h6⟩ := hd
    exact Or.inl (clearArrays_wall s x y ⟨hin'.1, by omega⟩ ⟨hin'.2.2.1, by omega⟩)
  have hcl := GenerateMazeRecursive_closed fuel _ 1 1 g (by decide) (by decide) hbin0 hin11 hg
  have h11 : Open g (1, 1) := GenerateMazeRecursive_opens fuel _ _ _ _ hin11 hg
  have hrooms := rooms_open g h11 (fun x y hx hy ho => (hcl x y hx hy ho).resolve_left (hno _))
  have hexit : Open g (g.mazeW - 2, g.mazeH - 2) := by
    have hgW : g.mazeW = s.mazeW := hgrow.mazeW
    have hgH : g.mazeH = s.mazeH := hgrow.mazeH
    obtain ⟨h1, h2, h3, _, h5, _⟩ := hd
    refine hrooms _ _ (by omega) (by omega) ?_
    rw [IsInside_iff]
    omega
  have e2 : g2 = g := by
    rw [hg2, SetCell_of_eq g 1 1 CELL_EMPTY h11.2, SetCell_of_eq g _ _ CELL_EMPTY hexit.2]
  rw [e2] at ht
  exact ⟨g, hg, ht, hgrow, hR.1, hgrow.binary hbin0, hrooms, hR.2⟩

/-- In a lattice grid the cells on the border of the grid are not open. -/
theorem Lattice.border {g : Game} (hL : Lattice g) (hw : g.mazeW % 2 = 1)
    (hh : g.mazeH % 2 = 1) (x y : Int)
    (hb : x = 0 ∨ x = g.mazeW - 1 ∨ y = 0 ∨ y = g.mazeH - 1) : ¬ Open g (x, y) := by
  intro ho
  have hout : ∀ a b : Int, Open g (a, b) → 0 ≤ a ∧ a < g.mazeW ∧ 0 ≤ b ∧ b < g.mazeH :=
    fun a b h => (IsInside_iff g a b).1 h.1
  have h0 := hout x y ho
  rcases hL x y ho with c | c | c
  · omega
  · have h1 := hout _ _ c.2.2.1
    have h2 := hout _ _ c.2.2.2
    omega
  · have h1 := hout _ _ c.2.2.1
    have h2 := hout _ _ c.2.2.2
    omega

theorem Binary.wall_of_not_open {g : Game} (hb : Binary g) {x y : Int}
    (hin : IsInside g x y = true) (hn : ¬ Open g (x, y)) : g.maze y x = CELL_WALL := by
  rcases hb x y hin with h | h
  · exact h
  · exact absurd ⟨hin, h⟩ hn

/-- C20 (lattice structure of every generated maze).  For odd dimensions between 3 and 41 and
any stream of `rand()` values, in the grid returned by `InitGame`: every border cell is a wall;
every cell of the grid with both coordinates even is a wall; every cell of the grid with both
coordinates odd is open; every cell of the 41 × 41 array outside the grid is a wall; and the
number of open cells is `2 * ((w-1)/2) * ((h-1)/2) - 1`. -/
theorem InitGame_lattice (fuel : Nat) (s : Game) (hw : s.mazeW % 2 = 1) (hh : s.mazeH % 2 = 1)
    (hw3 : 3 ≤ s.mazeW) (hwm : s.mazeW ≤ 41) (hh3 : 3 ≤ s.mazeH) (hhm : s.mazeH ≤ 41)
    (hfuel : s.mazeW.toNat * s.mazeH.toNat < fuel) :
    ∃ t : Game, InitGame fuel s = some t ∧ t.mazeW = s.mazeW ∧ t.mazeH = s.mazeH ∧
      (∀ x y : Int, IsInside t x y = true →
        (x = 0 ∨ x = t.mazeW - 1 ∨ y = 0 ∨ y = t.mazeH - 1) → t.maze y x = CELL_WALL) ∧
      (∀ x y : Int, IsInside t x y = true → x % 2 = 0 → y % 2 = 0 → t.maze y x = CELL_WALL) ∧
      (∀ x y : Int, IsInside t x y = true → x % 2 = 1 → y % 2 = 1 → t.maze y x = CELL_EMPTY) ∧
      (∀ x y : Int, 0 ≤ x → x < 41 → 0 ≤ y → y < 41 → IsInside t x y = false →
        t.maze y x = CELL_WALL) ∧
      (countEmpty t : Int) = 2 * ((s.mazeW - 1) / 2) * ((s.mazeH - 1) / 2) - 1 := by
  obtain ⟨g, _, hg, hgrow, hL, hbin, hrooms, hcount⟩ :=
    InitGame_shape fuel s (OddDims.mk' hw hh hw3 hwm hh3 hhm) hfuel
  have hgW : g.mazeW = s.mazeW := hgrow.mazeW
  have hgH : g.mazeH = s.mazeH := hgrow.mazeH
  refine ⟨ResetPlayerToStart g, hg, hgW, hgH, ?_, ?_, ?_, ?_, ?_⟩
  · intro x y hin hb
    exact hbin.wall_of_not_open hin
      (hL.border (by rw [hgW]; exact hw) (by rw [hgH]; exact hh) x y hb)
  · intro x y hin hx hy
    exact hbin.wall_of_not_open hin (hL.no_even hx hy)
  · intro x y hin hx hy
    exact (hrooms x y hx hy hin).2
  · intro x y hx0 hx1 hy0 hy1 hout
    show g.maze y x = CELL_WALL
    rcases hgrow.cell x y with e | ⟨hin, _⟩
    · rw [e]
      exact clearArrays_wall s x y ⟨hx0, by unfold MAX_SIZE; omega⟩
        ⟨hy0, by unfold MAX_SIZE; omega⟩
    · have h1 : IsInside g x y = true := by rw [hgrow.inside]; exact hin
      have h2 : IsInside g x y = false := hout
      rw [h1] at h2
      exact absurd h2 (by decide)
  · have hr : countRooms g = ((s.mazeW - 1) / 2).toNat * ((s.mazeH - 1) / 2).toNat := by
      rw [← card_rooms s.mazeW s.mazeH hw hh]
      unfold countRooms roomCells
      congr 1
      ext ⟨x, y⟩
      simp only [Finset.mem_filter, mem_emptyCells, Finset.mem_product, Finset.mem_Ico]
      constructor
      · rintro ⟨ho, h1, h2⟩
        have := (IsInside_iff g x y).1 ho.1
        rw [hgW, hgH] at this
        exact ⟨⟨⟨this.1, this.2.1⟩, this.2.2.1, this.2.2.2⟩, h1, h2⟩
      · rintro ⟨⟨⟨a1, a2⟩, a3, a4⟩, h1, h2⟩
        refine ⟨hrooms x y h1 h2 ?_, h1, h2⟩
        rw [IsInside_iff, hgW, hgH]
        exact ⟨a1, a2, a3, a4⟩
    have hc : countEmpty (ResetPlayerToStart g) = countEmpty g := rfl
    rw [hc]
    have h1 : ((countEmpty g : Int)) + 1 = 2 * (countRooms g : Int) := by exact_mod_cast hcount
    rw [hr] at h1
    push_cast at h1
    rw [Int.toNat_of_nonneg (by omega), Int.toNat_of_nonneg (by omega)] at h1
    linarith

/-- Witness for C20: the 21 × 21 grid has `2 · 10 · 10 - 1 = 199` open cells. -/
theorem InitGame_lattice_witness :
    ∃ t : Game, InitGame 442 (initialGame fun n => 5 * n + 1) = some t ∧
      (∀ x y : Int, IsInside t x y = true → x % 2 = 1 → y % 2 = 1 → t.maze y x = CELL_EMPTY) ∧
      (countEmpty t : Int) = 199 := by
  obtain ⟨t, h1, _, _, _, _, h3, _, h5⟩ := InitGame_lattice 442 (initialGame fun n => 5 * n + 1)
    (by decide) (by decide) (by decide) (by decide) (by decide) (by decide) (by decide)
  exact ⟨t, h1, h3, by rw [h5]; decide⟩

/-! ## The vertical axis -/

/-- The verdict of the collision test does not depend on the `y` coordinate. -/
theorem CheckCollisionWithWalls_y (s : Game) (p : Vector3) (y : ℚ) :
    CheckCollisionWithWalls s ⟨p.x, y, p.z⟩ = CheckCollisionWithWalls s p := rfl

/-- The `y` coordinate after the movement resolution: the proposed one when the full move is
unblocked, the current one otherwise. -/
theorem ResolveMove_y (s : Game) (p : Vector3) :
    (ResolveMove s p).playerPos.y =
      if CheckCollisionWithWalls s p = false then p.y else s.playerPos.y := by
  rw [ResolveMove_playerPos]
  split
  · rfl
  · split
    · rfl
    · split
      · rfl
      · rfl

theorem slideInput_velocity : frameVelocity slideInput = ⟨-1, 1, 0⟩ := by
  simp [frameVelocity, slideInput, idleInput]

theorem roundf_half : roundf ((1 : ℚ) / CELL_SIZE) = 1 :=
  roundf_eq_of_nonneg _ _ (by norm_num [CELL_SIZE]) (by norm_num [CELL_SIZE])
    (by norm_num [CELL_SIZE])

theorem roundf_two : roundf ((2 : ℚ) / CELL_SIZE) = 1 :=
  roundf_eq_of_nonneg _ _ (by norm_num [CELL_SIZE]) (by norm_num [CELL_SIZE])
    (by norm_num [CELL_SIZE])

/-- A position on the east face of the border cell `(0, 1)` is blocked. -/
theorem west_blocked (t : Game) (hwall : Wall t (0, 1)) (y : ℚ) :
    CheckCollisionWithWalls t ⟨1, y, 2⟩ = true := by
  cases hc : CheckCollisionWithWalls t ⟨1, y, 2⟩ with
  | true => rfl
  | false =>
    exfalso
    have h := ((CheckCollisionWithWalls_false_iff t ⟨1, y, 2⟩).1 hc).2 (-1) 0
      (Or.inl rfl) (Or.inr (Or.inl rfl))
    simp only [roundf_half, roundf_two] at h
    have h1 : IsInside t (1 + -1) (1 + 0) = true := hwall.1
    have h2 : t.maze (1 + 0) (1 + -1) = CELL_WALL := hwall.2
    simp only [wallHit, h1, CellAt, h2, Bool.not_true, Bool.false_eq_true, if_false, if_true,
      CELL_SIZE] at h
    norm_num at h

/-- In every state returned by `InitGame` on odd dimensions, a move from the start by
`(-1, 1, 0)` is blocked by the border wall, and the player stays at `(2, 0, 2)`: the vertical
part of the move is lost. -/
theorem InitGame_west_slide (fuel : Nat) (s : Game) (hd : OddDims s)
    (hfuel : s.mazeW.toNat * s.mazeH.toNat < fuel) :
    ∃ t : Game, InitGame fuel s = some t ∧
      CheckCollisionWithWalls t ⟨1, 1, 2⟩ = true ∧
      (MoveStep ⟨-1, 1, 0⟩ t).playerPos = ⟨2, 0, 2⟩ := by
  obtain ⟨g, _, hg, hgrow, hL, hbin, hrooms, _⟩ := InitGame_shape fuel s hd hfuel
  have hgW : g.mazeW = s.mazeW := hgrow.mazeW
  have hgH : g.mazeH = s.mazeH := hgrow.mazeH
  obtain ⟨hw, hh, hw3, _, hh3, _⟩ := hd
  have hin11 : IsInside g 1 1 = true := by rw [IsInside_iff]; omega
  have hin01 : IsInside g 0 1 = true := by rw [IsInside_iff]; omega
  have h11 : Open g (1, 1) := hrooms 1 1 (by decide) (by decide) hin11
  have hwall : Wall (ResetPlayerToStart g) (0, 1) := by
    refine ⟨hin01, ?_⟩
    rcases hbin 0 1 hin01 with h | h
    · exact h
    · exact absurd (⟨hin01, h⟩ : Open g (0, 1))
        (hL.border (by rw [hgW]; exact hw) (by rw [hgH]; exact hh) 0 1 (Or.inl rfl))
  have hb := west_blocked (ResetPlayerToStart g) hwall
  have hstart : CheckCollisionWithWalls (ResetPlayerToStart g) ⟨2, 0, 2⟩ = false := by
    have := start_unblocked (ResetPlayerToStart g) h11 0
    simpa [CELL_SIZE] using this
  refine ⟨ResetPlayerToStart g, hg, hb 1, ?_⟩
  have hpos : (ResetPlayerToStart g).playerPos = ⟨2, 0, 2⟩ := by
    simp [ResetPlayerToStart, CELL_SIZE]
  unfold MoveStep
  rw [ResolveMove_playerPos, hpos]
  have e1 : ((2 : ℚ) + -1) = 1 := by norm_num
  have e2 : ((0 : ℚ) + 1) = 1 := by norm_num
  have e3 : ((2 : ℚ) + 0) = 2 := by norm_num
  simp only [e1, e2, e3]
  rw [if_neg (by rw [hb 1]; decide), if_neg (by rw [hb 0]; decide), if_pos hstart]

/-- C17 (the vertical axis), evaluated at the failing input.  After `SetLevel(LEVEL_EASY)` the
player stands at `(2, 0, 2)`.  In a frame with the velocity `(-1, 1, 0)` of `slideInput` the
proposed position `(1, 1, 2)` is blocked by the border wall, and the resolved position is
`(2, 0, 2)`: its `y` is the current `0`, not the proposed `1`. -/
theorem vertical_move_dropped :
    ∃ t : Game, SetLevel 1682 .LEVEL_EASY (initialGame fun n => n) = some t ∧
      frameVelocity slideInput = ⟨-1, 1, 0⟩ ∧
      (t.playerPos.x = 2 ∧ t.playerPos.y = 0 ∧ t.playerPos.z = 2) ∧
      CheckCollisionWithWalls t ⟨1, 1, 2⟩ = true ∧
      (MoveStep (frameVelocity slideInput) t).playerPos.y = 0 ∧
      (MoveStep (frameVelocity slideInput) t).playerPos.y ≠
        t.playerPos.y + (frameVelocity slideInput).y := by
  have hsz := OddDims_of_size { initialGame (fun n => n) with
      currentLevel := .LEVEL_EASY
      mazeH := levelSizes .LEVEL_EASY
      mazeW := levelSizes .LEVEL_EASY
      levelTimeRemaining := levelTimes .LEVEL_EASY
      revealRadius := levelRadius .LEVEL_EASY } 21 rfl rfl (by decide)
  obtain ⟨t, ht, hb, hm⟩ := InitGame_west_slide 1682 _ hsz.1 (by decide)
  have hpos := (InitGame_fields 1682 _ t ht).2.2.2.2.2.2.2.2.1
  refine ⟨t, ?_, slideInput_velocity, hpos, hb, ?_, ?_⟩
  · rw [SetLevel_eq]; exact ht
  · rw [slideInput_velocity, hm]
  · rw [slideInput_velocity, hm, hpos.2.1]
    norm_num

theorem makeOdd_inside_le (s : Game) (x y : Int) (h : IsInside (makeOdd s) x y = true) :
    0 ≤ x ∧ x < s.mazeW ∧ 0 ≤ y ∧ y < s.mazeH := by
  rw [makeOdd_eq, IsInside_iff] at h
  have h : 0 ≤ x ∧ x < (if s.mazeW % 2 = 0 then s.mazeW - 1 else s.mazeW) ∧ 0 ≤ y ∧
      y < (if s.mazeH % 2 = 0 then s.mazeH - 1 else s.mazeH) := h
  obtain ⟨h1, h2, h3, h4⟩ := h
  refine ⟨h1, ?_, h3, ?_⟩
  · split at h2 <;> omega
  · split at h4 <;> omega

/-- C18 (determinism given the random stream).  Two runs of `InitGame` on states with the same
dimensions (at most `MAX_SIZE = 41`) and the same stream of `rand()` values, whatever their
previous grids, masks, players, timers and recursion budgets (above `mazeW * mazeH`), both
return, with the same dimensions, the same value in every cell of the 41 × 41 array and the
same remaining stream. -/
theorem InitGame_deterministic (fuel fuel' : Nat) (s s' : Game) (hw : s'.mazeW = s.mazeW)
    (hh : s'.mazeH = s.mazeH) (hr : s'.rng = s.rng) (hwm : s.mazeW ≤ 41) (hhm : s.mazeH ≤ 41)
    (hf : s.mazeW.toNat * s.mazeH.toNat < fuel) (hf' : s.mazeW.toNat * s.mazeH.toNat < fuel') :
    ∃ t t' : Game, InitGame fuel s = some t ∧ InitGame fuel' s' = some t' ∧
      t'.mazeW = t.mazeW ∧ t'.mazeH = t.mazeH ∧
      (∀ x y : Int, 0 ≤ x → x < 41 → 0 ≤ y → y < 41 → t'.maze y x = t.maze y x) ∧
      t'.rng = t.rng := by
  obtain ⟨t, ht⟩ := InitGame_returns fuel s hf
  obtain ⟨t', ht'⟩ := InitGame_returns fuel' s' (by rw [hw, hh]; exact hf')
  obtain ⟨g, g2, hg, hgrow1, _, hg2, rfl⟩ := InitGame_some fuel s t ht
  obtain ⟨g', g2', hg', hgrow1', _, hg2', rfl⟩ := InitGame_some fuel' s' t' ht'
  -- the two all-wall grids agree inside the grid
  have h0 : SameInside (makeOdd (clearArrays s)) (makeOdd (clearArrays s')) := by
    rw [makeOdd_eq (clearArrays s), makeOdd_eq (clearArrays s')]
    refine ⟨?_, ?_, hr, ?_⟩
    · show (if s'.mazeW % 2 = 0 then s'.mazeW - 1 else s'.mazeW) = _
      rw [hw]; rfl
    · show (if s'.mazeH % 2 = 0 then s'.mazeH - 1 else s'.mazeH) = _
      rw [hh]; rfl
    · intro x y hin
      rw [← makeOdd_eq (clearArrays s)] at hin
      have hb := makeOdd_inside_le (clearArrays s) x y hin
      have hb : 0 ≤ x ∧ x < s.mazeW ∧ 0 ≤ y ∧ y < s.mazeH := hb
      show (clearArrays s').maze y x = (clearArrays s).maze y x
      rw [clearArrays_wall s' x y ⟨hb.1, by unfold MAX_SIZE; omega⟩
          ⟨hb.2.2.1, by unfold MAX_SIZE; omega⟩,
        clearArrays_wall s x y ⟨hb.1, by unfold MAX_SIZE; omega⟩
          ⟨hb.2.2.1, by unfold MAX_SIZE; omega⟩]
  -- run both generators with the larger budget
  have hgm := GenerateMazeRecursive_fuel_mono fuel (max fuel fuel') _ 1 1 g (le_max_left _ _) hg
  have hgm' := GenerateMazeRecursive_fuel_mono fuel' (max fuel fuel') _ 1 1 g'
    (le_max_right _ _) hg'
  obtain ⟨v, hv, hsim⟩ := GenerateMazeRecursive_sim (max fuel fuel') _ _ 1 1 g h0 hgm
  rw [hgm'] at hv
  simp only [Option.some.injEq] at hv
  subst hv
  have hsim2 : SameInside g2 g2' := by
    rw [hg2, hg2', hsim.1, hsim.2.1]
    exact (hsim.setCell 1 1 CELL_EMPTY).setCell _ _ CELL_EMPTY
  have hG := hgrow1.trans ((Grows_SetCell g 1 1).trans (Grows_SetCell _ (g.mazeW - 2)
    (g.mazeH - 2)))
  have hG' := hgrow1'.trans ((Grows_SetCell g' 1 1).trans (Grows_SetCell _ (g'.mazeW - 2)
    (g'.mazeH - 2)))
  rw [← hg2] at hG
  rw [← hg2'] at hG'
  refine ⟨_, _, ht, ht', hsim2.1, hsim2.2.1, ?_, hsim2.2.2.1⟩
  intro x y hx0 hx1 hy0 hy1
  show g2'.maze y x = g2.maze y x
  by_cases hin : IsInside g2 x y = true
  · exact hsim2.2.2.2 x y hin
  · have hwall : ∀ u : Game, (makeOdd (clearArrays u)).maze y x = CELL_WALL := by
      intro u
      rw [makeOdd_eq]
      exact clearArrays_wall u x y ⟨hx0, by unfold MAX_SIZE; omega⟩
        ⟨hy0, by unfold MAX_SIZE; omega⟩
    have e1 : g2.maze y x = CELL_WALL := by
      rcases hG.cell x y with e | ⟨hi, _⟩
      · rw [e]; exact hwall s
      · rw [← hG.inside] at hi
        exact absurd hi hin
    have e2 : g2'.maze y x = CELL_WALL := by
      rcases hG'.cell x y with e | ⟨hi, _⟩
      · rw [e]; exact hwall s'
      · rw [← hG'.inside, hsim2.bounds] at hi
        exact absurd hi hin
    rw [e1, e2]

/-- Witness for C18: two 31 × 31 states with the same stream, one fresh and one with an open
grid, a seen mask and another budget. -/
theorem InitGame_deterministic_witness :
    ∃ t t' : Game,
      InitGame 962 { initialGame (fun n => 2 * n + 1) with mazeW := 31, mazeH := 31 } = some t ∧
      InitGame 5000 { cornerGame with
        mazeW := 31
        mazeH := 31
        seen := fun _ _ => 1
        rng := fun n => 2 * n + 1 } = some t' ∧
      t'.mazeW = t.mazeW ∧ t'.mazeH = t.mazeH ∧
      (∀ x y : Int, 0 ≤ x → x < 41 → 0 ≤ y → y < 41 → t'.maze y x = t.maze y x) ∧
      t'.rng = t.rng :=
  InitGame_deterministic 962 5000
    { initialGame (fun n => 2 * n + 1) with mazeW := 31, mazeH := 31 }
    { cornerGame with
      mazeW := 31
      mazeH := 31
      seen := fun _ _ => 1
      rng := fun n => 2 * n + 1 }
    rfl rfl rfl (by decide) (by decide) (by decide) (by decide)

end Maze
